import Mathlib

/-!
# AT28C256 EEPROM programmer firmware: protocol state machine and bus driver

A shallow embedding of `AT28C256Programmer.c` / `AT28C256Programmer.h`.

* The AVR I/O registers are modelled as a record of naturals; every store to an
  8-bit register is reduced modulo 256.
* Every register store appends the resulting register file to a `trace`, which
  is what the outside world (the memory device) can observe of the firmware.
* The device is a pair of functions giving the value of the input registers
  `PINC` and `PINF` from the trace observed so far; this covers every
  deterministic device.
* The two LUFA ring buffers are bounded FIFO lists; the illegal operations
  (insert into a full buffer, remove from an empty one) return `none`.
-/

namespace AT28C256

/-! ## Constants of `AT28C256Programmer.h` -/

/-- Input state machine state `GET_OPCODE`. -/
def GET_OPCODE : Nat := 0
/-- Input state machine state `GET_H_ADDRESS`. -/
def GET_H_ADDRESS : Nat := 1
/-- Input state machine state `GET_L_ADDRESS`. -/
def GET_L_ADDRESS : Nat := 2
/-- Input state machine state `READ_WRITE`. -/
def READ_WRITE : Nat := 3

/-- Command op code `READ`, the character `'r'`. -/
def READ : Nat := 114
/-- Command op code `WRITE`, the character `'w'`. -/
def WRITE : Nat := 119
/-- Command op code `SDP_ON`, the character `'e'`. -/
def SDP_ON : Nat := 101
/-- Command op code `SDP_OFF`, the character `'d'`. -/
def SDP_OFF : Nat := 100

/-- GPIO bitmask `OE_ACTIVE_LOW`. -/
def OE_ACTIVE_LOW : Nat := 0b11111011
/-- GPIO bitmask `WE_ACTIVE_LOW`. -/
def WE_ACTIVE_LOW : Nat := 0b10111111
/-- GPIO bitmask `CE_ACTIVE_LOW`. -/
def CE_ACTIVE_LOW : Nat := 0b01111111

/-- GPIO bitmask `PORTB_PIN_MASK`. -/
def PORTB_PIN_MASK : Nat := 0b11111111
/-- GPIO bitmask `PORTC_PIN_MASK`. -/
def PORTC_PIN_MASK : Nat := 0b11000000
/-- GPIO bitmask `PORTD_PIN_MASK`. -/
def PORTD_PIN_MASK : Nat := 0b11111111
/-- GPIO bitmask `PORTE_PIN_MASK`. -/
def PORTE_PIN_MASK : Nat := 0b01000100
/-- GPIO bitmask `PORTF_PIN_MASK`. -/
def PORTF_PIN_MASK : Nat := 0b11110011

/-- The C operator `~` on a mask: the masks are `int` constants, and `int` has
16 bits on the AVR, so the complement is taken in 16 bits.  Every use stores
the result in an 8-bit register, which keeps the low 8 bits. -/
def cnot (m : Nat) : Nat := 0xFFFF - m

/-- The reply `'E'` sent after `EnableSDP`. -/
def ACK_E : Nat := 69
/-- The reply `'D'` sent after `DisableSDP`. -/
def ACK_D : Nat := 68

/-- The size of `USB_Incoming_Buffer_Data` and `USB_Outgoing_Buffer_Data`. -/
def BUFFER_SIZE : Nat := 10

/-- The iteration bound of the loop in `DataPoll`. -/
def POLL_BOUND : Nat := 2500

/-! ## Hardware state -/

/-- The AVR I/O registers the firmware stores to. -/
structure Regs where
  PORTB : Nat
  PORTC : Nat
  PORTD : Nat
  PORTE : Nat
  PORTF : Nat
  DDRB : Nat
  DDRC : Nat
  DDRD : Nat
  DDRE : Nat
  DDRF : Nat
deriving DecidableEq, Repr

/-- A call of one of the two bus driver functions, with the arguments as
passed by the caller. -/
inductive BusOp where
  | write (address byte : Nat)
  | read (address : Nat)
deriving DecidableEq, Repr

/-- The hardware as the firmware sees it: the current register file, the
sequence of register files produced by the stores so far (oldest first), and
the bus driver calls made so far (oldest first). -/
structure HW where
  regs : Regs
  trace : List Regs
  calls : List BusOp
deriving DecidableEq, Repr

/-- The memory device and wiring, seen from the microcontroller: the value of
the input registers `PINC` and `PINF` as a function of everything the firmware
has put on its pins so far. -/
structure Device where
  PINC : List Regs → Nat
  PINF : List Regs → Nat

/-- One store to an I/O register: the register file changes and the new pin
configuration becomes visible to the outside. -/
def store (f : Regs → Regs) (hw : HW) : HW :=
  { hw with regs := f hw.regs, trace := hw.trace ++ [f hw.regs] }

/-- Entering a bus driver function. -/
def enter (op : BusOp) (hw : HW) : HW :=
  { hw with calls := hw.calls ++ [op] }

/-! ## `GPIO_Init` -/

/-- `GPIO_Init`, store by store. -/
def GPIO_Init (hw : HW) : HW :=
  let hw := store (fun r => { r with DDRE := (r.DDRE ||| PORTE_PIN_MASK) % 256 }) hw
  let hw := store (fun r => { r with PORTE := (r.PORTE ||| PORTE_PIN_MASK) % 256 }) hw
  let hw := store (fun r => { r with DDRB := PORTB_PIN_MASK % 256 }) hw
  let hw := store (fun r => { r with PORTB := cnot CE_ACTIVE_LOW % 256 }) hw
  let hw := store (fun r => { r with DDRD := PORTD_PIN_MASK % 256 }) hw
  let hw := store (fun r => { r with PORTD := cnot PORTD_PIN_MASK % 256 }) hw
  let hw := store (fun r => { r with DDRC := (r.DDRC &&& cnot PORTC_PIN_MASK) % 256 }) hw
  let hw := store (fun r => { r with DDRF := (r.DDRF &&& cnot PORTF_PIN_MASK) % 256 }) hw
  let hw := store (fun r => { r with PORTC := (r.PORTC ||| PORTC_PIN_MASK) % 256 }) hw
  let hw := store (fun r => { r with PORTF := (r.PORTF ||| PORTF_PIN_MASK) % 256 }) hw
  hw

/-! ## Bus driver -/

/-- `WriteByteToAddress(address, byte)`, store by store.  The `_delay_us(1)`
between pulling `/WE` low and high again has no effect on the registers. -/
def WriteByteToAddress (address byte : Nat) (hw : HW) : HW :=
  let hw := enter (.write address byte) hw
  let hw := store (fun r => { r with PORTE := (r.PORTE ||| PORTE_PIN_MASK) % 256 }) hw
  let hw := store (fun r => { r with PORTD := (address &&& PORTD_PIN_MASK) % 256 }) hw
  let hw := store (fun r => { r with PORTB := ((address >>> 8) &&& CE_ACTIVE_LOW) % 256 }) hw
  let hw := store (fun r => { r with DDRC := (r.DDRC ||| PORTC_PIN_MASK) % 256 }) hw
  let hw := store (fun r => { r with DDRF := (r.DDRF ||| PORTF_PIN_MASK) % 256 }) hw
  let hw := store (fun r => { r with PORTC := (r.PORTC &&& cnot PORTC_PIN_MASK) % 256 }) hw
  let hw := store (fun r => { r with PORTF := (r.PORTF &&& cnot PORTF_PIN_MASK) % 256 }) hw
  let hw := store (fun r => { r with PORTF := (r.PORTF ||| (byte &&& PORTF_PIN_MASK)) % 256 }) hw
  let hw := store (fun r =>
    { r with PORTC := (r.PORTC ||| ((byte &&& cnot PORTF_PIN_MASK) <<< 4)) % 256 }) hw
  let hw := store (fun r => { r with PORTE := (r.PORTE &&& WE_ACTIVE_LOW) % 256 }) hw
  let hw := store (fun r => { r with PORTE := (r.PORTE ||| PORTE_PIN_MASK) % 256 }) hw
  let hw := store (fun r => { r with PORTB := (r.PORTB ||| cnot CE_ACTIVE_LOW) % 256 }) hw
  let hw := store (fun r => { r with PORTD := (r.PORTD ||| cnot PORTD_PIN_MASK) % 256 }) hw
  hw

/-- The stores of `ReadByteFromAddress(address)` up to the point where the
input registers are sampled. -/
def readSetup (address : Nat) (hw : HW) : HW :=
  let hw := enter (.read address) hw
  let hw := store (fun r => { r with PORTE := (r.PORTE ||| PORTE_PIN_MASK) % 256 }) hw
  let hw := store (fun r => { r with PORTD := (address &&& PORTD_PIN_MASK) % 256 }) hw
  let hw := store (fun r =>
    { r with PORTB := (cnot CE_ACTIVE_LOW ||| ((address >>> 8) &&& CE_ACTIVE_LOW)) % 256 }) hw
  let hw := store (fun r => { r with DDRC := (r.DDRC &&& cnot PORTC_PIN_MASK) % 256 }) hw
  let hw := store (fun r => { r with DDRF := (r.DDRF &&& cnot PORTF_PIN_MASK) % 256 }) hw
  let hw := store (fun r => { r with PORTC := (r.PORTC ||| PORTC_PIN_MASK) % 256 }) hw
  let hw := store (fun r => { r with PORTF := (r.PORTF ||| PORTF_PIN_MASK) % 256 }) hw
  let hw := store (fun r => { r with PORTE := (r.PORTE &&& OE_ACTIVE_LOW) % 256 }) hw
  let hw := store (fun r => { r with PORTB := (r.PORTB &&& CE_ACTIVE_LOW) % 256 }) hw
  hw

/-- The byte `ReadByteFromAddress` assembles from the two input registers. -/
def readSample (dev : Device) (hw : HW) : Nat :=
  let byte := (((dev.PINC hw.trace % 256) &&& PORTC_PIN_MASK) >>> 4) % 256
  (byte ||| ((dev.PINF hw.trace % 256) &&& PORTF_PIN_MASK)) % 256

/-- The stores of `ReadByteFromAddress` after the input registers have been
sampled. -/
def readRelease (hw : HW) : HW :=
  let hw := store (fun r => { r with PORTE := (r.PORTE ||| PORTE_PIN_MASK) % 256 }) hw
  let hw := store (fun r => { r with PORTB := (r.PORTB ||| cnot CE_ACTIVE_LOW) % 256 }) hw
  let hw := store (fun r => { r with PORTD := (r.PORTD ||| cnot PORTD_PIN_MASK) % 256 }) hw
  hw

/-- `ReadByteFromAddress(address)`: the byte returned and the hardware state
on return. -/
def ReadByteFromAddress (dev : Device) (address : Nat) (hw : HW) : Nat × HW :=
  let hw := readSetup address hw
  let byte := readSample dev hw
  (byte, readRelease hw)

/-- The loop of `DataPoll`, with `n` the number of iterations left
(`2500 - i`) and `received` the current value of the local variable. -/
def DataPollLoop (dev : Device) (address byte : Nat) : Nat → Nat → HW → Nat × HW
  | 0, received, hw => (received, hw)
  | n + 1, _, hw =>
    let (received, hw) := ReadByteFromAddress dev address hw
    if received = byte then (received, hw) else DataPollLoop dev address byte n received hw

/-- The final value of the local variable `received` of `DataPoll` and the
hardware state on return.  The variable is uninitialised before the loop; the
loop body runs at least once, so the initial value is never used. -/
def DataPollReceived (dev : Device) (address byte : Nat) (hw : HW) : Nat × HW :=
  DataPollLoop dev address byte POLL_BOUND 0 hw

/-- `DataPoll(address, byte)`.  The function is declared `bool`, so
`return received;` converts the byte to `bool`: the caller gets `true` when
`received` is non-zero and `false` when it is zero. -/
def DataPoll (dev : Device) (address byte : Nat) (hw : HW) : Bool × HW :=
  let (received, hw) := DataPollReceived dev address byte hw
  (decide (received ≠ 0), hw)

/-- `EnableSDP`. -/
def EnableSDP (hw : HW) : HW :=
  let hw := WriteByteToAddress 0x5555 0xAA hw
  let hw := WriteByteToAddress 0x2AAA 0x55 hw
  let hw := WriteByteToAddress 0x5555 0xA0 hw
  hw

/-- `DisableSDP`. -/
def DisableSDP (hw : HW) : HW :=
  let hw := WriteByteToAddress 0x5555 0xAA hw
  let hw := WriteByteToAddress 0x2AAA 0x55 hw
  let hw := WriteByteToAddress 0x5555 0x80 hw
  let hw := WriteByteToAddress 0x5555 0xAA hw
  let hw := WriteByteToAddress 0x2AAA 0x55 hw
  let hw := WriteByteToAddress 0x5555 0x20 hw
  hw

/-! ## Ring buffers -/

/-- Modelled from the spec: the bounded FIFO byte queue (`RingBuffer_t` of the
LUFA library, whose source is not part of the repository).  The queue holds at
most `BUFFER_SIZE` bytes, the oldest first. -/
abbrev RingBuffer := List Nat

/-- Modelled from the spec: `RingBuffer_GetCount`, the number of stored bytes. -/
def RingBuffer_GetCount (b : RingBuffer) : Nat := b.length

/-- Modelled from the spec: `RingBuffer_IsFull`, the count equals the capacity. -/
def RingBuffer_IsFull (b : RingBuffer) : Bool := RingBuffer_GetCount b == BUFFER_SIZE

/-- Modelled from the spec: `RingBuffer_IsEmpty`, the count is zero. -/
def RingBuffer_IsEmpty (b : RingBuffer) : Bool := RingBuffer_GetCount b == 0

/-- Modelled from the spec: `RingBuffer_Insert(buffer, data)` with `data` a
`uint8_t`.  Inserting into a buffer that has no room is an illegal operation
and yields `none`. -/
def RingBuffer_Insert (b : RingBuffer) (data : Nat) : Option RingBuffer :=
  if RingBuffer_GetCount b < BUFFER_SIZE then some (b ++ [data % 256]) else none

/-- Modelled from the spec: `RingBuffer_Remove(buffer)`, the oldest byte and the
remaining buffer.  Removing from an empty buffer is an illegal operation and
yields `none`. -/
def RingBuffer_Remove (b : RingBuffer) : Option (Nat × RingBuffer) :=
  match b with
  | [] => none
  | x :: rest => some (x, rest)

/-- Modelled from the spec: `RingBuffer_Peek(buffer)`, the oldest byte, left in
the buffer.  Peeking at an empty buffer is an illegal operation and yields
`none`. -/
def RingBuffer_Peek (b : RingBuffer) : Option Nat := b.head?

/-! ## Command protocol state machine -/

/-- The state `ProcessBuffer` works on: its three `static` variables, the two
ring buffers and the hardware. -/
structure Sys where
  state : Nat
  opcode : Nat
  address : Nat
  USB_Incoming_Buffer : RingBuffer
  USB_Outgoing_Buffer : RingBuffer
  hw : HW
deriving DecidableEq, Repr

/-- The first `if` of `ProcessBuffer`: the `switch (state)` under the guard
"outgoing buffer not full and incoming buffer not empty".  A `state` without a
`case` (in particular `READ_WRITE`) falls through the `switch`. -/
def ProcessBuffer_switch (s : Sys) : Option Sys :=
  if !(RingBuffer_IsFull s.USB_Outgoing_Buffer)
      && !(RingBuffer_IsEmpty s.USB_Incoming_Buffer) then
    if s.state = GET_OPCODE then do
      let (opcode, incoming) ← RingBuffer_Remove s.USB_Incoming_Buffer
      let s := { s with opcode := opcode, USB_Incoming_Buffer := incoming,
                        state := GET_H_ADDRESS }
      if opcode = SDP_ON then do
        let hw := EnableSDP s.hw
        let outgoing ← RingBuffer_Insert s.USB_Outgoing_Buffer ACK_E
        pure { s with hw := hw, USB_Outgoing_Buffer := outgoing, state := GET_OPCODE }
      else if opcode = SDP_OFF then do
        let outgoing ← RingBuffer_Insert s.USB_Outgoing_Buffer ACK_D
        let hw := DisableSDP s.hw
        pure { s with hw := hw, USB_Outgoing_Buffer := outgoing, state := GET_OPCODE }
      else
        pure s
    else if s.state = GET_H_ADDRESS then do
      let (b, incoming) ← RingBuffer_Remove s.USB_Incoming_Buffer
      pure { s with address := (b <<< 8) % 65536, USB_Incoming_Buffer := incoming,
                    state := GET_L_ADDRESS }
    else if s.state = GET_L_ADDRESS then do
      let (b, incoming) ← RingBuffer_Remove s.USB_Incoming_Buffer
      pure { s with address := (s.address ||| b) % 65536, USB_Incoming_Buffer := incoming,
                    state := READ_WRITE }
    else
      pure s
  else
    pure s

/-- The second `if` of `ProcessBuffer`: the work done in state `READ_WRITE`.
The value returned by `DataPoll` is discarded. -/
def ProcessBuffer_execute (dev : Device) (s : Sys) : Option Sys :=
  if s.state = READ_WRITE then
    if s.opcode = READ ∧ !(RingBuffer_IsFull s.USB_Outgoing_Buffer) then do
      let (byte, hw) := ReadByteFromAddress dev s.address s.hw
      let outgoing ← RingBuffer_Insert s.USB_Outgoing_Buffer byte
      pure { s with hw := hw, USB_Outgoing_Buffer := outgoing, state := GET_OPCODE }
    else if s.opcode = WRITE ∧ !(RingBuffer_IsEmpty s.USB_Incoming_Buffer)
        ∧ !(RingBuffer_IsFull s.USB_Outgoing_Buffer) then do
      let (byte, incoming) ← RingBuffer_Remove s.USB_Incoming_Buffer
      let hw := WriteByteToAddress s.address byte s.hw
      let (_, hw) := DataPoll dev s.address byte hw
      let (byte, hw) := ReadByteFromAddress dev s.address hw
      let outgoing ← RingBuffer_Insert s.USB_Outgoing_Buffer byte
      pure { s with hw := hw, USB_Incoming_Buffer := incoming,
                    USB_Outgoing_Buffer := outgoing, state := GET_OPCODE }
    else
      pure s
  else
    pure s

/-- `ProcessBuffer`: one invocation of the state machine.  `none` means the
invocation performed an illegal ring buffer operation. -/
def ProcessBuffer (dev : Device) (s : Sys) : Option Sys :=
  ProcessBuffer_switch s >>= ProcessBuffer_execute dev

/-- `n` consecutive invocations of `ProcessBuffer` with nothing happening in
between. -/
def invoke (dev : Device) : Nat → Sys → Option Sys
  | 0, s => some s
  | n + 1, s => ProcessBuffer dev s >>= invoke dev n

/-! ## The main loop's receive step and delivery schedules -/

/-- The receive step of the main loop (`main`, the first `if` of the `for`
body): when the incoming buffer is not full, a byte the transport has
available (`rx = some b`, a non-negative `ReceivedByte`) is stored in it. -/
def receiveByte (rx : Option Nat) (s : Sys) : Option Sys :=
  if !(RingBuffer_IsFull s.USB_Incoming_Buffer) then
    match rx with
    | some b => do
      let incoming ← RingBuffer_Insert s.USB_Incoming_Buffer b
      pure { s with USB_Incoming_Buffer := incoming }
    | none => pure s
  else
    pure s

/-- The part of one pass of the main loop that feeds the state machine: the
receive step followed by one invocation of `ProcessBuffer`.  The flush of the
outgoing buffer, which `main` performs in between, is left out. -/
def pass (dev : Device) (rx : Option Nat) (s : Sys) : Option Sys :=
  receiveByte rx s >>= ProcessBuffer dev

/-- `n` passes in which the transport delivers nothing. -/
def idlePasses (dev : Device) : Nat → Sys → Option Sys
  | 0, s => some s
  | n + 1, s => pass dev none s >>= idlePasses dev n

/-- A fragmented delivery: for each entry `(n, b)` of the schedule, `n` idle
passes and then one pass in which byte `b` arrives. -/
def fragmented (dev : Device) : List (Nat × Nat) → Sys → Option Sys
  | [], s => some s
  | (n, b) :: rest, s => idlePasses dev n s >>= pass dev (some b) >>= fragmented dev rest

/-- The receive step repeated for each byte of a list, with no invocation of
`ProcessBuffer` in between. -/
def queueAll : List Nat → Sys → Option Sys
  | [], s => some s
  | b :: rest, s => receiveByte (some b) s >>= queueAll rest

/-- A batch delivery: all bytes are queued first, then `ProcessBuffer` is
invoked `k` times. -/
def batch (dev : Device) (bytes : List Nat) (k : Nat) (s : Sys) : Option Sys :=
  queueAll bytes s >>= invoke dev k

/-- The byte sequences that are valid commands of the wire protocol. -/
def validCommand (cmd : List Nat) : Prop :=
  (∃ hi lo, hi < 256 ∧ lo < 256 ∧ cmd = [READ, hi, lo])
  ∨ (∃ hi lo data, hi < 256 ∧ lo < 256 ∧ data < 256 ∧ cmd = [WRITE, hi, lo, data])
  ∨ cmd = [SDP_ON] ∨ cmd = [SDP_OFF]

/-- Invocations of `ProcessBuffer` between which the transport replaces the
contents of the two buffers: before each invocation the incoming and outgoing
buffers are set to the next pair of the list. -/
def invokeWith (dev : Device) : List (RingBuffer × RingBuffer) → Sys → Option Sys
  | [], s => some s
  | (incoming, outgoing) :: rest, s =>
    ProcessBuffer dev { s with USB_Incoming_Buffer := incoming, USB_Outgoing_Buffer := outgoing }
      >>= invokeWith dev rest

/-! ## Consecutive reads -/

/-- The hardware state after `n` consecutive calls `ReadByteFromAddress(address)`. -/
def pollReads (dev : Device) (address : Nat) : Nat → HW → HW
  | 0, hw => hw
  | n + 1, hw => pollReads dev address n (ReadByteFromAddress dev address hw).2

/-- The byte returned by the `j`-th (counting from 1) of a run of consecutive
calls `ReadByteFromAddress(address)`. -/
def nthRead (dev : Device) (address : Nat) (j : Nat) (hw : HW) : Nat :=
  (ReadByteFromAddress dev address (pollReads dev address (j - 1) hw)).1

/-! ## What the memory device observes on its pins -/

/-- Pin level of `/CE` (port B, bit 7) is low. -/
def CE_low (r : Regs) : Bool := !r.PORTB.testBit 7

/-- Pin level of `/OE` (port E, bit 2) is low. -/
def OE_low (r : Regs) : Bool := !r.PORTE.testBit 2

/-- Pin level of `/WE` (port E, bit 6) is low. -/
def WE_low (r : Regs) : Bool := !r.PORTE.testBit 6

/-- The 15-bit address on the address lines: port D carries A0..A7, the low
seven pins of port B carry A8..A14. -/
def busAddress (r : Regs) : Nat := ((r.PORTB &&& 0x7F) <<< 8) ||| (r.PORTD &&& 0xFF)

/-- The byte on the data lines as driven by the microcontroller: data bits
7, 6, 5, 4, 1, 0 are on the same-numbered pins of port F, data bits 3 and 2
are on pins 7 and 6 of port C. -/
def busData (r : Regs) : Nat := ((r.PORTC &&& 0xC0) >>> 4) ||| (r.PORTF &&& 0xF3)

/-- All eight data pins are configured as outputs. -/
def dataOut (r : Regs) : Bool := (r.DDRC &&& 0xC0 == 0xC0) && (r.DDRF &&& 0xF3 == 0xF3)

/-- All eight data pins are configured as inputs. -/
def dataIn (r : Regs) : Bool := (r.DDRC &&& 0xC0 == 0) && (r.DDRF &&& 0xF3 == 0)

/-- The control lines select a write: `/CE` and `/WE` low, `/OE` high. -/
def writeCycle (r : Regs) : Bool := CE_low r && WE_low r && !OE_low r

/-- The control lines select a read: `/CE` and `/OE` low, `/WE` high. -/
def readCycle (r : Regs) : Bool := CE_low r && OE_low r && !WE_low r

/-- The bus cycle a pin configuration presents to the memory device, if any:
a write of the driven byte to the driven address, or a read of the driven
address. -/
def observed (r : Regs) : Option BusOp :=
  if writeCycle r then some (.write (busAddress r) (busData r))
  else if readCycle r then some (.read (busAddress r))
  else none

/-- The bus cycles the memory device observes over a trace, oldest first. -/
def busCycles (trace : List Regs) : List BusOp := trace.filterMap observed

/-- A bus cycle together with the direction of the data pins during it: the
cycle observed, whether all data pins are outputs, whether all are inputs. -/
def cycleInfo (r : Regs) : Option (BusOp × Bool × Bool) :=
  (observed r).map fun op => (op, dataOut r, dataIn r)

/-! ## An ideal memory device -/

/-- The effect of one pin configuration on the content of an ideal memory: a
write cycle with the data pins driven stores the driven byte at the driven
address. -/
def idealStep (mem : Nat → Nat) (r : Regs) : Nat → Nat :=
  if writeCycle r && dataOut r then Function.update mem (busAddress r) (busData r) else mem

/-- The content of an ideal memory that started as `init` and has observed
`trace`. -/
def idealMem (init : Nat → Nat) (trace : List Regs) : Nat → Nat :=
  trace.foldl idealStep init

/-- The level an ideal memory produces on an input register: during a read
cycle with the data pins released, the stored byte appears on the data pins;
all other pins, and all pins outside a read cycle, read back the port latch. -/
def idealPins (init : Nat → Nat) (trace : List Regs)
    (dataBits : Nat → Nat) (mask : Nat) (port : Regs → Nat) : Nat :=
  match trace.getLast? with
  | none => 0
  | some r =>
    if readCycle r && dataIn r then
      dataBits (idealMem init trace (busAddress r)) ||| (port r &&& (0xFF - mask))
    else port r

/-- The effect on the content of an ideal memory of a bus cycle with its data
pin directions, as produced by `cycleInfo`. -/
def storeCycle (mem : Nat → Nat) (c : BusOp × Bool × Bool) : Nat → Nat :=
  match c with
  | (.write a v, true, _) => Function.update mem a v
  | _ => mem

/-- The ideal simulated memory device with initial content `init`: a write
cycle stores the driven value at the driven 15-bit address, a read cycle
returns the stored value. -/
def idealDevice (init : Nat → Nat) : Device where
  PINC trace := idealPins init trace (fun m => (m &&& 0x0C) <<< 4) 0xC0 Regs.PORTC
  PINF trace := idealPins init trace (fun m => m &&& 0xF3) 0xF3 Regs.PORTF

/-- A device on which every read returns the same byte `m`, encoded on the
data pins of ports C and F. -/
def constDevice (m : Nat) : Device where
  PINC _ := (m &&& 0x0C) <<< 4
  PINF _ := m &&& 0xF3

/-- A register file with every register zero, as after reset. -/
def Regs.reset : Regs :=
  { PORTB := 0, PORTC := 0, PORTD := 0, PORTE := 0, PORTF := 0,
    DDRB := 0, DDRC := 0, DDRD := 0, DDRE := 0, DDRF := 0 }

/-- The hardware after reset: nothing stored, nothing observed. -/
def HW.reset : HW := { regs := Regs.reset, trace := [], calls := [] }

/-- The hardware after reset and `GPIO_Init`. -/
def HW.init : HW := GPIO_Init HW.reset

/-- The system at startup: `state` is `GET_OPCODE`, the other two statics are
zero-initialised, both ring buffers are empty. -/
def Sys.init : Sys :=
  { state := GET_OPCODE, opcode := 0, address := 0,
    USB_Incoming_Buffer := [], USB_Outgoing_Buffer := [], hw := HW.init }

/-! ## Register stores made by a call -/

/-- The register files produced by the stores made between two hardware
states, oldest first: what was appended to the trace. -/
def newStores (before after : HW) : List Regs := after.trace.drop before.trace.length

/-- All three active-low control lines are deasserted: `/WE` (port E, bit 6),
`/OE` (port E, bit 2) and `/CE` (port B, bit 7) are high. -/
def controlIdle (r : Regs) : Bool :=
  r.PORTE.testBit 6 && r.PORTE.testBit 2 && r.PORTB.testBit 7

/-- The idle state of the data lines, as `GPIO_Init` establishes it: the data
pins of port C (mask `0xC0`) and port F (mask `0xF3`) are inputs and their
pull-ups are enabled. -/
def dataIdle (r : Regs) : Bool :=
  dataIn r && (r.PORTC &&& 0xC0 == 0xC0) && (r.PORTF &&& 0xF3 == 0xF3)

/-- The stores of `WriteByteToAddress(address, byte)` up to and including the
one that pulls `/WE` low. -/
def writeSetup (address byte : Nat) (hw : HW) : HW :=
  let hw := enter (.write address byte) hw
  let hw := store (fun r => { r with PORTE := (r.PORTE ||| PORTE_PIN_MASK) % 256 }) hw
  let hw := store (fun r => { r with PORTD := (address &&& PORTD_PIN_MASK) % 256 }) hw
  let hw := store (fun r => { r with PORTB := ((address >>> 8) &&& CE_ACTIVE_LOW) % 256 }) hw
  let hw := store (fun r => { r with DDRC := (r.DDRC ||| PORTC_PIN_MASK) % 256 }) hw
  let hw := store (fun r => { r with DDRF := (r.DDRF ||| PORTF_PIN_MASK) % 256 }) hw
  let hw := store (fun r => { r with PORTC := (r.PORTC &&& cnot PORTC_PIN_MASK) % 256 }) hw
  let hw := store (fun r => { r with PORTF := (r.PORTF &&& cnot PORTF_PIN_MASK) % 256 }) hw
  let hw := store (fun r => { r with PORTF := (r.PORTF ||| (byte &&& PORTF_PIN_MASK)) % 256 }) hw
  let hw := store (fun r =>
    { r with PORTC := (r.PORTC ||| ((byte &&& cnot PORTF_PIN_MASK) <<< 4)) % 256 }) hw
  let hw := store (fun r => { r with PORTE := (r.PORTE &&& WE_ACTIVE_LOW) % 256 }) hw
  hw

/-- The stores of `WriteByteToAddress` after the `_delay_us(1)` that follows
pulling `/WE` low. -/
def writeRelease (hw : HW) : HW :=
  let hw := store (fun r => { r with PORTE := (r.PORTE ||| PORTE_PIN_MASK) % 256 }) hw
  let hw := store (fun r => { r with PORTB := (r.PORTB ||| cnot CE_ACTIVE_LOW) % 256 }) hw
  let hw := store (fun r => { r with PORTD := (r.PORTD ||| cnot PORTD_PIN_MASK) % 256 }) hw
  hw

/-! ## Sequences of bus driver calls -/

/-- One call of a bus driver function, described by a `BusOp`. -/
def runCall (dev : Device) (op : BusOp) (hw : HW) : HW :=
  match op with
  | .write address byte => WriteByteToAddress address byte hw
  | .read address => (ReadByteFromAddress dev address hw).2

/-- A sequence of bus driver calls, made one after the other. -/
def runCalls (dev : Device) : List BusOp → HW → HW
  | [], hw => hw
  | op :: rest, hw => runCalls dev rest (runCall dev op hw)

/-- Bus contention in a pin configuration: `/OE` is low while some data pin is
configured as an output (`DDRC & 0xC0 != 0` or `DDRF & 0xF3 != 0`), or `/OE`
and `/WE` are low at the same time. -/
def contention (r : Regs) : Bool :=
  (OE_low r && !dataIn r) || (OE_low r && WE_low r)

/-! ## The main loop -/

/-- What the transport does during one pass of the main loop: the result of
`CDC_Device_ReceiveByte` (`none` for a negative result, no byte available),
the result of `Endpoint_IsINReady`, and for each `i` whether the `i`-th call
(counting from 0) of `CDC_Device_SendByte` in this pass returns
`ENDPOINT_READYWAIT_NoError`. -/
structure PassInput where
  received : Option Nat
  inReady : Bool
  sendOk : Nat → Bool

/-- The loop `while (BytesToSend--)` of `main`: `n` is the value of
`BytesToSend`, `i` the number of calls of `CDC_Device_SendByte` made so far in
this pass, `handed` the bytes passed to it so far.  A failed send leaves the
loop without removing the byte. -/
def flushLoop (sendOk : Nat → Bool) :
    Nat → Nat → RingBuffer → List Nat → Option (RingBuffer × List Nat)
  | 0, _, q, handed => some (q, handed)
  | n + 1, i, q, handed => do
    let b ← RingBuffer_Peek q
    if sendOk i then do
      let (_, q') ← RingBuffer_Remove q
      flushLoop sendOk n (i + 1) q' (handed ++ [b])
    else
      some (q, handed ++ [b])

/-- The flush of the outgoing buffer in one pass of `main`: the buffer left
and the bytes handed to `CDC_Device_SendByte`, in order.  `bankLimit` is the
value of `CDC_TXRX_EPSIZE - 1`; the constant is defined in `Descriptors.h`,
which is not among the sources. -/
def flushOutgoing (bankLimit : Nat) (inp : PassInput) (q : RingBuffer) :
    Option (RingBuffer × List Nat) :=
  let BufferCount := RingBuffer_GetCount q % 65536
  if BufferCount ≠ 0 then
    if inp.inReady then
      let BytesToSend := min BufferCount bankLimit % 256
      flushLoop inp.sendOk BytesToSend 0 q []
    else
      some (q, [])
  else
    some (q, [])

/-- One pass of the `for (;;)` loop of `main`: the receive step, the flush of
the outgoing buffer, then `ProcessBuffer`.  Returns the new state and the
bytes handed to the transport in this pass.  (`CDC_Device_USBTask` and
`USB_USBTask` do not touch the state modelled here.) -/
def mainPass (bankLimit : Nat) (dev : Device) (inp : PassInput) (s : Sys) :
    Option (Sys × List Nat) := do
  let s ← receiveByte inp.received s
  let (outgoing, handed) ← flushOutgoing bankLimit inp s.USB_Outgoing_Buffer
  let s ← ProcessBuffer dev { s with USB_Outgoing_Buffer := outgoing }
  pure (s, handed)

/-- Consecutive passes of the main loop, one per element of the list of
transport inputs; the bytes handed to the transport are collected in order. -/
def mainLoop (bankLimit : Nat) (dev : Device) : List PassInput → Sys → Option (Sys × List Nat)
  | [], s => some (s, [])
  | inp :: rest, s => do
    let (s, h1) ← mainPass bankLimit dev inp s
    let (s, h2) ← mainLoop bankLimit dev rest s
    pure (s, h1 ++ h2)

/-- The number of sends that succeed before the first failure, among the `n`
sends numbered `i`, `i + 1`, ... -/
def leadingSuccesses (sendOk : Nat → Bool) : Nat → Nat → Nat
  | 0, _ => 0
  | n + 1, i => if sendOk i then leadingSuccesses sendOk n (i + 1) + 1 else 0

/-- Both ring buffers hold at most `BUFFER_SIZE` bytes. -/
def withinCapacity (s : Sys) : Prop :=
  RingBuffer_GetCount s.USB_Incoming_Buffer ≤ BUFFER_SIZE
    ∧ RingBuffer_GetCount s.USB_Outgoing_Buffer ≤ BUFFER_SIZE

instance (s : Sys) : Decidable (withinCapacity s) := by
  unfold withinCapacity
  infer_instance

/-! ## Arbitrary interleavings of the state machine and the transport -/

/-- The things that can happen to the state `ProcessBuffer` works on: an
invocation of `ProcessBuffer`, the transport filling the incoming buffer with
a byte (the receive step of `main`), the transport draining one byte from the
outgoing buffer (one successful send of the flush of `main`). -/
inductive Event where
  | invoke
  | fill (b : Nat)
  | drain

/-- The effect of one event. -/
def Event.apply (dev : Device) (e : Event) (s : Sys) : Option Sys :=
  match e with
  | .invoke => ProcessBuffer dev s
  | .fill b => receiveByte (some b) s
  | .drain =>
    if RingBuffer_IsEmpty s.USB_Outgoing_Buffer then some s
    else do
      let (_, outgoing) ← RingBuffer_Remove s.USB_Outgoing_Buffer
      pure { s with USB_Outgoing_Buffer := outgoing }

/-- A sequence of events, applied in order. -/
def runEvents (dev : Device) : List Event → Sys → Option Sys
  | [], s => some s
  | e :: rest, s => Event.apply dev e s >>= runEvents dev rest

/-! ## Ring buffer facts -/

theorem isFull_eq_false {b : RingBuffer} (h : RingBuffer_GetCount b < BUFFER_SIZE) :
    RingBuffer_IsFull b = false := by
  simp only [RingBuffer_IsFull, beq_eq_false_iff_ne]
  omega

theorem insert_of_room {b : RingBuffer} (h : RingBuffer_GetCount b < BUFFER_SIZE) (x : Nat) :
    RingBuffer_Insert b x = some (b ++ [x % 256]) := by
  simp [RingBuffer_Insert, h]

theorem readSample_mod (dev : Device) (hw : HW) : readSample dev hw % 256 = readSample dev hw := by
  simp [readSample]

/-! ## Single steps of `ProcessBuffer` -/

theorem ProcessBuffer_full (dev : Device) (s : Sys)
    (h : RingBuffer_IsFull s.USB_Outgoing_Buffer = true) : ProcessBuffer dev s = some s := by
  simp [ProcessBuffer, ProcessBuffer_switch, ProcessBuffer_execute, h]

theorem ProcessBuffer_empty (dev : Device) (s : Sys) (h : s.USB_Incoming_Buffer = [])
    (hr : s.state = READ_WRITE → s.opcode ≠ READ) : ProcessBuffer dev s = some s := by
  simp [ProcessBuffer, ProcessBuffer_switch, ProcessBuffer_execute, h, RingBuffer_IsEmpty,
    RingBuffer_GetCount]
  intro h1 h2
  exact absurd h2 (hr h1)

theorem ProcessBuffer_stalled (dev : Device) (s : Sys) (hs : s.state = READ_WRITE)
    (hr : s.opcode ≠ READ) (hw : s.opcode ≠ WRITE) : ProcessBuffer dev s = some s := by
  simp [ProcessBuffer, ProcessBuffer_switch, ProcessBuffer_execute, hs, hr, hw, READ_WRITE,
    GET_OPCODE, GET_H_ADDRESS, GET_L_ADDRESS]

theorem ProcessBuffer_opcode (dev : Device) (s : Sys) (x : Nat) (rest : List Nat)
    (hs : s.state = GET_OPCODE) (hin : s.USB_Incoming_Buffer = x :: rest)
    (hout : RingBuffer_GetCount s.USB_Outgoing_Buffer < BUFFER_SIZE)
    (hon : x ≠ SDP_ON) (hoff : x ≠ SDP_OFF) :
    ProcessBuffer dev s
      = some { s with opcode := x, USB_Incoming_Buffer := rest, state := GET_H_ADDRESS } := by
  simp [ProcessBuffer, ProcessBuffer_switch, ProcessBuffer_execute, hs, hin, isFull_eq_false hout,
    RingBuffer_IsEmpty, RingBuffer_GetCount, RingBuffer_Remove, hon, hoff, READ_WRITE,
    GET_H_ADDRESS]

theorem ProcessBuffer_sdp_on (dev : Device) (s : Sys) (rest : List Nat)
    (hs : s.state = GET_OPCODE) (hin : s.USB_Incoming_Buffer = SDP_ON :: rest)
    (hout : RingBuffer_GetCount s.USB_Outgoing_Buffer < BUFFER_SIZE) :
    ProcessBuffer dev s
      = some { s with opcode := SDP_ON, USB_Incoming_Buffer := rest,
                      USB_Outgoing_Buffer := s.USB_Outgoing_Buffer ++ [ACK_E],
                      hw := EnableSDP s.hw, state := GET_OPCODE } := by
  simp [ProcessBuffer, ProcessBuffer_switch, ProcessBuffer_execute, hs, hin, isFull_eq_false hout,
    RingBuffer_IsEmpty, RingBuffer_GetCount, RingBuffer_Remove, insert_of_room hout, READ_WRITE,
    GET_OPCODE, ACK_E]

theorem ProcessBuffer_sdp_off (dev : Device) (s : Sys) (rest : List Nat)
    (hs : s.state = GET_OPCODE) (hin : s.USB_Incoming_Buffer = SDP_OFF :: rest)
    (hout : RingBuffer_GetCount s.USB_Outgoing_Buffer < BUFFER_SIZE) :
    ProcessBuffer dev s
      = some { s with opcode := SDP_OFF, USB_Incoming_Buffer := rest,
                      USB_Outgoing_Buffer := s.USB_Outgoing_Buffer ++ [ACK_D],
                      hw := DisableSDP s.hw, state := GET_OPCODE } := by
  simp [ProcessBuffer, ProcessBuffer_switch, ProcessBuffer_execute, hs, hin, isFull_eq_false hout,
    RingBuffer_IsEmpty, RingBuffer_GetCount, RingBuffer_Remove, insert_of_room hout, READ_WRITE,
    GET_OPCODE, ACK_D, SDP_ON, SDP_OFF]

theorem ProcessBuffer_high (dev : Device) (s : Sys) (b : Nat) (rest : List Nat)
    (hs : s.state = GET_H_ADDRESS) (hin : s.USB_Incoming_Buffer = b :: rest)
    (hout : RingBuffer_GetCount s.USB_Outgoing_Buffer < BUFFER_SIZE) :
    ProcessBuffer dev s
      = some { s with address := (b <<< 8) % 65536, USB_Incoming_Buffer := rest,
                      state := GET_L_ADDRESS } := by
  simp [ProcessBuffer, ProcessBuffer_switch, ProcessBuffer_execute, hs, hin, isFull_eq_false hout,
    RingBuffer_IsEmpty, RingBuffer_GetCount, RingBuffer_Remove, READ_WRITE,
    GET_OPCODE, GET_H_ADDRESS, GET_L_ADDRESS]

theorem ProcessBuffer_low (dev : Device) (s : Sys) (b : Nat) (rest : List Nat)
    (hs : s.state = GET_L_ADDRESS) (hin : s.USB_Incoming_Buffer = b :: rest)
    (hout : RingBuffer_GetCount s.USB_Outgoing_Buffer < BUFFER_SIZE) :
    ProcessBuffer dev s
      = ProcessBuffer_execute dev
          { s with address := (s.address ||| b) % 65536, USB_Incoming_Buffer := rest,
                   state := READ_WRITE } := by
  simp [ProcessBuffer, ProcessBuffer_switch, hs, hin, isFull_eq_false hout,
    RingBuffer_IsEmpty, RingBuffer_GetCount, RingBuffer_Remove, READ_WRITE,
    GET_OPCODE, GET_H_ADDRESS, GET_L_ADDRESS]

theorem ProcessBuffer_at_execute (dev : Device) (s : Sys) (hs : s.state = READ_WRITE) :
    ProcessBuffer dev s = ProcessBuffer_execute dev s := by
  simp [ProcessBuffer, ProcessBuffer_switch, hs, READ_WRITE, GET_OPCODE, GET_H_ADDRESS,
    GET_L_ADDRESS]

theorem execute_read (dev : Device) (s : Sys) (hs : s.state = READ_WRITE)
    (ho : s.opcode = READ) (hout : RingBuffer_GetCount s.USB_Outgoing_Buffer < BUFFER_SIZE) :
    ProcessBuffer_execute dev s
      = some { s with hw := (ReadByteFromAddress dev s.address s.hw).2,
                      USB_Outgoing_Buffer :=
                        s.USB_Outgoing_Buffer ++ [(ReadByteFromAddress dev s.address s.hw).1],
                      state := GET_OPCODE } := by
  simp [ProcessBuffer_execute, hs, ho, isFull_eq_false hout, insert_of_room hout,
    ReadByteFromAddress, readSample_mod]

theorem execute_write (dev : Device) (s : Sys) (data : Nat) (rest : List Nat)
    (hs : s.state = READ_WRITE) (ho : s.opcode = WRITE)
    (hin : s.USB_Incoming_Buffer = data :: rest)
    (hout : RingBuffer_GetCount s.USB_Outgoing_Buffer < BUFFER_SIZE) :
    ProcessBuffer_execute dev s
      = some { s with
          hw := (ReadByteFromAddress dev s.address
                  (DataPoll dev s.address data (WriteByteToAddress s.address data s.hw)).2).2,
          USB_Incoming_Buffer := rest,
          USB_Outgoing_Buffer := s.USB_Outgoing_Buffer ++
            [(ReadByteFromAddress dev s.address
                (DataPoll dev s.address data (WriteByteToAddress s.address data s.hw)).2).1],
          state := GET_OPCODE } := by
  simp [ProcessBuffer_execute, hs, ho, hin, isFull_eq_false hout, insert_of_room hout,
    RingBuffer_IsEmpty, RingBuffer_GetCount, RingBuffer_Remove, READ, WRITE,
    ReadByteFromAddress, readSample_mod]

/-! ## Address assembly -/

theorem address_assemble (hi lo : Nat) (hhi : hi < 256) (hlo : lo < 256) :
    (((hi <<< 8) % 65536) ||| lo) % 65536 = hi * 256 + lo := by
  have h1 : (hi <<< 8) % 65536 = 2 ^ 8 * hi := by
    rw [Nat.shiftLeft_eq]
    omega
  rw [h1, ← Nat.mul_add_lt_is_or (by simpa using hlo)]
  omega

/-! ## Calls made by the bus driver -/

theorem WriteByteToAddress_calls (a v : Nat) (hw : HW) :
    (WriteByteToAddress a v hw).calls = hw.calls ++ [.write a v] := rfl

theorem ReadByteFromAddress_calls (dev : Device) (a : Nat) (hw : HW) :
    (ReadByteFromAddress dev a hw).2.calls = hw.calls ++ [.read a] := rfl

theorem pollReads_calls (dev : Device) (a n : Nat) (hw : HW) :
    (pollReads dev a n hw).calls = hw.calls ++ List.replicate n (.read a) := by
  induction n generalizing hw with
  | zero => simp [pollReads]
  | succ n ih =>
    simp only [pollReads, ih, ReadByteFromAddress_calls, List.append_assoc, List.replicate_succ,
      List.singleton_append]

/-! ## The polling loop -/

theorem DataPollLoop_spec (dev : Device) (a b : Nat) (n : Nat) (r0 : Nat) (hw : HW) (hn : 0 < n) :
    ∃ j, 1 ≤ j ∧ j ≤ n
      ∧ DataPollLoop dev a b n r0 hw = (nthRead dev a j hw, pollReads dev a j hw)
      ∧ (∀ i, 1 ≤ i → i < j → nthRead dev a i hw ≠ b)
      ∧ (nthRead dev a j hw = b ∨ j = n) := by
  induction n generalizing r0 hw with
  | zero => omega
  | succ n ih =>
    by_cases hm : (ReadByteFromAddress dev a hw).1 = b
    · refine ⟨1, le_refl _, by omega, ?_, ?_, ?_⟩
      · simp [DataPollLoop, hm, nthRead, pollReads]
      · intro i h1 h2
        omega
      · left
        simpa [nthRead, pollReads] using hm
    · rcases Nat.eq_zero_or_pos n with h0 | hpos
      · subst h0
        refine ⟨1, le_refl _, le_refl _, ?_, ?_, Or.inr rfl⟩
        · simp [DataPollLoop, hm, nthRead, pollReads]
        · intro i h1 h2
          omega
      · obtain ⟨j, hj1, hj2, heq, hne, hlast⟩ :=
          ih (ReadByteFromAddress dev a hw).1 (ReadByteFromAddress dev a hw).2 hpos
        have hshift : ∀ i, 1 ≤ i →
            nthRead dev a (i + 1) hw = nthRead dev a i (ReadByteFromAddress dev a hw).2 := by
          intro i hi
          obtain ⟨k, rfl⟩ : ∃ k, i = k + 1 := ⟨i - 1, by omega⟩
          simp [nthRead, pollReads]
        refine ⟨j + 1, by omega, by omega, ?_, ?_, ?_⟩
        · simp only [DataPollLoop, hm, if_false, heq, hshift j hj1, pollReads]
        · intro i h1 h2
          rcases Nat.eq_or_lt_of_le h1 with h | h
          · subst h
            simpa [nthRead, pollReads] using hm
          · obtain ⟨k, rfl⟩ : ∃ k, i = k + 1 := ⟨i - 1, by omega⟩
            rw [hshift k (by omega)]
            exact hne k (by omega) (by omega)
        · rcases hlast with h | h
          · left
            rw [hshift j hj1]
            exact h
          · right
            omega

/-! ## Bit-level facts -/

theorem testBit_mod256 (x i : Nat) : (x % 256).testBit i = (decide (i < 8) && x.testBit i) :=
  Nat.testBit_mod_two_pow x 8 i

theorem testBit_lit (m i : Nat) :
    Nat.testBit (no_index (OfNat.ofNat m)) i = decide ((OfNat.ofNat m : Nat) / 2 ^ i % 2 = 1) :=
  Nat.testBit_to_div_mod

theorem bits_ext (n : Nat) {x y : Nat} (hx : x < 2 ^ n) (hy : y < 2 ^ n)
    (h : ∀ i < n, x.testBit i = y.testBit i) : x = y := by
  apply Nat.eq_of_testBit_eq
  intro i
  by_cases hi : i < n
  · exact h i hi
  · have hn : 2 ^ n ≤ 2 ^ i := Nat.pow_le_pow_right (by decide) (by omega)
    rw [Nat.testBit_lt_two_pow (by omega), Nat.testBit_lt_two_pow (by omega)]

theorem busAddress_of (r : Regs) (a : Nat)
    (hB : ∀ i < 7, r.PORTB.testBit i = a.testBit (8 + i))
    (hD : ∀ i < 8, r.PORTD.testBit i = a.testBit i) : busAddress r = a % 32768 := by
  have h1 : (r.PORTB &&& 0x7F) <<< 8 < 2 ^ 15 := by
    have : r.PORTB &&& 0x7F ≤ 0x7F := Nat.and_le_right
    rw [Nat.shiftLeft_eq]
    omega
  have h2 : r.PORTD &&& 0xFF < 2 ^ 15 :=
    Nat.lt_of_le_of_lt Nat.and_le_right (by decide)
  apply bits_ext 15 (Nat.or_lt_two_pow h1 h2) (Nat.mod_lt _ (by decide))
  intro i hi
  simp only [busAddress, Nat.testBit_or, Nat.testBit_and, Nat.testBit_shiftLeft,
    Nat.testBit_mod_two_pow]
  by_cases h8 : i < 8
  · have := hD i h8
    interval_cases i <;> simp [testBit_lit] at this ⊢ <;> exact this
  · have := hB (i - 8) (by omega)
    interval_cases i <;> simp [testBit_lit] at this ⊢ <;> exact this

theorem busData_of (r : Regs) (v : Nat)
    (hC : ∀ i, 2 ≤ i → i < 4 → r.PORTC.testBit (i + 4) = v.testBit i)
    (hF : ∀ i < 8, ¬ (2 ≤ i ∧ i < 4) → r.PORTF.testBit i = v.testBit i) :
    busData r = v % 256 := by
  have h1 : (r.PORTC &&& 0xC0) >>> 4 < 2 ^ 8 := by
    have : r.PORTC &&& 0xC0 ≤ 0xC0 := Nat.and_le_right
    rw [Nat.shiftRight_eq_div_pow]
    omega
  have h2 : r.PORTF &&& 0xF3 < 2 ^ 8 :=
    Nat.lt_of_le_of_lt Nat.and_le_right (by decide)
  apply bits_ext 8 (Nat.or_lt_two_pow h1 h2) (Nat.mod_lt _ (by decide))
  intro i hi
  simp only [busData, Nat.testBit_or, Nat.testBit_and, Nat.testBit_shiftRight,
    Nat.testBit_mod_two_pow]
  by_cases h : 2 ≤ i ∧ i < 4
  · have := hC i h.1 h.2
    obtain ⟨h2, h4⟩ := h
    interval_cases i <;> simp [testBit_lit] at this ⊢ <;> exact this
  · have := hF i hi h
    interval_cases i <;> simp [testBit_lit] at this ⊢ <;> first | exact this | omega

theorem or_mask_and (d m : Nat) (hm : m < 256) : ((d ||| m) % 256) &&& m = m := by
  apply Nat.eq_of_testBit_eq
  intro i
  simp only [testBit_mod256, Nat.testBit_and, Nat.testBit_or]
  by_cases hi : i < 8
  · cases d.testBit i <;> cases m.testBit i <;> simp [hi]
  · have h8 : 2 ^ 8 ≤ 2 ^ i := Nat.pow_le_pow_right (by decide) (by omega)
    have : m.testBit i = false := Nat.testBit_lt_two_pow (by omega)
    simp [this]

theorem and_cnot_and (d m : Nat) (hm : m < 256) : ((d &&& cnot m) % 256) &&& m = 0 := by
  apply Nat.eq_of_testBit_eq
  intro i
  simp only [testBit_mod256, Nat.testBit_and, Nat.zero_testBit]
  by_cases hi : i < 8
  · have h16 : 2 ^ i < 2 ^ 16 := Nat.pow_lt_pow_right (by decide) (by omega)
    have hc : (cnot m).testBit i = !m.testBit i := by
      have hm16 : m < 2 ^ 16 := by omega
      have := Nat.testBit_two_pow_sub_succ
        (show (0xFFFF - m) < 2 ^ 16 by omega) i
      have e : 2 ^ 16 - ((0xFFFF - m) + 1) = m := by omega
      rw [e] at this
      rw [this]
      simp [cnot, show i < 16 by omega]
    rw [hc]
    cases d.testBit i <;> cases m.testBit i <;> simp
  · have h8 : 2 ^ 8 ≤ 2 ^ i := Nat.pow_le_pow_right (by decide) (by omega)
    have : m.testBit i = false := Nat.testBit_lt_two_pow (by omega)
    simp [this]


theorem cycleInfo_WriteByteToAddress (a v : Nat) (hw : HW) :
    (WriteByteToAddress a v hw).trace.filterMap cycleInfo
      = hw.trace.filterMap cycleInfo ++ [(.write (a % 32768) (v % 256), true, false)] := by
  have hC := or_mask_and hw.regs.DDRC PORTC_PIN_MASK (by decide)
  have hF := or_mask_and hw.regs.DDRF PORTF_PIN_MASK (by decide)
  simp only [WriteByteToAddress, store, enter, cycleInfo, List.filterMap_append,
    List.filterMap_cons, List.filterMap_nil, observed, writeCycle, readCycle, CE_low, OE_low,
    WE_low, PORTE_PIN_MASK, WE_ACTIVE_LOW, CE_ACTIVE_LOW, cnot,
    testBit_mod256, Nat.testBit_and, Nat.testBit_or, Nat.testBit_shiftLeft, Nat.testBit_shiftRight]
  simp [testBit_lit]
  refine ⟨⟨?_, ?_⟩, ?_, ?_⟩
  · apply busAddress_of
    · intro i hi
      simp only [testBit_mod256, Nat.testBit_and, Nat.testBit_shiftRight]
      interval_cases i <;> simp [testBit_lit]
    · intro i hi
      simp only [testBit_mod256, Nat.testBit_and, PORTD_PIN_MASK]
      interval_cases i <;> simp [testBit_lit]
  · apply busData_of
    · intro i h2 h4
      simp only [testBit_mod256, Nat.testBit_and, Nat.testBit_or, Nat.testBit_shiftLeft,
        PORTC_PIN_MASK, PORTF_PIN_MASK]
      interval_cases i <;> simp [testBit_lit]
    · intro i hi h
      simp only [testBit_mod256, Nat.testBit_and, Nat.testBit_or, Nat.testBit_shiftLeft,
        PORTC_PIN_MASK, PORTF_PIN_MASK]
      interval_cases i <;> simp [testBit_lit] <;> omega
  · simp only [PORTC_PIN_MASK, PORTF_PIN_MASK] at hC hF
    simp [dataOut, hC, hF, PORTC_PIN_MASK, PORTF_PIN_MASK]
  · simp only [PORTC_PIN_MASK, PORTF_PIN_MASK] at hC hF
    simp [dataIn, hC, hF, PORTC_PIN_MASK, PORTF_PIN_MASK]

theorem readSetup_busAddress (a : Nat) (hw : HW) :
    busAddress (readSetup a hw).regs = a % 32768 := by
  apply busAddress_of
  · intro i hi
    simp only [readSetup, store, enter, CE_ACTIVE_LOW, cnot, testBit_mod256, Nat.testBit_and,
      Nat.testBit_or, Nat.testBit_shiftRight]
    interval_cases i <;> simp [testBit_lit]
  · intro i hi
    simp only [readSetup, store, enter, testBit_mod256, Nat.testBit_and, PORTD_PIN_MASK]
    interval_cases i <;> simp [testBit_lit]

theorem readSetup_readCycle (a : Nat) (hw : HW) : readCycle (readSetup a hw).regs = true := by
  simp only [readSetup, store, enter, readCycle, CE_low, OE_low,
    WE_low, PORTE_PIN_MASK, OE_ACTIVE_LOW, CE_ACTIVE_LOW, cnot,
    testBit_mod256, Nat.testBit_and, Nat.testBit_or, Nat.testBit_shiftLeft, Nat.testBit_shiftRight]
  simp [testBit_lit]

theorem readSetup_dataIn (a : Nat) (hw : HW) : dataIn (readSetup a hw).regs = true := by
  have hC := and_cnot_and hw.regs.DDRC PORTC_PIN_MASK (by decide)
  have hF := and_cnot_and hw.regs.DDRF PORTF_PIN_MASK (by decide)
  simp only [PORTC_PIN_MASK, PORTF_PIN_MASK] at hC hF
  simp [readSetup, store, enter, dataIn, hC, hF, PORTC_PIN_MASK, PORTF_PIN_MASK]

theorem readSetup_getLast (a : Nat) (hw : HW) :
    (readSetup a hw).trace.getLast? = some (readSetup a hw).regs := by
  simp [readSetup, store, enter]

theorem cycleInfo_readSetup (a : Nat) (hw : HW) :
    (readSetup a hw).trace.filterMap cycleInfo
      = hw.trace.filterMap cycleInfo ++ [(.read (a % 32768), false, true)] := by
  have hA := readSetup_busAddress a hw
  have hI := readSetup_dataIn a hw
  have hO : dataOut (readSetup a hw).regs = false := by
    have hC := and_cnot_and hw.regs.DDRC PORTC_PIN_MASK (by decide)
    simp only [PORTC_PIN_MASK] at hC
    simp [readSetup, store, enter, dataOut, hC, PORTC_PIN_MASK]
  simp only [readSetup, store, enter, cycleInfo, List.filterMap_append,
    List.filterMap_cons, List.filterMap_nil, observed, writeCycle, readCycle, CE_low, OE_low,
    WE_low, PORTE_PIN_MASK, OE_ACTIVE_LOW, CE_ACTIVE_LOW, cnot,
    testBit_mod256, Nat.testBit_and, Nat.testBit_or, Nat.testBit_shiftLeft, Nat.testBit_shiftRight]
  simp [testBit_lit]
  exact ⟨hA, hO, hI⟩

theorem cycleInfo_readRelease (hw : HW) :
    (readRelease hw).trace.filterMap cycleInfo = hw.trace.filterMap cycleInfo := by
  simp only [readRelease, store, enter, cycleInfo, List.filterMap_append,
    List.filterMap_cons, List.filterMap_nil, observed, writeCycle, readCycle, CE_low, OE_low,
    WE_low, PORTE_PIN_MASK, OE_ACTIVE_LOW, CE_ACTIVE_LOW, cnot,
    testBit_mod256, Nat.testBit_and, Nat.testBit_or, Nat.testBit_shiftLeft, Nat.testBit_shiftRight]
  simp [testBit_lit]

theorem cycleInfo_ReadByteFromAddress (dev : Device) (a : Nat) (hw : HW) :
    (ReadByteFromAddress dev a hw).2.trace.filterMap cycleInfo
      = hw.trace.filterMap cycleInfo ++ [(.read (a % 32768), false, true)] := by
  simp only [ReadByteFromAddress, cycleInfo_readRelease, cycleInfo_readSetup]

theorem busCycles_eq (t : List Regs) : busCycles t = (t.filterMap cycleInfo).map Prod.fst := by
  simp only [busCycles, List.map_filterMap]
  congr 1
  funext r
  simp only [cycleInfo]
  cases observed r <;> rfl

theorem busCycles_WriteByteToAddress (a v : Nat) (hw : HW) :
    busCycles (WriteByteToAddress a v hw).trace
      = busCycles hw.trace ++ [.write (a % 32768) (v % 256)] := by
  simp [busCycles_eq, cycleInfo_WriteByteToAddress]

theorem busCycles_ReadByteFromAddress (dev : Device) (a : Nat) (hw : HW) :
    busCycles (ReadByteFromAddress dev a hw).2.trace
      = busCycles hw.trace ++ [.read (a % 32768)] := by
  simp [busCycles_eq, cycleInfo_ReadByteFromAddress]

/-! ## The ideal memory device -/

theorem idealStep_eq (mem : Nat → Nat) (r : Regs) :
    idealStep mem r = (cycleInfo r).elim mem (storeCycle mem) := by
  simp only [idealStep, cycleInfo, observed]
  cases hW : writeCycle r <;> cases hR : readCycle r <;> cases hO : dataOut r <;>
    simp [storeCycle]

theorem idealMem_eq (init : Nat → Nat) (t : List Regs) :
    idealMem init t = (t.filterMap cycleInfo).foldl storeCycle init := by
  induction t generalizing init with
  | nil => rfl
  | cons r t ih =>
    have h : idealMem init (r :: t) = idealMem (idealStep init r) t := rfl
    rw [h, ih, idealStep_eq, List.filterMap_cons]
    cases cycleInfo r <;> rfl

theorem idealMem_WriteByteToAddress (init : Nat → Nat) (a v : Nat) (hw : HW) :
    idealMem init (WriteByteToAddress a v hw).trace
      = Function.update (idealMem init hw.trace) (a % 32768) (v % 256) := by
  simp [idealMem_eq, cycleInfo_WriteByteToAddress, List.foldl_append, storeCycle]

theorem idealMem_readSetup (init : Nat → Nat) (a : Nat) (hw : HW) :
    idealMem init (readSetup a hw).trace = idealMem init hw.trace := by
  simp [idealMem_eq, cycleInfo_readSetup, List.foldl_append, storeCycle]

theorem idealMem_ReadByteFromAddress (init : Nat → Nat) (dev : Device) (a : Nat) (hw : HW) :
    idealMem init (ReadByteFromAddress dev a hw).2.trace = idealMem init hw.trace := by
  simp [idealMem_eq, cycleInfo_ReadByteFromAddress, List.foldl_append, storeCycle]

theorem sample_decode (m c f : Nat) :
    ((((((m &&& 0x0C) <<< 4 ||| (c &&& (0xFF - 0xC0))) % 256) &&& PORTC_PIN_MASK) >>> 4) % 256
      ||| ((((m &&& 0xF3) ||| (f &&& (0xFF - 0xF3))) % 256) &&& PORTF_PIN_MASK)) % 256
      = m % 256 := by
  apply bits_ext 8 (Nat.mod_lt _ (by decide)) (Nat.mod_lt _ (by decide))
  intro i hi
  simp only [PORTC_PIN_MASK, PORTF_PIN_MASK, testBit_mod256, Nat.testBit_mod_two_pow,
    Nat.testBit_and, Nat.testBit_or, Nat.testBit_shiftLeft, Nat.testBit_shiftRight]
  interval_cases i <;> simp [testBit_lit]

theorem ReadByteFromAddress_ideal (init : Nat → Nat) (a : Nat) (hw : HW) :
    (ReadByteFromAddress (idealDevice init) a hw).1
      = idealMem init hw.trace (a % 32768) % 256 := by
  simp only [ReadByteFromAddress, readSample, idealDevice, idealPins, readSetup_getLast,
    readSetup_readCycle, readSetup_dataIn, readSetup_busAddress, idealMem_readSetup,
    Bool.and_self, if_true]
  exact sample_decode _ _ _

/-! ## Protection sequences -/

theorem opcode_characters :
    READ = 'r'.toNat ∧ WRITE = 'w'.toNat ∧ SDP_ON = 'e'.toNat ∧ SDP_OFF = 'd'.toNat
      ∧ ACK_E = 'E'.toNat ∧ ACK_D = 'D'.toNat := by
  decide

theorem EnableSDP_calls (hw : HW) :
    (EnableSDP hw).calls
      = hw.calls ++ [.write 0x5555 0xAA, .write 0x2AAA 0x55, .write 0x5555 0xA0] := by
  simp [EnableSDP, WriteByteToAddress_calls]

theorem DisableSDP_calls (hw : HW) :
    (DisableSDP hw).calls
      = hw.calls ++ [.write 0x5555 0xAA, .write 0x2AAA 0x55, .write 0x5555 0x80,
                     .write 0x5555 0xAA, .write 0x2AAA 0x55, .write 0x5555 0x20] := by
  simp [DisableSDP, WriteByteToAddress_calls]

theorem EnableSDP_busCycles (hw : HW) :
    busCycles (EnableSDP hw).trace
      = busCycles hw.trace ++ [.write 0x5555 0xAA, .write 0x2AAA 0x55, .write 0x5555 0xA0] := by
  simp [EnableSDP, busCycles_WriteByteToAddress]

theorem DisableSDP_busCycles (hw : HW) :
    busCycles (DisableSDP hw).trace
      = busCycles hw.trace ++ [.write 0x5555 0xAA, .write 0x2AAA 0x55, .write 0x5555 0x80,
                               .write 0x5555 0xAA, .write 0x2AAA 0x55, .write 0x5555 0x20] := by
  simp [DisableSDP, busCycles_WriteByteToAddress]

/-- C5 (protection sequence exactness).  From any hardware state, `EnableSDP`
makes exactly the three driver calls `WriteByteToAddress(0x5555, 0xAA)`,
`(0x2AAA, 0x55)`, `(0x5555, 0xA0)` in that order, and the bus cycles the memory
device observes on its pins during the call are exactly these three write
cycles; `DisableSDP` likewise with the six writes `(0x5555, 0xAA)`,
`(0x2AAA, 0x55)`, `(0x5555, 0x80)`, `(0x5555, 0xAA)`, `(0x2AAA, 0x55)`,
`(0x5555, 0x20)`.  No read call is made and no read cycle is observed. -/
theorem C5_protection_sequence_exact (hw : HW) :
    (EnableSDP hw).calls
        = hw.calls ++ [.write 0x5555 0xAA, .write 0x2AAA 0x55, .write 0x5555 0xA0]
    ∧ busCycles (EnableSDP hw).trace
        = busCycles hw.trace ++ [.write 0x5555 0xAA, .write 0x2AAA 0x55, .write 0x5555 0xA0]
    ∧ (DisableSDP hw).calls
        = hw.calls ++ [.write 0x5555 0xAA, .write 0x2AAA 0x55, .write 0x5555 0x80,
                       .write 0x5555 0xAA, .write 0x2AAA 0x55, .write 0x5555 0x20]
    ∧ busCycles (DisableSDP hw).trace
        = busCycles hw.trace ++ [.write 0x5555 0xAA, .write 0x2AAA 0x55, .write 0x5555 0x80,
                                 .write 0x5555 0xAA, .write 0x2AAA 0x55, .write 0x5555 0x20] :=
  ⟨EnableSDP_calls hw, EnableSDP_busCycles hw, DisableSDP_calls hw, DisableSDP_busCycles hw⟩

/-- C4 (protection commands).  In state `GET_OPCODE` with room in the outgoing
buffer, one invocation of `ProcessBuffer` on an incoming buffer headed by `'e'`
removes that one byte and no other, runs `EnableSDP` on the hardware (three
driver calls, observed by the device as exactly the three enable write
cycles), appends the single byte `'E'` to the outgoing buffer and leaves the
state at `GET_OPCODE`; headed by `'d'` it does the same with `DisableSDP`, the
six disable write cycles and the byte `'D'`. -/
theorem C4_protection_commands (dev : Device) (s : Sys) (rest : List Nat)
    (hs : s.state = GET_OPCODE)
    (hout : RingBuffer_GetCount s.USB_Outgoing_Buffer < BUFFER_SIZE) :
    (s.USB_Incoming_Buffer = 'e'.toNat :: rest →
      ProcessBuffer dev s
          = some { s with opcode := 'e'.toNat, USB_Incoming_Buffer := rest,
                          USB_Outgoing_Buffer := s.USB_Outgoing_Buffer ++ ['E'.toNat],
                          hw := EnableSDP s.hw, state := GET_OPCODE }
        ∧ (EnableSDP s.hw).calls
            = s.hw.calls ++ [.write 0x5555 0xAA, .write 0x2AAA 0x55, .write 0x5555 0xA0]
        ∧ busCycles (EnableSDP s.hw).trace
            = busCycles s.hw.trace
                ++ [.write 0x5555 0xAA, .write 0x2AAA 0x55, .write 0x5555 0xA0])
    ∧ (s.USB_Incoming_Buffer = 'd'.toNat :: rest →
      ProcessBuffer dev s
          = some { s with opcode := 'd'.toNat, USB_Incoming_Buffer := rest,
                          USB_Outgoing_Buffer := s.USB_Outgoing_Buffer ++ ['D'.toNat],
                          hw := DisableSDP s.hw, state := GET_OPCODE }
        ∧ (DisableSDP s.hw).calls
            = s.hw.calls ++ [.write 0x5555 0xAA, .write 0x2AAA 0x55, .write 0x5555 0x80,
                             .write 0x5555 0xAA, .write 0x2AAA 0x55, .write 0x5555 0x20]
        ∧ busCycles (DisableSDP s.hw).trace
            = busCycles s.hw.trace
                ++ [.write 0x5555 0xAA, .write 0x2AAA 0x55, .write 0x5555 0x80,
                    .write 0x5555 0xAA, .write 0x2AAA 0x55, .write 0x5555 0x20]) := by
  constructor
  · intro hin
    exact ⟨ProcessBuffer_sdp_on dev s rest hs hin hout, EnableSDP_calls s.hw,
      EnableSDP_busCycles s.hw⟩
  · intro hin
    exact ⟨ProcessBuffer_sdp_off dev s rest hs hin hout, DisableSDP_calls s.hw,
      DisableSDP_busCycles s.hw⟩

/-- The protection command theorem applied at startup, with the incoming buffer
holding the single byte `'e'`. -/
theorem C4_protection_commands_witness :
    ProcessBuffer (constDevice 0) { Sys.init with USB_Incoming_Buffer := ['e'.toNat] }
      = some { Sys.init with opcode := 'e'.toNat, USB_Incoming_Buffer := [],
                             USB_Outgoing_Buffer := ['E'.toNat],
                             hw := EnableSDP HW.init, state := GET_OPCODE } :=
  ((C4_protection_commands (constDevice 0)
      { Sys.init with USB_Incoming_Buffer := ['e'.toNat] } [] rfl (by decide)).1 rfl).1

/-! ## Read and write commands -/

theorem invoke_three (dev : Device) (s s1 s2 : Sys) (r : Option Sys)
    (h1 : ProcessBuffer dev s = some s1) (h2 : ProcessBuffer dev s1 = some s2)
    (h3 : ProcessBuffer dev s2 = r) : invoke dev 3 s = r := by
  simp only [invoke, h1, h2, h3, Option.some_bind, Option.bind_eq_bind]
  cases r <;> rfl

theorem read_command (dev : Device) (s : Sys) (hi lo : Nat) (rest : List Nat)
    (hhi : hi < 256) (hlo : lo < 256) (hs : s.state = GET_OPCODE)
    (hin : s.USB_Incoming_Buffer = READ :: hi :: lo :: rest)
    (hout : RingBuffer_GetCount s.USB_Outgoing_Buffer < BUFFER_SIZE) :
    invoke dev 3 s
      = some { state := GET_OPCODE, opcode := READ, address := hi * 256 + lo,
               USB_Incoming_Buffer := rest,
               USB_Outgoing_Buffer := s.USB_Outgoing_Buffer
                 ++ [(ReadByteFromAddress dev (hi * 256 + lo) s.hw).1],
               hw := (ReadByteFromAddress dev (hi * 256 + lo) s.hw).2 } := by
  apply invoke_three dev s _ _ _
    (ProcessBuffer_opcode dev s READ _ hs hin hout (by decide) (by decide))
    (ProcessBuffer_high dev _ hi _ rfl rfl (by exact hout))
  refine (ProcessBuffer_low dev _ lo rest rfl rfl (by exact hout)).trans ?_
  refine (execute_read dev _ rfl rfl (by exact hout)).trans ?_
  simp [address_assemble hi lo hhi hlo]

theorem write_command (dev : Device) (s : Sys) (hi lo data : Nat) (rest : List Nat)
    (hhi : hi < 256) (hlo : lo < 256) (hs : s.state = GET_OPCODE)
    (hin : s.USB_Incoming_Buffer = WRITE :: hi :: lo :: data :: rest)
    (hout : RingBuffer_GetCount s.USB_Outgoing_Buffer < BUFFER_SIZE) :
    invoke dev 3 s
      = some { state := GET_OPCODE, opcode := WRITE, address := hi * 256 + lo,
               USB_Incoming_Buffer := rest,
               USB_Outgoing_Buffer := s.USB_Outgoing_Buffer
                 ++ [(ReadByteFromAddress dev (hi * 256 + lo)
                        (DataPoll dev (hi * 256 + lo) data
                          (WriteByteToAddress (hi * 256 + lo) data s.hw)).2).1],
               hw := (ReadByteFromAddress dev (hi * 256 + lo)
                        (DataPoll dev (hi * 256 + lo) data
                          (WriteByteToAddress (hi * 256 + lo) data s.hw)).2).2 } := by
  apply invoke_three dev s _ _ _
    (ProcessBuffer_opcode dev s WRITE _ hs hin hout (by decide) (by decide))
    (ProcessBuffer_high dev _ hi _ rfl rfl (by exact hout))
  refine (ProcessBuffer_low dev _ lo (data :: rest) rfl rfl (by exact hout)).trans ?_
  refine (execute_write dev _ data rest rfl rfl rfl (by exact hout)).trans ?_
  simp [address_assemble hi lo hhi hlo]

theorem DataPoll_reads (dev : Device) (a b : Nat) (hw : HW) :
    ∃ j, 1 ≤ j ∧ j ≤ POLL_BOUND
      ∧ DataPollReceived dev a b hw = (nthRead dev a j hw, pollReads dev a j hw)
      ∧ (DataPoll dev a b hw).2 = pollReads dev a j hw
      ∧ (∀ i, 1 ≤ i → i < j → nthRead dev a i hw ≠ b)
      ∧ (nthRead dev a j hw = b ∨ j = POLL_BOUND) := by
  obtain ⟨j, h1, h2, heq, hne, hlast⟩ :=
    DataPollLoop_spec dev a b POLL_BOUND 0 hw (by decide)
  exact ⟨j, h1, h2, heq, by simp [DataPoll, DataPollReceived, heq], hne, hlast⟩

theorem pollReads_busCycles (dev : Device) (a n : Nat) (hw : HW) :
    busCycles (pollReads dev a n hw).trace
      = busCycles hw.trace ++ List.replicate n (.read (a % 32768)) := by
  induction n generalizing hw with
  | zero => simp [pollReads]
  | succ n ih =>
    simp only [pollReads, ih, busCycles_ReadByteFromAddress, List.append_assoc,
      List.replicate_succ, List.singleton_append]

/-- C3 (read command).  From state `GET_OPCODE` with room in the outgoing
buffer, three invocations of `ProcessBuffer` on an incoming buffer that starts
with `'r'`, `hi`, `lo` remove exactly these three bytes, set the address to
`hi * 256 + lo` (high byte first), make the single driver call
`ReadByteFromAddress(hi * 256 + lo)` and nothing else (the device observes one
read cycle and no write cycle), append the byte that call returned as the only
reply, and return the state to `GET_OPCODE`.  For `'r'`, `0x12`, `0x34` the
address read is `0x1234`. -/
theorem C3_read_command (dev : Device) (s : Sys) (hi lo : Nat) (rest : List Nat)
    (hhi : hi < 256) (hlo : lo < 256) (hs : s.state = GET_OPCODE)
    (hin : s.USB_Incoming_Buffer = 'r'.toNat :: hi :: lo :: rest)
    (hout : RingBuffer_GetCount s.USB_Outgoing_Buffer < BUFFER_SIZE) :
    invoke dev 3 s
        = some { state := GET_OPCODE, opcode := 'r'.toNat, address := hi * 256 + lo,
                 USB_Incoming_Buffer := rest,
                 USB_Outgoing_Buffer := s.USB_Outgoing_Buffer
                   ++ [(ReadByteFromAddress dev (hi * 256 + lo) s.hw).1],
                 hw := (ReadByteFromAddress dev (hi * 256 + lo) s.hw).2 }
    ∧ (ReadByteFromAddress dev (hi * 256 + lo) s.hw).2.calls
        = s.hw.calls ++ [.read (hi * 256 + lo)]
    ∧ busCycles (ReadByteFromAddress dev (hi * 256 + lo) s.hw).2.trace
        = busCycles s.hw.trace ++ [.read ((hi * 256 + lo) % 32768)]
    ∧ (hi = 0x12 → lo = 0x34 →
        (ReadByteFromAddress dev (hi * 256 + lo) s.hw).2.calls
          = s.hw.calls ++ [.read 0x1234]) := by
  refine ⟨read_command dev s hi lo rest hhi hlo hs hin hout, ReadByteFromAddress_calls _ _ _,
    busCycles_ReadByteFromAddress _ _ _, ?_⟩
  intro h1 h2
  subst h1 h2
  exact ReadByteFromAddress_calls _ _ _

/-- The read command theorem applied at startup to the bytes `'r'`, `0x12`,
`0x34`, against an ideal memory holding `0x7F` at address `0x1234`: the reply
is `0x7F` and the only driver call is a read of `0x1234`. -/
theorem C3_read_command_witness :
    (invoke (idealDevice fun a => if a = 0x1234 then 0x7F else 0xFF) 3
        { Sys.init with USB_Incoming_Buffer := ['r'.toNat, 0x12, 0x34] }).map
      (fun t => (t.USB_Outgoing_Buffer, t.hw.calls, t.state, t.USB_Incoming_Buffer))
      = some ([0x7F], [.read 0x1234], GET_OPCODE, []) := by
  rw [(C3_read_command (idealDevice fun a => if a = 0x1234 then 0x7F else 0xFF)
    { Sys.init with USB_Incoming_Buffer := ['r'.toNat, 0x12, 0x34] } 0x12 0x34 []
    (by decide) (by decide) rfl rfl (by decide)).1]
  rfl

/-- C2 (write command).  From state `GET_OPCODE` with room in the outgoing
buffer, three invocations of `ProcessBuffer` on an incoming buffer that starts
with `'w'`, `hi`, `lo`, `data` remove exactly these four bytes and leave the
hardware in the state reached by `WriteByteToAddress(A, data)` with
`A = hi * 256 + lo`, then `DataPoll(A, data)`, then one
`ReadByteFromAddress(A)`; the driver calls are the write, then `n` reads of `A`
made by `DataPoll` (`1 ≤ n ≤ 2500`), then the final read, and the device
observes the same sequence of bus cycles; the only reply appended is the byte
returned by the final read, whatever its value; the state returns to
`GET_OPCODE`. -/
theorem C2_write_command (dev : Device) (s : Sys) (hi lo data : Nat) (rest : List Nat)
    (hhi : hi < 256) (hlo : lo < 256) (hs : s.state = GET_OPCODE)
    (hin : s.USB_Incoming_Buffer = 'w'.toNat :: hi :: lo :: data :: rest)
    (hout : RingBuffer_GetCount s.USB_Outgoing_Buffer < BUFFER_SIZE) :
    ∃ final : Nat × HW,
      final = ReadByteFromAddress dev (hi * 256 + lo)
                (DataPoll dev (hi * 256 + lo) data
                  (WriteByteToAddress (hi * 256 + lo) data s.hw)).2
      ∧ invoke dev 3 s
          = some { state := GET_OPCODE, opcode := 'w'.toNat, address := hi * 256 + lo,
                   USB_Incoming_Buffer := rest,
                   USB_Outgoing_Buffer := s.USB_Outgoing_Buffer ++ [final.1],
                   hw := final.2 }
      ∧ ∃ n, 1 ≤ n ∧ n ≤ 2500
          ∧ final.2.calls
              = s.hw.calls ++ [.write (hi * 256 + lo) data]
                  ++ List.replicate n (.read (hi * 256 + lo)) ++ [.read (hi * 256 + lo)]
          ∧ busCycles final.2.trace
              = busCycles s.hw.trace ++ [.write ((hi * 256 + lo) % 32768) (data % 256)]
                  ++ List.replicate n (.read ((hi * 256 + lo) % 32768))
                  ++ [.read ((hi * 256 + lo) % 32768)] := by
  refine ⟨_, rfl, write_command dev s hi lo data rest hhi hlo hs hin hout, ?_⟩
  obtain ⟨n, h1, h2, -, hp, -, -⟩ :=
    DataPoll_reads dev (hi * 256 + lo) data (WriteByteToAddress (hi * 256 + lo) data s.hw)
  refine ⟨n, h1, h2, ?_, ?_⟩
  · rw [ReadByteFromAddress_calls, hp, pollReads_calls, WriteByteToAddress_calls]
  · rw [busCycles_ReadByteFromAddress, hp, pollReads_busCycles, busCycles_WriteByteToAddress]

/-- The write command theorem applied at startup to the bytes `'w'`, `0x00`,
`0x10`, `0xAB`, against a device on which every read returns `0xAB`: the
single reply is `0xAB`. -/
theorem C2_write_command_witness :
    (invoke (constDevice 0xAB) 3
        { Sys.init with USB_Incoming_Buffer := ['w'.toNat, 0x00, 0x10, 0xAB] }).map
      (fun t => (t.USB_Outgoing_Buffer, t.hw.calls, t.state, t.USB_Incoming_Buffer))
      = some ([0xAB], [.write 0x10 0xAB, .read 0x10, .read 0x10], GET_OPCODE, []) := by
  obtain ⟨final, hf, hrun, -⟩ := C2_write_command (constDevice 0xAB)
    { Sys.init with USB_Incoming_Buffer := ['w'.toNat, 0x00, 0x10, 0xAB] } 0x00 0x10 0xAB []
    (by decide) (by decide) rfl rfl (by decide)
  rw [hrun, hf]
  rfl

/-! ## Data polling -/

/-- C9 (poll bound).  For every device, address, expected byte and hardware
state, `DataPoll` returns after `n` consecutive calls of
`ReadByteFromAddress(address)` and nothing else, with `1 ≤ n ≤ 2500`, whether
or not the expected byte is ever read; and if the `j`-th read (`j ≤ 2500`) is
the first that returns the expected byte, it returns after exactly `j` reads. -/
theorem C9_poll_bound (dev : Device) (address byte : Nat) (hw : HW) :
    (∃ n, 1 ≤ n ∧ n ≤ 2500
      ∧ (DataPoll dev address byte hw).2 = pollReads dev address n hw
      ∧ (DataPoll dev address byte hw).2.calls
          = hw.calls ++ List.replicate n (.read address))
    ∧ (∀ j, 1 ≤ j → j ≤ 2500 → nthRead dev address j hw = byte →
        (∀ i, 1 ≤ i → i < j → nthRead dev address i hw ≠ byte) →
        (DataPoll dev address byte hw).2 = pollReads dev address j hw
          ∧ (DataPoll dev address byte hw).2.calls
              = hw.calls ++ List.replicate j (.read address)) := by
  obtain ⟨n, h1, h2, -, hp, hne, hlast⟩ := DataPoll_reads dev address byte hw
  refine ⟨⟨n, h1, h2, hp, by rw [hp, pollReads_calls]⟩, ?_⟩
  intro j hj1 hj2 hmatch hfirst
  have hnj : n = j := by
    rcases Nat.lt_trichotomy n j with h | h | h
    · rcases hlast with hl | hl
      · exact absurd hl (hfirst n h1 h)
      · simp only [POLL_BOUND] at hl
        omega
    · exact h
    · exact absurd hmatch (hne j hj1 h)
  subst hnj
  exact ⟨hp, by rw [hp, pollReads_calls]⟩

/-- The poll bound theorem applied after reset to a device on which every read
returns `0xAB`, polling address `0` for `0xAB`: the first read matches and
`DataPoll` returns after exactly one read. -/
theorem C9_poll_bound_witness :
    nthRead (constDevice 0xAB) 0 1 HW.reset = 0xAB
    ∧ (DataPoll (constDevice 0xAB) 0 0xAB HW.reset).2 = pollReads (constDevice 0xAB) 0 1 HW.reset
    ∧ (DataPoll (constDevice 0xAB) 0 0xAB HW.reset).2.calls = [.read 0] :=
  ⟨rfl, (C9_poll_bound (constDevice 0xAB) 0 0xAB HW.reset).2 1 (by decide) (by decide) rfl
    (fun i h1 h2 => absurd h1 (by omega))⟩

/-- C10 (poll return value).  Evaluation of `DataPoll` at a failing input: a
device on which every read returns `0xAB` is polled at address `0` for `0xAB`.
The first read matches, the byte observed (the local variable `received`) is
`0xAB`, but the value the caller gets from the `bool` function is `true`, that
is `1`, not the observed byte. -/
theorem C10_poll_return_value :
    (DataPollReceived (constDevice 0xAB) 0 0xAB HW.reset).1 = 0xAB
    ∧ (DataPoll (constDevice 0xAB) 0 0xAB HW.reset).1 = true
    ∧ (DataPoll (constDevice 0xAB) 0 0xAB HW.reset).1.toNat ≠ 0xAB := by
  refine ⟨rfl, rfl, ?_⟩
  decide

/-! ## Backpressure -/

theorem nil_or_cons (l : List Nat) : l = [] ∨ ∃ x rest, l = x :: rest := by
  cases l with
  | nil => exact Or.inl rfl
  | cons x rest => exact Or.inr ⟨x, rest, rfl⟩

theorem ProcessBuffer_other_state (dev : Device) (s : Sys) (h0 : s.state ≠ GET_OPCODE)
    (h1 : s.state ≠ GET_H_ADDRESS) (h2 : s.state ≠ GET_L_ADDRESS) (h3 : s.state ≠ READ_WRITE) :
    ProcessBuffer dev s = some s := by
  simp [ProcessBuffer, ProcessBuffer_switch, ProcessBuffer_execute, h0, h1, h2, h3]

theorem execute_write_empty (dev : Device) (s : Sys) (ho : s.opcode = WRITE)
    (hin : s.USB_Incoming_Buffer = []) : ProcessBuffer_execute dev s = some s := by
  simp [ProcessBuffer_execute, ho, hin, RingBuffer_IsEmpty, RingBuffer_GetCount, READ, WRITE]

theorem execute_other (dev : Device) (s : Sys) (hr : s.opcode ≠ READ) (hw : s.opcode ≠ WRITE) :
    ProcessBuffer_execute dev s = some s := by
  simp [ProcessBuffer_execute, hr, hw]

theorem execute_room (dev : Device) (s : Sys) (q extra : RingBuffer)
    (hs : s.state = READ_WRITE) (hq : RingBuffer_GetCount q < BUFFER_SIZE) :
    ∃ t, ProcessBuffer_execute dev { s with USB_Outgoing_Buffer := [] } = some t
      ∧ t.USB_Outgoing_Buffer.length ≤ 1
      ∧ (t.USB_Outgoing_Buffer ≠ [] → t.state = GET_OPCODE)
      ∧ ProcessBuffer_execute dev { s with USB_Outgoing_Buffer := q }
          = some { t with USB_Outgoing_Buffer := q ++ t.USB_Outgoing_Buffer }
      ∧ (t.USB_Outgoing_Buffer ≠ [] →
          ProcessBuffer_execute dev
              { s with USB_Incoming_Buffer := s.USB_Incoming_Buffer ++ extra,
                       USB_Outgoing_Buffer := q }
            = some { t with USB_Incoming_Buffer := t.USB_Incoming_Buffer ++ extra,
                            USB_Outgoing_Buffer := q ++ t.USB_Outgoing_Buffer }) := by
  have h0 : RingBuffer_GetCount ([] : RingBuffer) < BUFFER_SIZE := by decide
  by_cases hr : s.opcode = READ
  · exact ⟨_, execute_read dev _ hs hr h0, by simp, by simp,
      (execute_read dev { s with USB_Outgoing_Buffer := q } hs hr hq).trans (by simp),
      fun _ => (execute_read dev
        { s with USB_Incoming_Buffer := s.USB_Incoming_Buffer ++ extra,
                 USB_Outgoing_Buffer := q } hs hr hq).trans (by simp)⟩
  · by_cases hw : s.opcode = WRITE
    · obtain hin | ⟨data, rest, hin⟩ := nil_or_cons s.USB_Incoming_Buffer
      · exact ⟨_, execute_write_empty dev _ hw hin, by simp, by simp,
          (execute_write_empty dev { s with USB_Outgoing_Buffer := q } hw hin).trans (by simp),
          fun h => absurd rfl h⟩
      · exact ⟨_, execute_write dev _ data rest hs hw hin h0, by simp, by simp,
          (execute_write dev { s with USB_Outgoing_Buffer := q } data rest hs hw hin hq).trans
            (by simp),
          fun _ => (execute_write dev
            { s with USB_Incoming_Buffer := s.USB_Incoming_Buffer ++ extra,
                     USB_Outgoing_Buffer := q } data (rest ++ extra) hs hw
            (by simp [hin]) hq).trans (by simp)⟩
    · exact ⟨_, execute_other dev _ hr hw, by simp, by simp,
        (execute_other dev { s with USB_Outgoing_Buffer := q } hr hw).trans (by simp),
        fun h => absurd rfl h⟩

theorem ProcessBuffer_room (dev : Device) (s : Sys) (q extra : RingBuffer)
    (hq : RingBuffer_GetCount q < BUFFER_SIZE) :
    ∃ t, ProcessBuffer dev { s with USB_Outgoing_Buffer := [] } = some t
      ∧ t.USB_Outgoing_Buffer.length ≤ 1
      ∧ (t.USB_Outgoing_Buffer ≠ [] → t.state = GET_OPCODE)
      ∧ ProcessBuffer dev { s with USB_Outgoing_Buffer := q }
          = some { t with USB_Outgoing_Buffer := q ++ t.USB_Outgoing_Buffer }
      ∧ (t.USB_Outgoing_Buffer ≠ [] →
          ProcessBuffer dev
              { s with USB_Incoming_Buffer := s.USB_Incoming_Buffer ++ extra,
                       USB_Outgoing_Buffer := q }
            = some { t with USB_Incoming_Buffer := t.USB_Incoming_Buffer ++ extra,
                            USB_Outgoing_Buffer := q ++ t.USB_Outgoing_Buffer }) := by
  have h0 : RingBuffer_GetCount ([] : RingBuffer) < BUFFER_SIZE := by decide
  by_cases h3 : s.state = READ_WRITE
  · obtain ⟨t, ht, hl, hg, hq', hx⟩ := execute_room dev s q extra h3 hq
    exact ⟨t, (ProcessBuffer_at_execute dev _ (by exact h3)).trans ht, hl, hg,
      (ProcessBuffer_at_execute dev { s with USB_Outgoing_Buffer := q } h3).trans hq',
      fun h => (ProcessBuffer_at_execute dev
        { s with USB_Incoming_Buffer := s.USB_Incoming_Buffer ++ extra,
                 USB_Outgoing_Buffer := q } h3).trans (hx h)⟩
  obtain hin | ⟨x, rest, hin⟩ := nil_or_cons s.USB_Incoming_Buffer
  · exact ⟨_, ProcessBuffer_empty dev _ hin (fun h => absurd h h3), by simp, by simp,
      (ProcessBuffer_empty dev { s with USB_Outgoing_Buffer := q } hin
        (fun h => absurd h h3)).trans (by simp),
      fun h => absurd rfl h⟩
  have hin' : s.USB_Incoming_Buffer ++ extra = x :: (rest ++ extra) := by simp [hin]
  by_cases hs0 : s.state = GET_OPCODE
  · by_cases hon : x = SDP_ON
    · subst hon
      exact ⟨_, ProcessBuffer_sdp_on dev _ rest hs0 hin h0, by simp, by simp,
        (ProcessBuffer_sdp_on dev { s with USB_Outgoing_Buffer := q } rest hs0 hin hq).trans
          (by simp),
        fun _ => (ProcessBuffer_sdp_on dev
          { s with USB_Incoming_Buffer := s.USB_Incoming_Buffer ++ extra,
                   USB_Outgoing_Buffer := q } (rest ++ extra) hs0 hin' hq).trans (by simp)⟩
    · by_cases hoff : x = SDP_OFF
      · subst hoff
        exact ⟨_, ProcessBuffer_sdp_off dev _ rest hs0 hin h0, by simp, by simp,
          (ProcessBuffer_sdp_off dev { s with USB_Outgoing_Buffer := q } rest hs0 hin hq).trans
            (by simp),
          fun _ => (ProcessBuffer_sdp_off dev
            { s with USB_Incoming_Buffer := s.USB_Incoming_Buffer ++ extra,
                     USB_Outgoing_Buffer := q } (rest ++ extra) hs0 hin' hq).trans (by simp)⟩
      · exact ⟨_, ProcessBuffer_opcode dev _ x rest hs0 hin h0 hon hoff, by simp, by simp,
          (ProcessBuffer_opcode dev { s with USB_Outgoing_Buffer := q } x rest hs0 hin hq
            hon hoff).trans (by simp),
          fun h => absurd rfl h⟩
  by_cases hs1 : s.state = GET_H_ADDRESS
  · exact ⟨_, ProcessBuffer_high dev _ x rest hs1 hin h0, by simp, by simp,
      (ProcessBuffer_high dev { s with USB_Outgoing_Buffer := q } x rest hs1 hin hq).trans
        (by simp),
      fun h => absurd rfl h⟩
  by_cases hs2 : s.state = GET_L_ADDRESS
  · obtain ⟨t, ht, hl, hg, hq', hx⟩ := execute_room dev
      { s with address := (s.address ||| x) % 65536, USB_Incoming_Buffer := rest,
               state := READ_WRITE } q extra rfl hq
    exact ⟨t, (ProcessBuffer_low dev _ x rest (by exact hs2) (by exact hin) h0).trans ht, hl, hg,
      (ProcessBuffer_low dev { s with USB_Outgoing_Buffer := q } x rest hs2 hin hq).trans hq',
      fun h => (ProcessBuffer_low dev
        { s with USB_Incoming_Buffer := s.USB_Incoming_Buffer ++ extra,
                 USB_Outgoing_Buffer := q } x (rest ++ extra) hs2 hin' hq).trans (hx h)⟩
  exact ⟨_, ProcessBuffer_other_state dev _ hs0 hs1 hs2 h3, by simp, by simp,
    (ProcessBuffer_other_state dev { s with USB_Outgoing_Buffer := q } hs0 hs1 hs2 h3).trans
      (by simp),
    fun h => absurd rfl h⟩

theorem invoke_noop (dev : Device) (s : Sys) (h : ProcessBuffer dev s = some s) (n : Nat) :
    invoke dev n s = some s := by
  induction n with
  | zero => rfl
  | succ n ih => simp [invoke, h, ih]

/-- C7 (backpressure safety).  For every state of the machine, an invocation of
`ProcessBuffer` with the outgoing buffer full returns the state unchanged: the
three statics, both buffers and the hardware (so no incoming byte is removed
and no bus operation is made).  Moreover, let `t` be what one invocation would
produce if the outgoing buffer were empty; it holds at most one reply byte, and
a reply completes the command (the state is `GET_OPCODE`).  Then after any
number `n` of invocations with the full buffer, the first invocation at which
the transport has drained the outgoing buffer to some content `q` with room
yields exactly `t` with `q` in front of its reply: the reply is appended once,
nothing is lost and nothing is duplicated.  When there is a reply, the same
holds if the transport has meanwhile appended bytes `extra` to the incoming
buffer: they stay queued behind what the invocation leaves. -/
theorem C7_backpressure (dev : Device) (s : Sys)
    (hfull : RingBuffer_IsFull s.USB_Outgoing_Buffer = true) :
    ProcessBuffer dev s = some s
    ∧ ∀ (n : Nat) (q extra : RingBuffer), RingBuffer_GetCount q < BUFFER_SIZE →
        ∃ t, ProcessBuffer dev { s with USB_Outgoing_Buffer := [] } = some t
          ∧ t.USB_Outgoing_Buffer.length ≤ 1
          ∧ (t.USB_Outgoing_Buffer ≠ [] → t.state = GET_OPCODE)
          ∧ (invoke dev n s >>= fun s' =>
                ProcessBuffer dev { s' with USB_Outgoing_Buffer := q })
              = some { t with USB_Outgoing_Buffer := q ++ t.USB_Outgoing_Buffer }
          ∧ (t.USB_Outgoing_Buffer ≠ [] →
              (invoke dev n s >>= fun s' =>
                ProcessBuffer dev
                  { s' with USB_Incoming_Buffer := s'.USB_Incoming_Buffer ++ extra,
                            USB_Outgoing_Buffer := q })
              = some { t with USB_Incoming_Buffer := t.USB_Incoming_Buffer ++ extra,
                              USB_Outgoing_Buffer := q ++ t.USB_Outgoing_Buffer }) := by
  have hstall := ProcessBuffer_full dev s hfull
  refine ⟨hstall, ?_⟩
  intro n q extra hq
  obtain ⟨t, ht, hl, hg, hrun, hx⟩ := ProcessBuffer_room dev s q extra hq
  refine ⟨t, ht, hl, hg, ?_, ?_⟩
  · rw [invoke_noop dev s hstall n]
    exact hrun
  · intro h
    rw [invoke_noop dev s hstall n]
    exact hx h

/-- The backpressure theorem applied to a machine that is in `READ_WRITE` with
a pending read of address `0x10` and a full outgoing buffer, against a device
on which every read returns `0xAB`: the invocation changes nothing, and after
two such invocations, once the buffer has been drained to one byte, the next
invocation appends the reply `0xAB`. -/
theorem C7_backpressure_witness :
    ProcessBuffer (constDevice 0xAB)
        { Sys.init with state := READ_WRITE, opcode := READ, address := 0x10,
                        USB_Outgoing_Buffer := List.replicate 10 0 }
      = some { Sys.init with state := READ_WRITE, opcode := READ, address := 0x10,
                             USB_Outgoing_Buffer := List.replicate 10 0 }
    ∧ ((invoke (constDevice 0xAB) 2
          { Sys.init with state := READ_WRITE, opcode := READ, address := 0x10,
                          USB_Outgoing_Buffer := List.replicate 10 0 }
        >>= fun s' => ProcessBuffer (constDevice 0xAB) { s' with USB_Outgoing_Buffer := [0] }).map
          Sys.USB_Outgoing_Buffer)
      = some [0, 0xAB] := by
  have h := C7_backpressure (constDevice 0xAB)
    { Sys.init with state := READ_WRITE, opcode := READ, address := 0x10,
                    USB_Outgoing_Buffer := List.replicate 10 0 } rfl
  refine ⟨h.1, ?_⟩
  obtain ⟨t, ht, -, -, hrun, -⟩ := h.2 2 [0] [] (by decide)
  rw [hrun]
  have hout : some t.USB_Outgoing_Buffer = some [0xAB] :=
    (congrArg (Option.map Sys.USB_Outgoing_Buffer) ht).symm.trans rfl
  simp [Option.some.inj hout]

/-! ## Unrecognized opcodes -/

theorem invokeWith_stalled (dev : Device) (s : Sys) (hs : s.state = READ_WRITE)
    (hr : s.opcode ≠ READ) (hw : s.opcode ≠ WRITE) (qs : List (RingBuffer × RingBuffer)) :
    invokeWith dev qs s
      = some { s with
          USB_Incoming_Buffer :=
            (qs.getLast?.getD (s.USB_Incoming_Buffer, s.USB_Outgoing_Buffer)).1,
          USB_Outgoing_Buffer :=
            (qs.getLast?.getD (s.USB_Incoming_Buffer, s.USB_Outgoing_Buffer)).2 } := by
  induction qs generalizing s with
  | nil => rfl
  | cons q qs ih =>
    obtain ⟨incoming, outgoing⟩ := q
    have hstep := ProcessBuffer_stalled dev
      { s with USB_Incoming_Buffer := incoming, USB_Outgoing_Buffer := outgoing } hs hr hw
    simp only [invokeWith, hstep, Option.some_bind, Option.bind_eq_bind]
    refine (ih _ (by exact hs) (by exact hr) (by exact hw)).trans ?_
    cases qs with
    | nil => rfl
    | cons q' qs' =>
      have hl := List.getLast?_eq_getLast (q' :: qs') (List.cons_ne_nil _ _)
      simp [List.getLast?_cons_cons, hl]

/-- C8 (unrecognized opcode).  For every opcode byte `x` other than `'r'`,
`'w'`, `'e'`, `'d'`, three invocations of `ProcessBuffer` from `GET_OPCODE`
(with room in the outgoing buffer) on an incoming buffer starting `x`, `hi`,
`lo` remove these three bytes, store `hi * 256 + lo` as the address and end in
`READ_WRITE`, with no reply and the hardware untouched.  From then on every
invocation is a no-op whatever the two buffers contain: for any sequence of
buffer contents set by the transport before each invocation, the statics and
the hardware never change (the state stays `READ_WRITE`), and the buffers are
left exactly as the transport last set them. -/
theorem C8_unrecognized_opcode (dev : Device) (s : Sys) (x hi lo : Nat) (rest : List Nat)
    (hx : x ≠ 'r'.toNat ∧ x ≠ 'w'.toNat ∧ x ≠ 'e'.toNat ∧ x ≠ 'd'.toNat)
    (hhi : hi < 256) (hlo : lo < 256) (hs : s.state = GET_OPCODE)
    (hin : s.USB_Incoming_Buffer = x :: hi :: lo :: rest)
    (hout : RingBuffer_GetCount s.USB_Outgoing_Buffer < BUFFER_SIZE) :
    invoke dev 3 s
        = some { s with opcode := x, address := hi * 256 + lo, USB_Incoming_Buffer := rest,
                        state := READ_WRITE }
    ∧ (∀ incoming outgoing : RingBuffer,
        ProcessBuffer dev
            { s with opcode := x, address := hi * 256 + lo, USB_Incoming_Buffer := incoming,
                     USB_Outgoing_Buffer := outgoing, state := READ_WRITE }
          = some { s with opcode := x, address := hi * 256 + lo,
                          USB_Incoming_Buffer := incoming, USB_Outgoing_Buffer := outgoing,
                          state := READ_WRITE })
    ∧ (∀ qs : List (RingBuffer × RingBuffer),
        invokeWith dev qs
            { s with opcode := x, address := hi * 256 + lo, USB_Incoming_Buffer := rest,
                     state := READ_WRITE }
          = some { s with opcode := x, address := hi * 256 + lo,
                          USB_Incoming_Buffer :=
                            (qs.getLast?.getD (rest, s.USB_Outgoing_Buffer)).1,
                          USB_Outgoing_Buffer :=
                            (qs.getLast?.getD (rest, s.USB_Outgoing_Buffer)).2,
                          state := READ_WRITE }) := by
  obtain ⟨hxr, hxw, hxe, hxd⟩ := hx
  refine ⟨?_, ?_, ?_⟩
  · apply invoke_three dev s _ _ _
      (ProcessBuffer_opcode dev s x _ hs hin hout hxe hxd)
      (ProcessBuffer_high dev _ hi _ rfl rfl (by exact hout))
    refine (ProcessBuffer_low dev _ lo rest rfl rfl (by exact hout)).trans ?_
    refine (execute_other dev _ hxr hxw).trans ?_
    simp [address_assemble hi lo hhi hlo]
  · intro incoming outgoing
    exact ProcessBuffer_stalled dev _ rfl hxr hxw
  · intro qs
    exact invokeWith_stalled dev _ rfl hxr hxw qs

/-- The unrecognized opcode theorem applied at startup to the bytes `'x'`,
`0x12`, `0x34`, `'r'`: after three invocations the machine is in `READ_WRITE`
with an empty outgoing buffer, and it stays there when invoked with other
buffer contents. -/
theorem C8_unrecognized_opcode_witness :
    invoke (constDevice 0) 3
        { Sys.init with USB_Incoming_Buffer := ['x'.toNat, 0x12, 0x34, 'r'.toNat] }
      = some { Sys.init with opcode := 'x'.toNat, address := 0x1234,
                             USB_Incoming_Buffer := ['r'.toNat], state := READ_WRITE }
    ∧ invokeWith (constDevice 0) [(['r'.toNat], []), (['r'.toNat, 0, 0], [])]
        { Sys.init with opcode := 'x'.toNat, address := 0x1234,
                        USB_Incoming_Buffer := ['r'.toNat], state := READ_WRITE }
      = some { Sys.init with opcode := 'x'.toNat, address := 0x1234,
                             USB_Incoming_Buffer := ['r'.toNat, 0, 0], state := READ_WRITE } :=
  have h := C8_unrecognized_opcode (constDevice 0)
    { Sys.init with USB_Incoming_Buffer := ['x'.toNat, 0x12, 0x34, 'r'.toNat] }
    'x'.toNat 0x12 0x34 ['r'.toNat] (by decide) (by decide) (by decide) rfl rfl (by decide)
  ⟨h.1, h.2.2 [(['r'.toNat], []), (['r'.toNat, 0, 0], [])]⟩

/-! ## Read after write against the ideal memory -/

theorem invoke_add (dev : Device) (m n : Nat) (s : Sys) :
    invoke dev (m + n) s = invoke dev m s >>= invoke dev n := by
  induction m generalizing s with
  | zero => simp [invoke]
  | succ m ih =>
    rw [Nat.succ_add]
    simp only [invoke, Option.bind_eq_bind]
    cases ProcessBuffer dev s with
    | none => rfl
    | some s' => simpa using ih s'

theorem idealMem_pollReads (init : Nat → Nat) (dev : Device) (a n : Nat) (hw : HW) :
    idealMem init (pollReads dev a n hw).trace = idealMem init hw.trace := by
  induction n generalizing hw with
  | zero => rfl
  | succ n ih => simp only [pollReads, ih, idealMem_ReadByteFromAddress]

theorem idealMem_DataPoll (init : Nat → Nat) (dev : Device) (a b : Nat) (hw : HW) :
    idealMem init (DataPoll dev a b hw).2.trace = idealMem init hw.trace := by
  obtain ⟨n, -, -, -, hp, -, -⟩ := DataPoll_reads dev a b hw
  rw [hp, idealMem_pollReads]

theorem address_split (A : Nat) (hA : A ≤ 0x7FFF) :
    A >>> 8 < 256 ∧ A &&& 0xFF < 256 ∧ (A >>> 8) * 256 + (A &&& 0xFF) = A
      ∧ A % 32768 = A := by
  have h1 : A >>> 8 = A / 256 := Nat.shiftRight_eq_div_pow A 8
  have h2 : A &&& 0xFF = A % 256 := Nat.and_pow_two_sub_one_eq_mod A 8
  rw [h1, h2]
  omega

/-- C1 (read-after-write round trip).  Against the ideal memory device with any
initial content, from any hardware state, with the machine in `GET_OPCODE` and
an empty outgoing buffer: for every address `A ≤ 0x7FFF` and every byte `V`,
when the incoming buffer holds `'w'`, `A >> 8`, `A & 0xFF`, `V`, `'r'`,
`A >> 8`, `A & 0xFF`, six invocations of `ProcessBuffer` complete both
commands, and after these and any number of further invocations the outgoing
buffer holds exactly the two reply bytes `V`, `V`, the incoming buffer is empty
and the state is `GET_OPCODE`. -/
theorem C1_read_after_write (init : Nat → Nat) (s : Sys) (A V : Nat)
    (hA : A ≤ 0x7FFF) (hV : V < 256) (hs : s.state = GET_OPCODE)
    (hout : s.USB_Outgoing_Buffer = [])
    (hin : s.USB_Incoming_Buffer
      = ['w'.toNat, A >>> 8, A &&& 0xFF, V, 'r'.toNat, A >>> 8, A &&& 0xFF]) :
    ∀ n, 6 ≤ n → ∃ t, invoke (idealDevice init) n s = some t
      ∧ t.USB_Outgoing_Buffer = [V, V] ∧ t.USB_Incoming_Buffer = []
      ∧ t.state = GET_OPCODE := by
  intro n hn
  obtain ⟨hhi, hlo, hsplit, hmod⟩ := address_split A hA
  have hroom : RingBuffer_GetCount s.USB_Outgoing_Buffer < BUFFER_SIZE := by
    rw [hout]
    decide
  have h3 := write_command (idealDevice init) s (A >>> 8) (A &&& 0xFF) V
    ['r'.toNat, A >>> 8, A &&& 0xFF] hhi hlo hs hin hroom
  rw [hsplit, hout] at h3
  have hr1 : (ReadByteFromAddress (idealDevice init) A
      (DataPoll (idealDevice init) A V (WriteByteToAddress A V s.hw)).2).1 = V := by
    rw [ReadByteFromAddress_ideal, idealMem_DataPoll, idealMem_WriteByteToAddress, hmod,
      Function.update_same, Nat.mod_mod, Nat.mod_eq_of_lt hV]
  rw [hr1, List.nil_append] at h3
  have h6 := read_command (idealDevice init)
    { state := GET_OPCODE, opcode := WRITE, address := A,
      USB_Incoming_Buffer := ['r'.toNat, A >>> 8, A &&& 0xFF],
      USB_Outgoing_Buffer := [V],
      hw := (ReadByteFromAddress (idealDevice init) A
        (DataPoll (idealDevice init) A V (WriteByteToAddress A V s.hw)).2).2 }
    (A >>> 8) (A &&& 0xFF) [] hhi hlo rfl rfl (by simp [RingBuffer_GetCount, BUFFER_SIZE])
  simp only [hsplit, List.singleton_append] at h6
  have hr2 : (ReadByteFromAddress (idealDevice init) A
      (ReadByteFromAddress (idealDevice init) A
        (DataPoll (idealDevice init) A V (WriteByteToAddress A V s.hw)).2).2).1 = V := by
    rw [ReadByteFromAddress_ideal, idealMem_ReadByteFromAddress, idealMem_DataPoll,
      idealMem_WriteByteToAddress, hmod, Function.update_same, Nat.mod_mod,
      Nat.mod_eq_of_lt hV]
  obtain ⟨k, rfl⟩ : ∃ k, n = 3 + (3 + k) := ⟨n - 6, by omega⟩
  rw [hr2] at h6
  rw [invoke_add, h3, Option.bind_eq_bind, Option.some_bind, invoke_add, h6,
    Option.bind_eq_bind, Option.some_bind,
    invoke_noop _ _ (ProcessBuffer_empty _ _ rfl (fun h => by cases h)) k]
  exact ⟨_, rfl, rfl, rfl, rfl⟩

/-- The round trip theorem applied at startup with the ideal memory initially
all `0xFF`, address `0x0010` and byte `0xAB`. -/
theorem C1_read_after_write_witness :
    ∃ t, invoke (idealDevice fun _ => 0xFF) 6
        { Sys.init with USB_Incoming_Buffer := ['w'.toNat, 0x00, 0x10, 0xAB, 'r'.toNat, 0x00, 0x10] }
          = some t
      ∧ t.USB_Outgoing_Buffer = [0xAB, 0xAB] ∧ t.USB_Incoming_Buffer = []
      ∧ t.state = GET_OPCODE :=
  C1_read_after_write (fun _ => 0xFF)
    { Sys.init with USB_Incoming_Buffer := ['w'.toNat, 0x00, 0x10, 0xAB, 'r'.toNat, 0x00, 0x10] }
    0x10 0xAB (by decide) (by decide) rfl rfl rfl 6 (Nat.le_refl 6)

/-! ## Fragmented delivery -/

theorem receiveByte_none (s : Sys) : receiveByte none s = some s := by
  simp [receiveByte]

theorem receiveByte_some (s : Sys) (b : Nat) (hb : b < 256)
    (hroom : RingBuffer_GetCount s.USB_Incoming_Buffer < BUFFER_SIZE) :
    receiveByte (some b) s
      = some { s with USB_Incoming_Buffer := s.USB_Incoming_Buffer ++ [b] } := by
  simp [receiveByte, isFull_eq_false hroom, insert_of_room hroom, Nat.mod_eq_of_lt hb]

theorem idlePasses_eq_invoke (dev : Device) (n : Nat) (s : Sys) :
    idlePasses dev n s = invoke dev n s := by
  induction n generalizing s with
  | zero => rfl
  | succ n ih =>
    simp only [idlePasses, invoke, pass, receiveByte_none, Option.bind_eq_bind, Option.some_bind]
    cases ProcessBuffer dev s with
    | none => rfl
    | some s' => simpa using ih s'

theorem sched_cons (sched : List (Nat × Nat)) (a : Nat) (rest : List Nat)
    (h : sched.map Prod.snd = a :: rest) :
    ∃ n tl, sched = (n, a) :: tl ∧ tl.map Prod.snd = rest := by
  cases sched with
  | nil => simp at h
  | cons p tl =>
    obtain ⟨n, x⟩ := p
    simp only [List.map_cons, List.cons.injEq] at h
    exact ⟨n, tl, by rw [h.1], h.2⟩

theorem fragmented_cons (dev : Device) (n b : Nat) (rest : List (Nat × Nat)) (s s' : Sys)
    (hidle : ProcessBuffer dev s = some s) (hb : b < 256)
    (hroom : RingBuffer_GetCount s.USB_Incoming_Buffer < BUFFER_SIZE)
    (hstep : ProcessBuffer dev { s with USB_Incoming_Buffer := s.USB_Incoming_Buffer ++ [b] }
      = some s') :
    fragmented dev ((n, b) :: rest) s = fragmented dev rest s' := by
  simp only [fragmented, idlePasses_eq_invoke, invoke_noop dev s hidle n, pass,
    receiveByte_some s b hb hroom, hstep, Option.bind_eq_bind, Option.some_bind]

theorem queueAll_cons (b : Nat) (rest : List Nat) (s : Sys) (hb : b < 256)
    (hroom : RingBuffer_GetCount s.USB_Incoming_Buffer < BUFFER_SIZE) :
    queueAll (b :: rest) s
      = queueAll rest { s with USB_Incoming_Buffer := s.USB_Incoming_Buffer ++ [b] } := by
  simp only [queueAll, receiveByte_some s b hb hroom, Option.bind_eq_bind, Option.some_bind]

theorem invoke_one_noop (dev : Device) (s t : Sys) (k : Nat) (hk : 1 ≤ k)
    (h1 : ProcessBuffer dev s = some t) (h2 : ProcessBuffer dev t = some t) :
    invoke dev k s = some t := by
  obtain ⟨j, rfl⟩ : ∃ j, k = 1 + j := ⟨k - 1, by omega⟩
  rw [invoke_add]
  simp only [invoke, h1, Option.bind_eq_bind, Option.some_bind, invoke_noop dev t h2 j]

theorem invoke_three_noop (dev : Device) (s t : Sys) (k : Nat) (hk : 3 ≤ k)
    (h1 : invoke dev 3 s = some t) (h2 : ProcessBuffer dev t = some t) :
    invoke dev k s = some t := by
  obtain ⟨j, rfl⟩ : ∃ j, k = 3 + j := ⟨k - 3, by omega⟩
  rw [invoke_add, h1]
  simp only [Option.bind_eq_bind, Option.some_bind, invoke_noop dev t h2 j]

theorem queueAll_all (cmd : List Nat) (s : Sys) (hbytes : ∀ b ∈ cmd, b < 256)
    (hlen : s.USB_Incoming_Buffer.length + cmd.length ≤ BUFFER_SIZE) :
    queueAll cmd s = some { s with USB_Incoming_Buffer := s.USB_Incoming_Buffer ++ cmd } := by
  induction cmd generalizing s with
  | nil => simp [queueAll]
  | cons b rest ih =>
    simp only [List.length_cons] at hlen
    rw [queueAll_cons b rest s (hbytes b (List.mem_cons_self _ _))
      (by simp only [RingBuffer_GetCount]; omega)]
    rw [ih _ (fun x hx => hbytes x (List.mem_cons_of_mem _ hx))
      (by simp only [List.length_append, List.length_singleton]; omega)]
    simp

theorem fragmented_full (dev : Device) (sched : List (Nat × Nat)) (s : Sys)
    (hfull : RingBuffer_IsFull s.USB_Outgoing_Buffer = true)
    (hbytes : ∀ b ∈ sched.map Prod.snd, b < 256)
    (hlen : s.USB_Incoming_Buffer.length + sched.length ≤ BUFFER_SIZE) :
    fragmented dev sched s
      = some { s with USB_Incoming_Buffer := s.USB_Incoming_Buffer ++ sched.map Prod.snd } := by
  induction sched generalizing s with
  | nil => simp [fragmented]
  | cons p rest ih =>
    obtain ⟨n, b⟩ := p
    simp only [List.length_cons] at hlen
    rw [fragmented_cons dev n b rest s _ (ProcessBuffer_full dev s hfull)
      (hbytes b (by simp)) (by simp only [RingBuffer_GetCount]; omega)
      (ProcessBuffer_full dev _ (by exact hfull))]
    refine (ih _ (by exact hfull)
      (fun x hx => hbytes x (by simp only [List.map_cons]; exact List.mem_cons_of_mem _ hx))
      (by simp only [List.length_append, List.length_singleton]; omega)).trans ?_
    simp

theorem validCommand_bytes (cmd : List Nat) (h : validCommand cmd) :
    (∀ b ∈ cmd, b < 256) ∧ 1 ≤ cmd.length ∧ cmd.length ≤ 4 := by
  rcases h with ⟨hi, lo, hhi, hlo, rfl⟩ | ⟨hi, lo, data, hhi, hlo, hdata, rfl⟩ | rfl | rfl
  · simp [READ, hhi, hlo]
  · simp [WRITE, hhi, hlo, hdata]
  · simp [SDP_ON]
  · simp [SDP_OFF]

theorem fragmentation_full (dev : Device) (s : Sys) (cmd : List Nat)
    (sched : List (Nat × Nat)) (k trailing : Nat)
    (hcmd : validCommand cmd) (hsched : sched.map Prod.snd = cmd)
    (hin : s.USB_Incoming_Buffer = [])
    (hfull : RingBuffer_IsFull s.USB_Outgoing_Buffer = true) :
    batch dev cmd k s = some { s with USB_Incoming_Buffer := cmd }
    ∧ (fragmented dev sched s >>= idlePasses dev trailing)
        = some { s with USB_Incoming_Buffer := cmd } := by
  obtain ⟨hbytes, -, hlen⟩ := validCommand_bytes cmd hcmd
  have hl : sched.length = cmd.length := by rw [← hsched, List.length_map]
  constructor
  · rw [batch, queueAll_all cmd s hbytes (by rw [hin]; simp only [List.length_nil, BUFFER_SIZE]; omega)]
    simp only [hin, List.nil_append, Option.bind_eq_bind, Option.some_bind]
    exact invoke_noop dev _ (ProcessBuffer_full dev _ (by exact hfull)) k
  · rw [fragmented_full dev sched s hfull (by rw [hsched]; exact hbytes)
      (by rw [hin, hl]; simp only [List.length_nil, BUFFER_SIZE]; omega)]
    simp only [hin, hsched, List.nil_append, Option.bind_eq_bind, Option.some_bind,
      idlePasses_eq_invoke]
    exact invoke_noop dev _ (ProcessBuffer_full dev _ (by exact hfull)) trailing

theorem sched_nil (sched : List (Nat × Nat)) (h : sched.map Prod.snd = []) : sched = [] := by
  cases sched with
  | nil => rfl
  | cons p tl => simp at h

theorem fragmented_step (dev : Device) (n b : Nat) (rest : List (Nat × Nat)) (s s' : Sys)
    (hin : s.USB_Incoming_Buffer = []) (hidle : s.state = READ_WRITE → s.opcode ≠ READ)
    (hb : b < 256)
    (hstep : ProcessBuffer dev { s with USB_Incoming_Buffer := [b] } = some s') :
    fragmented dev ((n, b) :: rest) s = fragmented dev rest s' := by
  apply fragmented_cons dev n b rest s s' (ProcessBuffer_empty dev s hin hidle) hb
  · rw [hin]
    decide
  · rw [hin]
    exact hstep

theorem step_execute_read (dev : Device) (s : Sys) (lo : Nat)
    (hs : s.state = GET_L_ADDRESS) (ho : s.opcode = READ) (hin : s.USB_Incoming_Buffer = [lo])
    (hout : RingBuffer_GetCount s.USB_Outgoing_Buffer < BUFFER_SIZE) :
    ProcessBuffer dev s
      = some { s with
          address := (s.address ||| lo) % 65536, USB_Incoming_Buffer := [],
          USB_Outgoing_Buffer := s.USB_Outgoing_Buffer
            ++ [(ReadByteFromAddress dev ((s.address ||| lo) % 65536) s.hw).1],
          hw := (ReadByteFromAddress dev ((s.address ||| lo) % 65536) s.hw).2,
          state := GET_OPCODE } := by
  refine (ProcessBuffer_low dev s lo [] hs hin hout).trans ?_
  exact execute_read dev _ rfl (by exact ho) (by exact hout)

theorem step_execute_wait (dev : Device) (s : Sys) (lo : Nat)
    (hs : s.state = GET_L_ADDRESS) (ho : s.opcode = WRITE) (hin : s.USB_Incoming_Buffer = [lo])
    (hout : RingBuffer_GetCount s.USB_Outgoing_Buffer < BUFFER_SIZE) :
    ProcessBuffer dev s
      = some { s with
          address := (s.address ||| lo) % 65536, USB_Incoming_Buffer := [],
          state := READ_WRITE } := by
  refine (ProcessBuffer_low dev s lo [] hs hin hout).trans ?_
  exact execute_write_empty dev _ (by exact ho) rfl

theorem step_execute_write (dev : Device) (s : Sys) (data : Nat)
    (hs : s.state = READ_WRITE) (ho : s.opcode = WRITE)
    (hin : s.USB_Incoming_Buffer = [data])
    (hout : RingBuffer_GetCount s.USB_Outgoing_Buffer < BUFFER_SIZE) :
    ProcessBuffer dev s
      = some { s with
          hw := (ReadByteFromAddress dev s.address
                  (DataPoll dev s.address data (WriteByteToAddress s.address data s.hw)).2).2,
          USB_Incoming_Buffer := [],
          USB_Outgoing_Buffer := s.USB_Outgoing_Buffer ++
            [(ReadByteFromAddress dev s.address
                (DataPoll dev s.address data (WriteByteToAddress s.address data s.hw)).2).1],
          state := GET_OPCODE } :=
  (ProcessBuffer_at_execute dev s hs).trans (execute_write dev s data [] hs ho hin hout)

theorem fragmented_read (dev : Device) (s : Sys) (hi lo n1 n2 n3 : Nat)
    (hhi : hi < 256) (hlo : lo < 256) (hs : s.state = GET_OPCODE)
    (hin : s.USB_Incoming_Buffer = [])
    (hout : RingBuffer_GetCount s.USB_Outgoing_Buffer < BUFFER_SIZE) :
    fragmented dev [(n1, READ), (n2, hi), (n3, lo)] s
      = some { state := GET_OPCODE, opcode := READ, address := hi * 256 + lo,
               USB_Incoming_Buffer := [],
               USB_Outgoing_Buffer := s.USB_Outgoing_Buffer
                 ++ [(ReadByteFromAddress dev (hi * 256 + lo) s.hw).1],
               hw := (ReadByteFromAddress dev (hi * 256 + lo) s.hw).2 } := by
  obtain ⟨st, op, ad, inc, out, hw⟩ := s
  simp only at hs hin hout
  subst hs hin
  have e1 : ProcessBuffer dev
      { state := GET_OPCODE, opcode := op, address := ad, USB_Incoming_Buffer := [READ],
        USB_Outgoing_Buffer := out, hw := hw }
      = some { state := GET_H_ADDRESS, opcode := READ, address := ad,
               USB_Incoming_Buffer := [], USB_Outgoing_Buffer := out, hw := hw } :=
    ProcessBuffer_opcode dev _ READ [] rfl rfl hout (by decide) (by decide)
  have e2 : ProcessBuffer dev
      { state := GET_H_ADDRESS, opcode := READ, address := ad, USB_Incoming_Buffer := [hi],
        USB_Outgoing_Buffer := out, hw := hw }
      = some { state := GET_L_ADDRESS, opcode := READ, address := (hi <<< 8) % 65536,
               USB_Incoming_Buffer := [], USB_Outgoing_Buffer := out, hw := hw } :=
    ProcessBuffer_high dev _ hi [] rfl rfl hout
  have e3 : ProcessBuffer dev
      { state := GET_L_ADDRESS, opcode := READ, address := (hi <<< 8) % 65536,
        USB_Incoming_Buffer := [lo], USB_Outgoing_Buffer := out, hw := hw }
      = some { state := GET_OPCODE, opcode := READ, address := hi * 256 + lo,
               USB_Incoming_Buffer := [],
               USB_Outgoing_Buffer := out ++ [(ReadByteFromAddress dev (hi * 256 + lo) hw).1],
               hw := (ReadByteFromAddress dev (hi * 256 + lo) hw).2 } := by
    rw [← address_assemble hi lo hhi hlo]
    exact step_execute_read dev _ lo rfl rfl rfl hout
  rw [fragmented_step dev n1 READ _ _ _ rfl (fun h => by cases h) (by decide) e1,
    fragmented_step dev n2 hi _ _ _ rfl (fun h => by cases h) hhi e2,
    fragmented_step dev n3 lo _ _ _ rfl (fun h => by cases h) hlo e3]
  rfl

theorem fragmented_write (dev : Device) (s : Sys) (hi lo data n1 n2 n3 n4 : Nat)
    (hhi : hi < 256) (hlo : lo < 256) (hdata : data < 256) (hs : s.state = GET_OPCODE)
    (hin : s.USB_Incoming_Buffer = [])
    (hout : RingBuffer_GetCount s.USB_Outgoing_Buffer < BUFFER_SIZE) :
    fragmented dev [(n1, WRITE), (n2, hi), (n3, lo), (n4, data)] s
      = some { state := GET_OPCODE, opcode := WRITE, address := hi * 256 + lo,
               USB_Incoming_Buffer := [],
               USB_Outgoing_Buffer := s.USB_Outgoing_Buffer
                 ++ [(ReadByteFromAddress dev (hi * 256 + lo)
                        (DataPoll dev (hi * 256 + lo) data
                          (WriteByteToAddress (hi * 256 + lo) data s.hw)).2).1],
               hw := (ReadByteFromAddress dev (hi * 256 + lo)
                        (DataPoll dev (hi * 256 + lo) data
                          (WriteByteToAddress (hi * 256 + lo) data s.hw)).2).2 } := by
  obtain ⟨st, op, ad, inc, out, hw⟩ := s
  simp only at hs hin hout
  subst hs hin
  have e1 : ProcessBuffer dev
      { state := GET_OPCODE, opcode := op, address := ad, USB_Incoming_Buffer := [WRITE],
        USB_Outgoing_Buffer := out, hw := hw }
      = some { state := GET_H_ADDRESS, opcode := WRITE, address := ad,
               USB_Incoming_Buffer := [], USB_Outgoing_Buffer := out, hw := hw } :=
    ProcessBuffer_opcode dev _ WRITE [] rfl rfl hout (by decide) (by decide)
  have e2 : ProcessBuffer dev
      { state := GET_H_ADDRESS, opcode := WRITE, address := ad, USB_Incoming_Buffer := [hi],
        USB_Outgoing_Buffer := out, hw := hw }
      = some { state := GET_L_ADDRESS, opcode := WRITE, address := (hi <<< 8) % 65536,
               USB_Incoming_Buffer := [], USB_Outgoing_Buffer := out, hw := hw } :=
    ProcessBuffer_high dev _ hi [] rfl rfl hout
  have e3 : ProcessBuffer dev
      { state := GET_L_ADDRESS, opcode := WRITE, address := (hi <<< 8) % 65536,
        USB_Incoming_Buffer := [lo], USB_Outgoing_Buffer := out, hw := hw }
      = some { state := READ_WRITE, opcode := WRITE, address := hi * 256 + lo,
               USB_Incoming_Buffer := [], USB_Outgoing_Buffer := out, hw := hw } := by
    rw [← address_assemble hi lo hhi hlo]
    exact step_execute_wait dev _ lo rfl rfl rfl hout
  have e4 : ProcessBuffer dev
      { state := READ_WRITE, opcode := WRITE, address := hi * 256 + lo,
        USB_Incoming_Buffer := [data], USB_Outgoing_Buffer := out, hw := hw }
      = some { state := GET_OPCODE, opcode := WRITE, address := hi * 256 + lo,
               USB_Incoming_Buffer := [],
               USB_Outgoing_Buffer := out
                 ++ [(ReadByteFromAddress dev (hi * 256 + lo)
                        (DataPoll dev (hi * 256 + lo) data
                          (WriteByteToAddress (hi * 256 + lo) data hw)).2).1],
               hw := (ReadByteFromAddress dev (hi * 256 + lo)
                        (DataPoll dev (hi * 256 + lo) data
                          (WriteByteToAddress (hi * 256 + lo) data hw)).2).2 } :=
    step_execute_write dev _ data rfl rfl rfl hout
  rw [fragmented_step dev n1 WRITE _ _ _ rfl (fun h => by cases h) (by decide) e1,
    fragmented_step dev n2 hi _ _ _ rfl (fun h => by cases h) hhi e2,
    fragmented_step dev n3 lo _ _ _ rfl (fun h => by cases h) hlo e3,
    fragmented_step dev n4 data _ _ _ rfl (fun _ h => by cases h) hdata e4]
  rfl

theorem fragmented_sdp_on (dev : Device) (s : Sys) (n1 : Nat) (hs : s.state = GET_OPCODE)
    (hin : s.USB_Incoming_Buffer = [])
    (hout : RingBuffer_GetCount s.USB_Outgoing_Buffer < BUFFER_SIZE) :
    fragmented dev [(n1, SDP_ON)] s
      = some { s with opcode := SDP_ON, USB_Incoming_Buffer := [],
                      USB_Outgoing_Buffer := s.USB_Outgoing_Buffer ++ [ACK_E],
                      hw := EnableSDP s.hw, state := GET_OPCODE } := by
  rw [fragmented_step dev n1 SDP_ON _ s _ hin (fun h => by rw [hs] at h; cases h) (by decide)
    (ProcessBuffer_sdp_on dev { s with USB_Incoming_Buffer := [SDP_ON] } [] hs rfl hout)]
  rfl

theorem fragmented_sdp_off (dev : Device) (s : Sys) (n1 : Nat) (hs : s.state = GET_OPCODE)
    (hin : s.USB_Incoming_Buffer = [])
    (hout : RingBuffer_GetCount s.USB_Outgoing_Buffer < BUFFER_SIZE) :
    fragmented dev [(n1, SDP_OFF)] s
      = some { s with opcode := SDP_OFF, USB_Incoming_Buffer := [],
                      USB_Outgoing_Buffer := s.USB_Outgoing_Buffer ++ [ACK_D],
                      hw := DisableSDP s.hw, state := GET_OPCODE } := by
  rw [fragmented_step dev n1 SDP_OFF _ s _ hin (fun h => by rw [hs] at h; cases h) (by decide)
    (ProcessBuffer_sdp_off dev { s with USB_Incoming_Buffer := [SDP_OFF] } [] hs rfl hout)]
  rfl

theorem batch_eq (dev : Device) (cmd : List Nat) (k : Nat) (s : Sys)
    (hcmd : validCommand cmd) (hin : s.USB_Incoming_Buffer = []) :
    batch dev cmd k s = invoke dev k { s with USB_Incoming_Buffer := cmd } := by
  obtain ⟨hbytes, -, hlen⟩ := validCommand_bytes cmd hcmd
  rw [batch, queueAll_all cmd s hbytes
    (by rw [hin]; simp only [List.length_nil, BUFFER_SIZE]; omega)]
  simp only [hin, List.nil_append, Option.bind_eq_bind, Option.some_bind]

theorem trailing_idle (dev : Device) (t : Sys) (trailing : Nat) (r : Option Sys)
    (hr : r = some t) (hin : t.USB_Incoming_Buffer = []) (hs : t.state = GET_OPCODE) :
    (r >>= idlePasses dev trailing) = some t := by
  subst hr
  simp only [Option.bind_eq_bind, Option.some_bind, idlePasses_eq_invoke]
  exact invoke_noop dev t (ProcessBuffer_empty dev t hin (fun h => by rw [hs] at h; cases h)) _

/-- C6 (fragmentation tolerance).  Let `cmd` be a valid command (`'r' hi lo`,
`'w' hi lo data`, `'e'` or `'d'`), `dev` any deterministic device, and let the
machine be in `GET_OPCODE` with an empty incoming buffer and any outgoing
buffer within capacity.  Take any schedule that delivers the bytes of `cmd` one
per pass of the main loop, each preceded by any number of idle passes, and
followed by any number of trailing idle passes.  Then the final system state
is the same as when all bytes of `cmd` are queued first and `ProcessBuffer` is
then invoked `k` times, for any `k` that is at least the number of invocations
the command needs (three for `'r'` and `'w'`, one for `'e'` and `'d'`): the same
outgoing buffer (hence the same reply), the same hardware state (hence the
same driver calls and the same register stores, in the same order) and the
same `state`, `opcode` and `address`. -/
theorem C6_fragmentation_tolerance (dev : Device) (s : Sys) (cmd : List Nat)
    (sched : List (Nat × Nat)) (k trailing : Nat)
    (hcmd : validCommand cmd) (hsched : sched.map Prod.snd = cmd)
    (hs : s.state = GET_OPCODE) (hin : s.USB_Incoming_Buffer = [])
    (hout : RingBuffer_GetCount s.USB_Outgoing_Buffer ≤ BUFFER_SIZE)
    (hk : min 3 cmd.length ≤ k) :
    ∃ t, batch dev cmd k s = some t
      ∧ (fragmented dev sched s >>= idlePasses dev trailing) = some t := by
  by_cases hfull : RingBuffer_IsFull s.USB_Outgoing_Buffer = true
  · exact ⟨_, fragmentation_full dev s cmd sched k trailing hcmd hsched hin hfull⟩
  have hroom : RingBuffer_GetCount s.USB_Outgoing_Buffer < BUFFER_SIZE := by
    simp only [RingBuffer_IsFull, beq_iff_eq] at hfull
    omega
  have hbatch := batch_eq dev cmd k s hcmd hin
  rcases hcmd with ⟨hi, lo, hhi, hlo, rfl⟩ | ⟨hi, lo, data, hhi, hlo, hdata, rfl⟩ | rfl | rfl
  · obtain ⟨n1, tl1, rfl, h1⟩ := sched_cons sched _ _ hsched
    obtain ⟨n2, tl2, rfl, h2⟩ := sched_cons tl1 _ _ h1
    obtain ⟨n3, tl3, rfl, h3⟩ := sched_cons tl2 _ _ h2
    obtain rfl := sched_nil tl3 h3
    have hb := read_command dev { s with USB_Incoming_Buffer := [READ, hi, lo] } hi lo []
      hhi hlo hs rfl hroom
    refine ⟨_, ?_, trailing_idle dev _ trailing _
      (fragmented_read dev s hi lo n1 n2 n3 hhi hlo hs hin hroom) rfl rfl⟩
    rw [hbatch]
    exact invoke_three_noop dev _ _ k (by simpa using hk) hb
      (ProcessBuffer_empty dev _ rfl (fun h => by cases h))
  · obtain ⟨n1, tl1, rfl, h1⟩ := sched_cons sched _ _ hsched
    obtain ⟨n2, tl2, rfl, h2⟩ := sched_cons tl1 _ _ h1
    obtain ⟨n3, tl3, rfl, h3⟩ := sched_cons tl2 _ _ h2
    obtain ⟨n4, tl4, rfl, h4⟩ := sched_cons tl3 _ _ h3
    obtain rfl := sched_nil tl4 h4
    have hb := write_command dev { s with USB_Incoming_Buffer := [WRITE, hi, lo, data] }
      hi lo data [] hhi hlo hs rfl hroom
    refine ⟨_, ?_, trailing_idle dev _ trailing _
      (fragmented_write dev s hi lo data n1 n2 n3 n4 hhi hlo hdata hs hin hroom) rfl rfl⟩
    rw [hbatch]
    exact invoke_three_noop dev _ _ k (by simpa using hk) hb
      (ProcessBuffer_empty dev _ rfl (fun h => by cases h))
  · obtain ⟨n1, tl1, rfl, h1⟩ := sched_cons sched _ _ hsched
    obtain rfl := sched_nil tl1 h1
    have hb := ProcessBuffer_sdp_on dev { s with USB_Incoming_Buffer := [SDP_ON] } [] hs rfl
      hroom
    refine ⟨_, ?_, trailing_idle dev _ trailing _
      (fragmented_sdp_on dev s n1 hs hin hroom) rfl rfl⟩
    rw [hbatch]
    exact invoke_one_noop dev _ _ k (by simpa using hk) hb
      (ProcessBuffer_empty dev _ rfl (fun h => by cases h))
  · obtain ⟨n1, tl1, rfl, h1⟩ := sched_cons sched _ _ hsched
    obtain rfl := sched_nil tl1 h1
    have hb := ProcessBuffer_sdp_off dev { s with USB_Incoming_Buffer := [SDP_OFF] } [] hs rfl
      hroom
    refine ⟨_, ?_, trailing_idle dev _ trailing _
      (fragmented_sdp_off dev s n1 hs hin hroom) rfl rfl⟩
    rw [hbatch]
    exact invoke_one_noop dev _ _ k (by simpa using hk) hb
      (ProcessBuffer_empty dev _ rfl (fun h => by cases h))

/-- The fragmentation theorem applied at startup to the command `'r'`, `0x12`,
`0x34`, delivered with two, zero and five idle passes before its bytes and one
trailing idle pass, against a device on which every read returns `0x7F`. -/
theorem C6_fragmentation_tolerance_witness :
    ∃ t, batch (constDevice 0x7F) ['r'.toNat, 0x12, 0x34] 3 Sys.init = some t
      ∧ (fragmented (constDevice 0x7F) [(2, 'r'.toNat), (0, 0x12), (5, 0x34)] Sys.init
          >>= idlePasses (constDevice 0x7F) 1) = some t :=
  C6_fragmentation_tolerance (constDevice 0x7F) Sys.init ['r'.toNat, 0x12, 0x34]
    [(2, 'r'.toNat), (0, 0x12), (5, 0x34)] 3 1
    (Or.inl ⟨0x12, 0x34, by decide, by decide, rfl⟩) rfl rfl rfl (by decide) (by decide)

/-! ## Address masking -/

theorem mask_low (a : Nat) : (a &&& 0x7FFF) &&& PORTD_PIN_MASK = a &&& PORTD_PIN_MASK := by
  have h1 : ∀ x : Nat, x &&& 0x7FFF = x % 2 ^ 15 := fun x => Nat.and_pow_two_sub_one_eq_mod x 15
  have h2 : ∀ x : Nat, x &&& PORTD_PIN_MASK = x % 2 ^ 8 :=
    fun x => Nat.and_pow_two_sub_one_eq_mod x 8
  rw [h1, h2, h2]
  omega

theorem mask_high (a : Nat) :
    ((a &&& 0x7FFF) >>> 8) &&& CE_ACTIVE_LOW = (a >>> 8) &&& CE_ACTIVE_LOW := by
  have h1 : ∀ x : Nat, x &&& 0x7FFF = x % 2 ^ 15 := fun x => Nat.and_pow_two_sub_one_eq_mod x 15
  have h2 : ∀ x : Nat, x &&& CE_ACTIVE_LOW = x % 2 ^ 7 :=
    fun x => Nat.and_pow_two_sub_one_eq_mod x 7
  rw [h1, h2, h2, Nat.shiftRight_eq_div_pow, Nat.shiftRight_eq_div_pow]
  omega

theorem WriteByteToAddress_masked (a v : Nat) (hw : HW) :
    (WriteByteToAddress (a &&& 0x7FFF) v hw).trace = (WriteByteToAddress a v hw).trace
    ∧ (WriteByteToAddress (a &&& 0x7FFF) v hw).regs = (WriteByteToAddress a v hw).regs := by
  simp only [WriteByteToAddress, store, enter, mask_low, mask_high, and_self]

theorem readSetup_masked (a : Nat) (hw : HW) :
    (readSetup (a &&& 0x7FFF) hw).trace = (readSetup a hw).trace
    ∧ (readSetup (a &&& 0x7FFF) hw).regs = (readSetup a hw).regs := by
  simp only [readSetup, store, enter, mask_low, mask_high, and_self]

/-- C11 (address masking).  For every address `a`, value `v`, device and
hardware state, `WriteByteToAddress(a, v)` makes exactly the same sequence of
register stores, and leaves the same register file, as
`WriteByteToAddress(a & 0x7FFF, v)`; `ReadByteFromAddress(a)` makes the same
stores, leaves the same register file and returns the same byte as
`ReadByteFromAddress(a & 0x7FFF)`.  Hence two addresses that agree on bits
0..14 are indistinguishable on the pins: bit 15 reaches neither an address
line nor `/CE` (bit 7 of port B). -/
theorem C11_address_masking (dev : Device) (a v : Nat) (hw : HW) :
    (WriteByteToAddress a v hw).trace = (WriteByteToAddress (a &&& 0x7FFF) v hw).trace
    ∧ (WriteByteToAddress a v hw).regs = (WriteByteToAddress (a &&& 0x7FFF) v hw).regs
    ∧ (ReadByteFromAddress dev a hw).2.trace
        = (ReadByteFromAddress dev (a &&& 0x7FFF) hw).2.trace
    ∧ (ReadByteFromAddress dev a hw).2.regs
        = (ReadByteFromAddress dev (a &&& 0x7FFF) hw).2.regs
    ∧ (ReadByteFromAddress dev a hw).1 = (ReadByteFromAddress dev (a &&& 0x7FFF) hw).1
    ∧ (∀ b : Nat, b &&& 0x7FFF = a &&& 0x7FFF →
        (WriteByteToAddress b v hw).trace = (WriteByteToAddress a v hw).trace
        ∧ (ReadByteFromAddress dev b hw).2.trace = (ReadByteFromAddress dev a hw).2.trace
        ∧ (ReadByteFromAddress dev b hw).1 = (ReadByteFromAddress dev a hw).1) := by
  have hW := WriteByteToAddress_masked
  have hS := readSetup_masked
  have hR : ∀ x : Nat,
      (ReadByteFromAddress dev (x &&& 0x7FFF) hw).2.trace = (ReadByteFromAddress dev x hw).2.trace
      ∧ (ReadByteFromAddress dev (x &&& 0x7FFF) hw).2.regs
          = (ReadByteFromAddress dev x hw).2.regs
      ∧ (ReadByteFromAddress dev (x &&& 0x7FFF) hw).1 = (ReadByteFromAddress dev x hw).1 := by
    intro x
    simp only [ReadByteFromAddress, readRelease, readSample, store, (hS x hw).1, (hS x hw).2,
      and_self]
  refine ⟨(hW a v hw).1.symm, (hW a v hw).2.symm, (hR a).1.symm, (hR a).2.1.symm,
    (hR a).2.2.symm, ?_⟩
  intro b hb
  refine ⟨?_, ?_, ?_⟩
  · rw [← (hW b v hw).1, hb, (hW a v hw).1]
  · rw [← (hR b).1, hb, (hR a).1]
  · rw [← (hR b).2.2, hb, (hR a).2.2]

/-- The address masking theorem applied after `GPIO_Init` to the addresses
`0x1234` and `0x9234`, which differ in bit 15 only. -/
theorem C11_address_masking_witness :
    (WriteByteToAddress 0x9234 0xAB HW.init).trace = (WriteByteToAddress 0x1234 0xAB HW.init).trace
    ∧ (ReadByteFromAddress (constDevice 0x7F) 0x9234 HW.init).2.trace
        = (ReadByteFromAddress (constDevice 0x7F) 0x1234 HW.init).2.trace
    ∧ (ReadByteFromAddress (constDevice 0x7F) 0x9234 HW.init).1
        = (ReadByteFromAddress (constDevice 0x7F) 0x1234 HW.init).1 :=
  (C11_address_masking (constDevice 0x7F) 0x1234 0xAB HW.init).2.2.2.2.2 0x9234 (by decide)

/-! ## Control lines on exit -/

theorem WriteByteToAddress_controlIdle (a v : Nat) (hw : HW) :
    controlIdle (WriteByteToAddress a v hw).regs = true := by
  simp only [WriteByteToAddress, store, enter, controlIdle, PORTE_PIN_MASK, WE_ACTIVE_LOW,
    CE_ACTIVE_LOW, cnot, testBit_mod256, Nat.testBit_and, Nat.testBit_or]
  simp [testBit_lit]

theorem ReadByteFromAddress_controlIdle (dev : Device) (a : Nat) (hw : HW) :
    controlIdle (ReadByteFromAddress dev a hw).2.regs = true := by
  simp only [ReadByteFromAddress, readSetup, readRelease, store, enter, controlIdle,
    PORTE_PIN_MASK, OE_ACTIVE_LOW, CE_ACTIVE_LOW, cnot, testBit_mod256, Nat.testBit_and,
    Nat.testBit_or]
  simp [testBit_lit]

theorem pollReads_succ (dev : Device) (a n : Nat) (hw : HW) :
    pollReads dev a (n + 1) hw = (ReadByteFromAddress dev a (pollReads dev a n hw)).2 := by
  induction n generalizing hw with
  | zero => rfl
  | succ n ih =>
    show pollReads dev a (n + 1) (ReadByteFromAddress dev a hw).2 = _
    rw [ih]
    rfl

theorem DataPoll_controlIdle (dev : Device) (a b : Nat) (hw : HW) :
    controlIdle (DataPoll dev a b hw).2.regs = true := by
  obtain ⟨j, h1, -, -, hp, -, -⟩ := DataPoll_reads dev a b hw
  obtain ⟨k, rfl⟩ : ∃ k, j = k + 1 := ⟨j - 1, by omega⟩
  rw [hp, pollReads_succ]
  exact ReadByteFromAddress_controlIdle dev a _

/-- C12 (idle control lines on exit).  For every hardware state, address, value
and device, on return from `WriteByteToAddress` and from `ReadByteFromAddress`
the three active-low control lines are high: bit 6 (`/WE`) and bit 2 (`/OE`)
of `PORTE` and bit 7 (`/CE`) of `PORTB` are set.  The same holds on return
from `EnableSDP`, `DisableSDP` and `DataPoll`. -/
theorem C12_control_lines_idle (dev : Device) (a v : Nat) (hw : HW) :
    ((WriteByteToAddress a v hw).regs.PORTE.testBit 6 = true
      ∧ (WriteByteToAddress a v hw).regs.PORTE.testBit 2 = true
      ∧ (WriteByteToAddress a v hw).regs.PORTB.testBit 7 = true)
    ∧ ((ReadByteFromAddress dev a hw).2.regs.PORTE.testBit 6 = true
      ∧ (ReadByteFromAddress dev a hw).2.regs.PORTE.testBit 2 = true
      ∧ (ReadByteFromAddress dev a hw).2.regs.PORTB.testBit 7 = true)
    ∧ controlIdle (EnableSDP hw).regs = true
    ∧ controlIdle (DisableSDP hw).regs = true
    ∧ controlIdle (DataPoll dev a v hw).2.regs = true := by
  have hW := WriteByteToAddress_controlIdle a v hw
  have hR := ReadByteFromAddress_controlIdle dev a hw
  simp only [controlIdle, Bool.and_eq_true] at hW hR
  exact ⟨⟨hW.1.1, hW.1.2, hW.2⟩, ⟨hR.1.1, hR.1.2, hR.2⟩,
    WriteByteToAddress_controlIdle _ _ _, WriteByteToAddress_controlIdle _ _ _,
    DataPoll_controlIdle dev a v hw⟩

/-! ## Data lines -/

theorem drive_F (f v : Nat) :
    ((((f &&& cnot PORTF_PIN_MASK) % 256) ||| (v &&& PORTF_PIN_MASK)) % 256) &&& 0xF3
      = v &&& 0xF3 := by
  refine bits_ext 8 (Nat.lt_of_le_of_lt Nat.and_le_right (by decide))
    (Nat.lt_of_le_of_lt Nat.and_le_right (by decide)) ?_
  intro i hi
  simp only [PORTF_PIN_MASK, cnot, testBit_mod256, Nat.testBit_and, Nat.testBit_or]
  interval_cases i <;> simp [testBit_lit]

theorem drive_C (c v : Nat) :
    ((((c &&& cnot PORTC_PIN_MASK) % 256) ||| ((v &&& cnot PORTF_PIN_MASK) <<< 4)) % 256)
        &&& 0xC0
      = (v &&& 0x0C) <<< 4 := by
  have hb : (v &&& 0x0C) <<< 4 < 2 ^ 8 := by
    have : v &&& 0x0C ≤ 0x0C := Nat.and_le_right
    rw [Nat.shiftLeft_eq]
    omega
  refine bits_ext 8 (Nat.lt_of_le_of_lt Nat.and_le_right (by decide)) hb ?_
  intro i hi
  simp only [PORTC_PIN_MASK, PORTF_PIN_MASK, cnot, testBit_mod256, Nat.testBit_and,
    Nat.testBit_or, Nat.testBit_shiftLeft]
  interval_cases i <;> simp [testBit_lit]

theorem WriteByteToAddress_data (a v : Nat) (hw : HW) :
    (WriteByteToAddress a v hw).regs.DDRC &&& 0xC0 = 0xC0
    ∧ (WriteByteToAddress a v hw).regs.DDRF &&& 0xF3 = 0xF3
    ∧ (WriteByteToAddress a v hw).regs.PORTF &&& 0xF3 = v &&& 0xF3
    ∧ (WriteByteToAddress a v hw).regs.PORTC &&& 0xC0 = (v &&& 0x0C) <<< 4 :=
  ⟨or_mask_and hw.regs.DDRC PORTC_PIN_MASK (by decide),
    or_mask_and hw.regs.DDRF PORTF_PIN_MASK (by decide),
    drive_F hw.regs.PORTF v, drive_C hw.regs.PORTC v⟩

theorem ReadByteFromAddress_dataIdle (dev : Device) (a : Nat) (hw : HW) :
    dataIdle (ReadByteFromAddress dev a hw).2.regs = true := by
  have hC := and_cnot_and hw.regs.DDRC PORTC_PIN_MASK (by decide)
  have hF := and_cnot_and hw.regs.DDRF PORTF_PIN_MASK (by decide)
  have hPC := or_mask_and hw.regs.PORTC PORTC_PIN_MASK (by decide)
  have hPF := or_mask_and hw.regs.PORTF PORTF_PIN_MASK (by decide)
  simp only [PORTC_PIN_MASK, PORTF_PIN_MASK] at hC hF hPC hPF
  simp [ReadByteFromAddress, readSetup, readRelease, store, enter, dataIdle, dataIn, hC, hF,
    hPC, hPF, PORTC_PIN_MASK, PORTF_PIN_MASK]

theorem GPIO_Init_dataIdle (hw : HW) : dataIdle (GPIO_Init hw).regs = true := by
  obtain ⟨⟨pb, pc, pd, pe, pf, db, dc, dd, de, df⟩, tr, cl⟩ := hw
  have hC := and_cnot_and dc PORTC_PIN_MASK (by decide)
  have hF := and_cnot_and df PORTF_PIN_MASK (by decide)
  have hPC := or_mask_and pc PORTC_PIN_MASK (by decide)
  have hPF := or_mask_and pf PORTF_PIN_MASK (by decide)
  have h : (GPIO_Init ⟨⟨pb, pc, pd, pe, pf, db, dc, dd, de, df⟩, tr, cl⟩).regs.DDRC &&& 0xC0 = 0
      ∧ (GPIO_Init ⟨⟨pb, pc, pd, pe, pf, db, dc, dd, de, df⟩, tr, cl⟩).regs.DDRF &&& 0xF3 = 0
      ∧ (GPIO_Init ⟨⟨pb, pc, pd, pe, pf, db, dc, dd, de, df⟩, tr, cl⟩).regs.PORTC &&& 0xC0 = 0xC0
      ∧ (GPIO_Init ⟨⟨pb, pc, pd, pe, pf, db, dc, dd, de, df⟩, tr, cl⟩).regs.PORTF &&& 0xF3
          = 0xF3 :=
    ⟨hC, hF, hPC, hPF⟩
  simp only [dataIdle, dataIn, h.1, h.2.1, h.2.2.1, h.2.2.2]
  decide

/-- C13, as stated, fails: after `GPIO_Init` the data lines are idle, but on
return from `WriteByteToAddress(0x0010, 0xAB)` they are not: `DDRC & 0xC0` is
`0xC0` and `DDRF & 0xF3` is `0xF3`, so all eight data pins are outputs, and
they drive `0xAB` (`PORTF & 0xF3 = 0xA3`, `PORTC & 0xC0 = 0x80`). -/
theorem C13_data_lines_not_idle :
    dataIdle HW.init.regs = true
    ∧ dataIdle (WriteByteToAddress 0x0010 0xAB HW.init).regs = false
    ∧ (WriteByteToAddress 0x0010 0xAB HW.init).regs.DDRC &&& 0xC0 = 0xC0
    ∧ (WriteByteToAddress 0x0010 0xAB HW.init).regs.DDRF &&& 0xF3 = 0xF3
    ∧ (WriteByteToAddress 0x0010 0xAB HW.init).regs.PORTF &&& 0xF3 = 0xA3
    ∧ (WriteByteToAddress 0x0010 0xAB HW.init).regs.PORTC &&& 0xC0 = 0x80 := by
  decide

/-- C13, amended.  For every hardware state, address and value, on return from
`WriteByteToAddress` the data pins of port C (mask `0xC0`) and port F (mask
`0xF3`) are still configured as outputs and still drive the written value
(`PORTF & 0xF3 = v & 0xF3`, `PORTC & 0xC0 = (v & 0x0C) << 4`), so the data lines
are not idle.  The idle state (inputs with pull-ups enabled) is what
`GPIO_Init` establishes and what every `ReadByteFromAddress` leaves, so it is
restored by the next read. -/
theorem C13_data_lines_after_write (dev : Device) (a v b : Nat) (hw : HW) :
    (WriteByteToAddress a v hw).regs.DDRC &&& 0xC0 = 0xC0
    ∧ (WriteByteToAddress a v hw).regs.DDRF &&& 0xF3 = 0xF3
    ∧ (WriteByteToAddress a v hw).regs.PORTF &&& 0xF3 = v &&& 0xF3
    ∧ (WriteByteToAddress a v hw).regs.PORTC &&& 0xC0 = (v &&& 0x0C) <<< 4
    ∧ dataIdle (WriteByteToAddress a v hw).regs = false
    ∧ dataIdle (GPIO_Init hw).regs = true
    ∧ dataIdle (ReadByteFromAddress dev b hw).2.regs = true
    ∧ dataIdle (ReadByteFromAddress dev b (WriteByteToAddress a v hw)).2.regs = true := by
  obtain ⟨h1, h2, h3, h4⟩ := WriteByteToAddress_data a v hw
  refine ⟨h1, h2, h3, h4, ?_, GPIO_Init_dataIdle hw, ReadByteFromAddress_dataIdle dev b hw,
    ReadByteFromAddress_dataIdle dev b _⟩
  simp [dataIdle, dataIn, h1]

/-! ## The write cycle -/

theorem newStores_WriteByteToAddress_WE (a v : Nat) (hw : HW) :
    (newStores hw (WriteByteToAddress a v hw)).map WE_low
      = [false, false, false, false, false, false, false, false, false, true, false, false,
         false] := by
  simp only [newStores, WriteByteToAddress, store, enter, List.append_assoc, List.drop_left,
    List.singleton_append, List.cons_append, List.nil_append, List.map_cons, List.map_nil]
  simp only [WE_low, PORTE_PIN_MASK, WE_ACTIVE_LOW,
    testBit_mod256, Nat.testBit_and, Nat.testBit_or]
  simp [testBit_lit]

theorem port_low (a : Nat) : (a &&& PORTD_PIN_MASK) % 256 = a &&& 0xFF :=
  Nat.mod_eq_of_lt (Nat.lt_of_le_of_lt Nat.and_le_right (by decide))

theorem port_high (a : Nat) :
    ((a >>> 8) &&& CE_ACTIVE_LOW) % 256 &&& 0x7F = (a >>> 8) &&& 0x7F := by
  rw [Nat.mod_eq_of_lt (Nat.lt_of_le_of_lt Nat.and_le_right (by decide))]
  simp only [CE_ACTIVE_LOW, Nat.and_assoc, Nat.and_self]

theorem WriteByteToAddress_split (a v : Nat) (hw : HW) :
    WriteByteToAddress a v hw = writeRelease (writeSetup a v hw) := rfl

theorem newStores_WriteByteToAddress_pulse (a v : Nat) (hw : HW) :
    (newStores hw (WriteByteToAddress a v hw)).filter WE_low = [(writeSetup a v hw).regs] := by
  simp only [newStores, WriteByteToAddress, writeSetup, store, enter, List.append_assoc,
    List.drop_left, List.singleton_append, List.cons_append, List.nil_append, List.filter_cons,
    List.filter_nil]
  simp only [WE_low, PORTE_PIN_MASK, WE_ACTIVE_LOW,
    testBit_mod256, Nat.testBit_and, Nat.testBit_or]
  simp [testBit_lit]

theorem writeSetup_regs (a v : Nat) (hw : HW) :
    (writeSetup a v hw).regs.PORTD = a &&& 0xFF
    ∧ (writeSetup a v hw).regs.PORTB &&& 0x7F = (a >>> 8) &&& 0x7F
    ∧ (writeSetup a v hw).regs.PORTB.testBit 7 = false
    ∧ (writeSetup a v hw).regs.PORTE.testBit 2 = true
    ∧ (writeSetup a v hw).regs.PORTE.testBit 6 = false
    ∧ (writeSetup a v hw).regs.DDRC &&& 0xC0 = 0xC0
    ∧ (writeSetup a v hw).regs.DDRF &&& 0xF3 = 0xF3
    ∧ (writeSetup a v hw).regs.PORTF &&& 0xF3 = v &&& 0xF3
    ∧ (writeSetup a v hw).regs.PORTC &&& 0xC0 = (v &&& 0x0C) <<< 4 := by
  refine ⟨port_low a, port_high a, ?_, ?_, ?_,
    or_mask_and hw.regs.DDRC PORTC_PIN_MASK (by decide),
    or_mask_and hw.regs.DDRF PORTF_PIN_MASK (by decide),
    drive_F hw.regs.PORTF v, drive_C hw.regs.PORTC v⟩
  · simp only [writeSetup, store, enter, CE_ACTIVE_LOW, testBit_mod256, Nat.testBit_and]
    simp [testBit_lit]
  · simp only [writeSetup, store, enter, PORTE_PIN_MASK, WE_ACTIVE_LOW, testBit_mod256,
      Nat.testBit_and, Nat.testBit_or]
    simp [testBit_lit]
  · simp only [writeSetup, store, enter, PORTE_PIN_MASK, WE_ACTIVE_LOW, testBit_mod256,
      Nat.testBit_and, Nat.testBit_or]
    simp [testBit_lit]

theorem busAddress_lines (r : Regs) (a : Nat) (hD : r.PORTD = a &&& 0xFF)
    (hB : r.PORTB &&& 0x7F = (a >>> 8) &&& 0x7F) : busAddress r = a &&& 0x7FFF := by
  have h1 : ∀ x : Nat, x &&& 0xFF = x % 2 ^ 8 := fun x => Nat.and_pow_two_sub_one_eq_mod x 8
  have h2 : ∀ x : Nat, x &&& 0x7F = x % 2 ^ 7 := fun x => Nat.and_pow_two_sub_one_eq_mod x 7
  have h3 : ∀ x : Nat, x &&& 0x7FFF = x % 2 ^ 15 :=
    fun x => Nat.and_pow_two_sub_one_eq_mod x 15
  have h4 : (a >>> 8 % 2 ^ 7) <<< 8 = 2 ^ 8 * (a >>> 8 % 2 ^ 7) := by
    rw [Nat.shiftLeft_eq, Nat.mul_comm]
  have h5 : a % 2 ^ 8 % 2 ^ 8 < 2 ^ 8 := Nat.mod_lt _ (by decide)
  rw [busAddress, hB, hD, h1, h1, h2, h3, h4, ← Nat.mul_add_lt_is_or h5,
    Nat.shiftRight_eq_div_pow]
  omega

/-- C16 (write cycle).  For every hardware state, address `a` and value `v`,
the thirteen register stores of `WriteByteToAddress(a, v)` put `/WE` (bit 6 of
`PORTE`) low in exactly one of the register files they produce, the tenth, and
high in all others, so `/WE` is pulled low exactly once.  In that register
file the address lines carry `a & 0x7FFF` (`PORTD = a & 0xFF`, bits 6..0 of
`PORTB` are `(a >> 8) & 0x7F`), `/CE` (bit 7 of `PORTB`) is low, `/OE` (bit 2
of `PORTE`) is high, the data pins are outputs (`DDRC & 0xC0 = 0xC0`,
`DDRF & 0xF3 = 0xF3`) and carry `v` (`PORTF & 0xF3 = v & 0xF3`,
`PORTC & 0xC0 = (v & 0x0C) << 4`). -/
theorem C16_write_cycle (a v : Nat) (hw : HW) :
    (newStores hw (WriteByteToAddress a v hw)).map WE_low
        = [false, false, false, false, false, false, false, false, false, true, false, false,
           false]
    ∧ ∃ r, (newStores hw (WriteByteToAddress a v hw)).filter WE_low = [r]
        ∧ r.PORTD = a &&& 0xFF
        ∧ r.PORTB &&& 0x7F = (a >>> 8) &&& 0x7F
        ∧ busAddress r = a &&& 0x7FFF
        ∧ r.PORTB.testBit 7 = false
        ∧ r.PORTE.testBit 2 = true
        ∧ r.DDRC &&& 0xC0 = 0xC0
        ∧ r.DDRF &&& 0xF3 = 0xF3
        ∧ r.PORTF &&& 0xF3 = v &&& 0xF3
        ∧ r.PORTC &&& 0xC0 = (v &&& 0x0C) <<< 4 := by
  obtain ⟨hD, hB, hCE, hOE, -, hDC, hDF, hF, hC⟩ := writeSetup_regs a v hw
  exact ⟨newStores_WriteByteToAddress_WE a v hw, _,
    newStores_WriteByteToAddress_pulse a v hw, hD, hB, busAddress_lines _ a hD hB, hCE, hOE,
    hDC, hDF, hF, hC⟩

/-! ## The read cycle -/

theorem readSample_eq (dev : Device) (hw : HW) :
    readSample dev hw
      = (((dev.PINC hw.trace % 256) &&& 0xC0) >>> 4) ||| ((dev.PINF hw.trace % 256) &&& 0xF3) := by
  have h1 : ((dev.PINC hw.trace % 256) &&& 0xC0) >>> 4 < 256 := by
    have : (dev.PINC hw.trace % 256) &&& 0xC0 ≤ 0xC0 := Nat.and_le_right
    rw [Nat.shiftRight_eq_div_pow]
    omega
  have h2 : (dev.PINF hw.trace % 256) &&& 0xF3 < 256 :=
    Nat.lt_of_le_of_lt Nat.and_le_right (by decide)
  simp only [readSample, PORTC_PIN_MASK, PORTF_PIN_MASK]
  rw [Nat.mod_eq_of_lt h1, Nat.mod_eq_of_lt (@Nat.or_lt_two_pow _ _ 8 h1 h2)]

theorem readSetup_regs (a : Nat) (hw : HW) :
    busAddress (readSetup a hw).regs = a &&& 0x7FFF
    ∧ (readSetup a hw).regs.PORTB.testBit 7 = false
    ∧ (readSetup a hw).regs.PORTE.testBit 2 = false
    ∧ (readSetup a hw).regs.PORTE.testBit 6 = true
    ∧ (readSetup a hw).regs.DDRC &&& 0xC0 = 0
    ∧ (readSetup a hw).regs.DDRF &&& 0xF3 = 0
    ∧ (readSetup a hw).regs.PORTC &&& 0xC0 = 0xC0
    ∧ (readSetup a hw).regs.PORTF &&& 0xF3 = 0xF3 := by
  have hA : busAddress (readSetup a hw).regs = a &&& 0x7FFF := by
    rw [readSetup_busAddress]
    exact (Nat.and_pow_two_sub_one_eq_mod a 15).symm
  refine ⟨hA, ?_, ?_, ?_, and_cnot_and hw.regs.DDRC PORTC_PIN_MASK (by decide),
    and_cnot_and hw.regs.DDRF PORTF_PIN_MASK (by decide),
    or_mask_and hw.regs.PORTC PORTC_PIN_MASK (by decide),
    or_mask_and hw.regs.PORTF PORTF_PIN_MASK (by decide)⟩
  · simp only [readSetup, store, enter, CE_ACTIVE_LOW, cnot, testBit_mod256, Nat.testBit_and,
      Nat.testBit_or]
    simp [testBit_lit]
  · simp only [readSetup, store, enter, PORTE_PIN_MASK, OE_ACTIVE_LOW, testBit_mod256,
      Nat.testBit_and, Nat.testBit_or]
    simp [testBit_lit]
  · simp only [readSetup, store, enter, PORTE_PIN_MASK, OE_ACTIVE_LOW, testBit_mod256,
      Nat.testBit_and, Nat.testBit_or]
    simp [testBit_lit]

theorem newStores_ReadByteFromAddress_WE (dev : Device) (a : Nat) (hw : HW) :
    (newStores hw (ReadByteFromAddress dev a hw).2).map WE_low = List.replicate 12 false := by
  simp only [newStores, ReadByteFromAddress, readSetup, readRelease, store, enter,
    List.append_assoc, List.drop_left, List.singleton_append, List.cons_append,
    List.nil_append, List.map_cons, List.map_nil]
  simp only [WE_low, PORTE_PIN_MASK, OE_ACTIVE_LOW,
    testBit_mod256, Nat.testBit_and, Nat.testBit_or]
  simp [testBit_lit, List.replicate]

/-- C17 (read cycle).  For every device, hardware state and address `a`, in the
register file `ReadByteFromAddress(a)` has established when it samples the
input registers (the last of the trace the device has seen at that moment) the
address lines carry `a & 0x7FFF`, `/CE` and `/OE` are low, `/WE` is high, and
the data pins are inputs with pull-ups enabled (`DDRC & 0xC0 = 0`,
`DDRF & 0xF3 = 0`, `PORTC & 0xC0 = 0xC0`, `PORTF & 0xF3 = 0xF3`).  The byte
returned is `((PINC & 0xC0) >> 4) | (PINF & 0xF3)`, so it is the same for any
two devices whose `PINC` agree on bits 7..6 and whose `PINF` agree on bits
7..4 and 1..0.  None of the twelve stores of the call puts `/WE` low. -/
theorem C17_read_cycle (dev : Device) (a : Nat) (hw : HW) :
    (busAddress (readSetup a hw).regs = a &&& 0x7FFF
      ∧ (readSetup a hw).regs.PORTB.testBit 7 = false
      ∧ (readSetup a hw).regs.PORTE.testBit 2 = false
      ∧ (readSetup a hw).regs.PORTE.testBit 6 = true
      ∧ (readSetup a hw).regs.DDRC &&& 0xC0 = 0
      ∧ (readSetup a hw).regs.DDRF &&& 0xF3 = 0
      ∧ (readSetup a hw).regs.PORTC &&& 0xC0 = 0xC0
      ∧ (readSetup a hw).regs.PORTF &&& 0xF3 = 0xF3)
    ∧ (readSetup a hw).trace.getLast? = some (readSetup a hw).regs
    ∧ (ReadByteFromAddress dev a hw).1
        = (((dev.PINC (readSetup a hw).trace % 256) &&& 0xC0) >>> 4)
            ||| ((dev.PINF (readSetup a hw).trace % 256) &&& 0xF3)
    ∧ (∀ dev' : Device,
        (dev'.PINC (readSetup a hw).trace % 256) &&& 0xC0
            = (dev.PINC (readSetup a hw).trace % 256) &&& 0xC0 →
        (dev'.PINF (readSetup a hw).trace % 256) &&& 0xF3
            = (dev.PINF (readSetup a hw).trace % 256) &&& 0xF3 →
        (ReadByteFromAddress dev' a hw).1 = (ReadByteFromAddress dev a hw).1)
    ∧ (newStores hw (ReadByteFromAddress dev a hw).2).map WE_low = List.replicate 12 false := by
  have hS : ∀ d : Device, (ReadByteFromAddress d a hw).1
      = (((d.PINC (readSetup a hw).trace % 256) &&& 0xC0) >>> 4)
          ||| ((d.PINF (readSetup a hw).trace % 256) &&& 0xF3) :=
    fun d => readSample_eq d (readSetup a hw)
  refine ⟨readSetup_regs a hw, readSetup_getLast a hw, hS dev, ?_,
    newStores_ReadByteFromAddress_WE dev a hw⟩
  intro dev' hC hF
  rw [hS dev', hS dev, hC, hF]

/-- The read cycle theorem applied after `GPIO_Init` at address `0x1234`: a
device that returns `0x7F` with all unused input bits set gives the same byte
as one that returns `0x7F` with the unused bits clear. -/
theorem C17_read_cycle_witness :
    (ReadByteFromAddress { PINC := fun _ => 0xFF, PINF := fun _ => 0x7F } 0x1234 HW.init).1
      = (ReadByteFromAddress (constDevice 0x7F) 0x1234 HW.init).1 :=
  (C17_read_cycle (constDevice 0x7F) 0x1234 HW.init).2.2.2.1
    { PINC := fun _ => 0xFF, PINF := fun _ => 0x7F } (by decide) (by decide)

/-! ## Data pin encoding -/

theorem decode_encode (v : Nat) (hv : v < 256) :
    (((v &&& 0x0C) <<< 4) >>> 4) ||| (v &&& 0xF3) = v := by
  have h1 : ((v &&& 0x0C) <<< 4) >>> 4 < 2 ^ 8 := by
    have : v &&& 0x0C ≤ 0x0C := Nat.and_le_right
    rw [Nat.shiftLeft_eq, Nat.shiftRight_eq_div_pow]
    omega
  have h2 : v &&& 0xF3 < 2 ^ 8 := Nat.lt_of_le_of_lt Nat.and_le_right (by decide)
  refine bits_ext 8 (Nat.or_lt_two_pow h1 h2) hv ?_
  intro i hi
  simp only [Nat.testBit_and, Nat.testBit_or, Nat.testBit_shiftLeft, Nat.testBit_shiftRight]
  interval_cases i <;> simp [testBit_lit]

theorem masked_bits (x m : Nat) (h : x &&& m = x) (i : Nat) :
    x.testBit i = (x.testBit i && m.testBit i) := by
  rw [← Nat.testBit_and, h]

theorem encode_decode (c f : Nat) (hc : c &&& 0xC0 = c) (hf : f &&& 0xF3 = f) :
    (c >>> 4) ||| f < 256
    ∧ (((c >>> 4) ||| f) &&& 0x0C) <<< 4 = c
    ∧ ((c >>> 4) ||| f) &&& 0xF3 = f := by
  have hc8 : c < 2 ^ 8 := by
    rw [← hc]
    exact Nat.lt_of_le_of_lt Nat.and_le_right (by decide)
  have hf8 : f < 2 ^ 8 := by
    rw [← hf]
    exact Nat.lt_of_le_of_lt Nat.and_le_right (by decide)
  have h4 : c >>> 4 < 2 ^ 8 := by
    rw [Nat.shiftRight_eq_div_pow]
    omega
  have hv : (c >>> 4) ||| f < 2 ^ 8 := Nat.or_lt_two_pow h4 hf8
  have bc := masked_bits c 0xC0 hc
  have bf := masked_bits f 0xF3 hf
  refine ⟨hv, ?_, ?_⟩
  · have hb : (((c >>> 4) ||| f) &&& 0x0C) <<< 4 < 2 ^ 8 := by
      have : ((c >>> 4) ||| f) &&& 0x0C ≤ 0x0C := Nat.and_le_right
      rw [Nat.shiftLeft_eq]
      omega
    refine bits_ext 8 hb hc8 ?_
    intro i hi
    have b1 := bc i
    have b2 := bf (i - 4)
    simp only [Nat.testBit_and, Nat.testBit_or, Nat.testBit_shiftLeft, Nat.testBit_shiftRight]
    interval_cases i <;> simp [testBit_lit] at b1 b2 ⊢ <;> simp [b1, b2]
  · refine bits_ext 8 (Nat.lt_of_le_of_lt Nat.and_le_right (by decide)) hf8 ?_
    intro i hi
    have b1 := bc (4 + i)
    have b2 := bf i
    simp only [Nat.testBit_and, Nat.testBit_or, Nat.testBit_shiftRight]
    interval_cases i <;> simp [testBit_lit] at b1 b2 ⊢ <;> simp [b1, b2]

/-- C18 (data-pin encoding round trip).  For every byte `v`: whatever `PORTC`
and `PORTF` held before, `WriteByteToAddress` leaves the data pins driving
`PORTC & 0xC0 = (v & 0x0C) << 4` and `PORTF & 0xF3 = v & 0xF3`; and whenever
the input registers show these levels when `ReadByteFromAddress` samples them
(`PINC & 0xC0 = (v & 0x0C) << 4`, `PINF & 0xF3 = v & 0xF3`), the byte it
returns is `v`.  The split of a byte over bits 7, 6, 5, 4, 1, 0 of port F and
bits 7, 6 of port C is a bijection: decoding the encoding of a byte gives the
byte back, and every pair of pin patterns within the two masks is the encoding
of the byte it decodes to. -/
theorem C18_data_pin_round_trip (dev : Device) (a b v : Nat) (hw hw' : HW) (hv : v < 256) :
    ((WriteByteToAddress a v hw).regs.PORTC &&& 0xC0 = (v &&& 0x0C) <<< 4
      ∧ (WriteByteToAddress a v hw).regs.PORTF &&& 0xF3 = v &&& 0xF3)
    ∧ ((dev.PINC (readSetup b hw').trace % 256) &&& 0xC0 = (v &&& 0x0C) <<< 4 →
        (dev.PINF (readSetup b hw').trace % 256) &&& 0xF3 = v &&& 0xF3 →
        (ReadByteFromAddress dev b hw').1 = v)
    ∧ (((v &&& 0x0C) <<< 4) >>> 4) ||| (v &&& 0xF3) = v
    ∧ (∀ c f : Nat, c &&& 0xC0 = c → f &&& 0xF3 = f →
        (c >>> 4) ||| f < 256
        ∧ (((c >>> 4) ||| f) &&& 0x0C) <<< 4 = c
        ∧ ((c >>> 4) ||| f) &&& 0xF3 = f) := by
  obtain ⟨-, -, hF, hC⟩ := WriteByteToAddress_data a v hw
  refine ⟨⟨hC, hF⟩, ?_, decode_encode v hv, encode_decode⟩
  intro h1 h2
  have hS : (ReadByteFromAddress dev b hw').1
      = (((dev.PINC (readSetup b hw').trace % 256) &&& 0xC0) >>> 4)
          ||| ((dev.PINF (readSetup b hw').trace % 256) &&& 0xF3) :=
    readSample_eq dev (readSetup b hw')
  rw [hS, h1, h2]
  exact decode_encode v hv

/-- The round trip theorem applied to the byte `0xAB` written after `GPIO_Init`
and read back through a device that shows `0xAB` on the data pins. -/
theorem C18_data_pin_round_trip_witness :
    (ReadByteFromAddress (constDevice 0xAB) 0x0010 (WriteByteToAddress 0x0010 0xAB HW.init)).1
      = 0xAB :=
  (C18_data_pin_round_trip (constDevice 0xAB) 0x0010 0x0010 0xAB HW.init
    (WriteByteToAddress 0x0010 0xAB HW.init) (by decide)).2.1 (by decide) (by decide)

/-! ## No bus contention -/

theorem WriteByteToAddress_trace (a v : Nat) (hw : HW) :
    (WriteByteToAddress a v hw).trace = hw.trace ++ newStores hw (WriteByteToAddress a v hw) := by
  simp only [newStores, WriteByteToAddress, store, enter, List.append_assoc, List.drop_left]

theorem ReadByteFromAddress_trace (dev : Device) (a : Nat) (hw : HW) :
    (ReadByteFromAddress dev a hw).2.trace
      = hw.trace ++ newStores hw (ReadByteFromAddress dev a hw).2 := by
  simp only [newStores, ReadByteFromAddress, readSetup, readRelease, store, enter,
    List.append_assoc, List.drop_left]

theorem WriteByteToAddress_contention (a v : Nat) (hw : HW) :
    (newStores hw (WriteByteToAddress a v hw)).any contention = false := by
  simp only [newStores, WriteByteToAddress, store, enter, List.append_assoc, List.drop_left,
    List.singleton_append, List.cons_append, List.nil_append, List.any_cons, List.any_nil]
  simp only [contention, OE_low, WE_low, PORTE_PIN_MASK, WE_ACTIVE_LOW,
    testBit_mod256, Nat.testBit_and, Nat.testBit_or]
  simp [testBit_lit]

theorem ReadByteFromAddress_contention (dev : Device) (a : Nat) (hw : HW) :
    (newStores hw (ReadByteFromAddress dev a hw).2).any contention = false := by
  have hC := and_cnot_and hw.regs.DDRC PORTC_PIN_MASK (by decide)
  have hF := and_cnot_and hw.regs.DDRF PORTF_PIN_MASK (by decide)
  simp only [PORTC_PIN_MASK, PORTF_PIN_MASK] at hC hF
  simp only [newStores, ReadByteFromAddress, readSetup, readRelease, store, enter,
    List.append_assoc, List.drop_left, List.singleton_append, List.cons_append,
    List.nil_append, List.any_cons, List.any_nil]
  simp only [contention, OE_low, WE_low, PORTE_PIN_MASK, OE_ACTIVE_LOW,
    testBit_mod256, Nat.testBit_and, Nat.testBit_or]
  simp [testBit_lit, dataIn, hC, hF, PORTC_PIN_MASK, PORTF_PIN_MASK]

theorem runCall_trace (dev : Device) (op : BusOp) (hw : HW) :
    (runCall dev op hw).trace = hw.trace ++ newStores hw (runCall dev op hw)
    ∧ (newStores hw (runCall dev op hw)).any contention = false := by
  cases op with
  | write a v => exact ⟨WriteByteToAddress_trace a v hw, WriteByteToAddress_contention a v hw⟩
  | read a =>
    exact ⟨ReadByteFromAddress_trace dev a hw, ReadByteFromAddress_contention dev a hw⟩

theorem runCalls_trace (dev : Device) (ops : List BusOp) (hw : HW) :
    (runCalls dev ops hw).trace = hw.trace ++ newStores hw (runCalls dev ops hw)
    ∧ (newStores hw (runCalls dev ops hw)).any contention = false := by
  induction ops generalizing hw with
  | nil => simp [runCalls, newStores]
  | cons op rest ih =>
    obtain ⟨h1, h2⟩ := runCall_trace dev op hw
    obtain ⟨h3, h4⟩ := ih (runCall dev op hw)
    have hnew : newStores hw (runCalls dev (op :: rest) hw)
        = newStores hw (runCall dev op hw)
            ++ newStores (runCall dev op hw) (runCalls dev rest (runCall dev op hw)) := by
      show List.drop hw.trace.length (runCalls dev rest (runCall dev op hw)).trace = _
      rw [h3]
      conv_lhs => rw [h1]
      rw [List.append_assoc, List.drop_left]
    constructor
    · show (runCalls dev rest (runCall dev op hw)).trace = _
      rw [hnew, ← List.append_assoc, ← h1, ← h3]
    · rw [hnew, List.any_append, h2, h4]
      rfl

theorem runCalls_calls (dev : Device) (ops : List BusOp) (hw : HW) :
    (runCalls dev ops hw).calls = hw.calls ++ ops := by
  induction ops generalizing hw with
  | nil => simp [runCalls]
  | cons op rest ih =>
    cases op with
    | write a v => simp [runCalls, runCall, ih, WriteByteToAddress_calls]
    | read a => simp [runCalls, runCall, ih, ReadByteFromAddress_calls]

/-- C19 (no bus contention).  For every device, every initial hardware state
and every sequence of `WriteByteToAddress` and `ReadByteFromAddress` calls, in
none of the register files produced by the stores of these calls, from the
first store of the first call on, is `/OE` (bit 2 of `PORTE`) low while a data
pin is configured as an output (`DDRC & 0xC0 != 0` or `DDRF & 0xF3 != 0`), and
in none are `/OE` and `/WE` (bit 6 of `PORTE`) both low. -/
theorem C19_no_bus_contention (dev : Device) (ops : List BusOp) (hw : HW) :
    (runCalls dev ops hw).trace = hw.trace ++ newStores hw (runCalls dev ops hw)
    ∧ (runCalls dev ops hw).calls = hw.calls ++ ops
    ∧ (newStores hw (runCalls dev ops hw)).any
        (fun r => (OE_low r && !(r.DDRC &&& 0xC0 == 0 && r.DDRF &&& 0xF3 == 0))
          || (OE_low r && WE_low r)) = false :=
  ⟨(runCalls_trace dev ops hw).1, runCalls_calls dev ops hw, (runCalls_trace dev ops hw).2⟩

/-! ## Queue safety -/

theorem GET_OPCODE_ne_READ_WRITE : GET_OPCODE ≠ READ_WRITE := by decide

theorem GET_H_ADDRESS_ne_READ_WRITE : GET_H_ADDRESS ≠ READ_WRITE := by decide

theorem GET_L_ADDRESS_ne_READ_WRITE : GET_L_ADDRESS ≠ READ_WRITE := by decide

theorem execute_total (dev : Device) (s : Sys) (hs : s.state = READ_WRITE)
    (hout : RingBuffer_GetCount s.USB_Outgoing_Buffer < BUFFER_SIZE) :
    ∃ t k reply, ProcessBuffer_execute dev s = some t
      ∧ k ≤ 1 ∧ k ≤ s.USB_Incoming_Buffer.length
      ∧ t.USB_Incoming_Buffer = s.USB_Incoming_Buffer.drop k
      ∧ reply.length ≤ 1 ∧ t.USB_Outgoing_Buffer = s.USB_Outgoing_Buffer ++ reply
      ∧ (t.state = READ_WRITE →
            t.opcode ≠ READ ∧ (t.opcode = WRITE → t.USB_Incoming_Buffer = [])) := by
  by_cases hr : s.opcode = READ
  · exact ⟨_, 0, _, execute_read dev s hs hr hout, by simp, by simp, rfl, by simp, rfl,
      fun h => absurd h GET_OPCODE_ne_READ_WRITE⟩
  · by_cases hw : s.opcode = WRITE
    · obtain hin | ⟨data, rest, hin⟩ := nil_or_cons s.USB_Incoming_Buffer
      · exact ⟨_, 0, [], execute_write_empty dev s hw hin, by simp, by simp, rfl, by simp,
          by simp, fun _ => ⟨hr, fun _ => hin⟩⟩
      · exact ⟨_, 1, _, execute_write dev s data rest hs hw hin hout, by simp, by simp [hin],
          by simp [hin], by simp, rfl, fun h => absurd h GET_OPCODE_ne_READ_WRITE⟩
    · exact ⟨_, 0, [], execute_other dev s hr hw, by simp, by simp, rfl, by simp, by simp,
        fun _ => ⟨hr, fun h => absurd h hw⟩⟩

theorem ProcessBuffer_total (dev : Device) (s : Sys)
    (hout : RingBuffer_GetCount s.USB_Outgoing_Buffer ≤ BUFFER_SIZE) :
    ∃ t k reply, ProcessBuffer dev s = some t
      ∧ k ≤ 2 ∧ k ≤ s.USB_Incoming_Buffer.length
      ∧ t.USB_Incoming_Buffer = s.USB_Incoming_Buffer.drop k
      ∧ reply.length ≤ 1 ∧ t.USB_Outgoing_Buffer = s.USB_Outgoing_Buffer ++ reply
      ∧ RingBuffer_GetCount t.USB_Outgoing_Buffer ≤ BUFFER_SIZE
      ∧ ((s.state = READ_WRITE → s.opcode ≠ READ) →
          t.state = READ_WRITE →
            t.opcode ≠ READ
            ∧ (t.opcode = WRITE →
                t.USB_Incoming_Buffer = [] ∨ RingBuffer_IsFull t.USB_Outgoing_Buffer = true)) := by
  by_cases hfull : RingBuffer_IsFull s.USB_Outgoing_Buffer = true
  · exact ⟨s, 0, [], ProcessBuffer_full dev s hfull, by simp, by simp, rfl, by simp, by simp, hout,
      fun hi h => ⟨hi h, fun _ => Or.inr hfull⟩⟩
  have hq : RingBuffer_GetCount s.USB_Outgoing_Buffer < BUFFER_SIZE := by
    simp only [RingBuffer_IsFull, beq_iff_eq] at hfull
    omega
  have hcap : ∀ reply : List Nat, reply.length ≤ 1 →
      RingBuffer_GetCount (s.USB_Outgoing_Buffer ++ reply) ≤ BUFFER_SIZE := by
    intro reply hl
    simp only [RingBuffer_GetCount, List.length_append] at hq ⊢
    omega
  by_cases h3 : s.state = READ_WRITE
  · obtain ⟨t, k, reply, ht, hk, hk', hi, hl, ho, hinv⟩ := execute_total dev s h3 hq
    exact ⟨t, k, reply, (ProcessBuffer_at_execute dev s h3).trans ht, by omega, hk', hi, hl, ho,
      ho ▸ hcap reply hl, fun _ h => ⟨(hinv h).1, fun hw => Or.inl ((hinv h).2 hw)⟩⟩
  obtain hin | ⟨x, rest, hin⟩ := nil_or_cons s.USB_Incoming_Buffer
  · exact ⟨s, 0, [], ProcessBuffer_empty dev s hin (fun h => absurd h h3), by simp, by simp, rfl,
      by simp, by simp, hout, fun _ h => absurd h h3⟩
  by_cases hs0 : s.state = GET_OPCODE
  · by_cases hon : x = SDP_ON
    · subst hon
      exact ⟨_, 1, [ACK_E], ProcessBuffer_sdp_on dev s rest hs0 hin hq, by simp, by simp [hin],
        by simp [hin], by simp, rfl, hcap _ (by simp), fun _ h => absurd h GET_OPCODE_ne_READ_WRITE⟩
    · by_cases hoff : x = SDP_OFF
      · subst hoff
        exact ⟨_, 1, [ACK_D], ProcessBuffer_sdp_off dev s rest hs0 hin hq, by simp, by simp [hin],
          by simp [hin], by simp, rfl, hcap _ (by simp), fun _ h => absurd h GET_OPCODE_ne_READ_WRITE⟩
      · exact ⟨_, 1, [], ProcessBuffer_opcode dev s x rest hs0 hin hq hon hoff, by simp,
          by simp [hin], by simp [hin], by simp, by simp, by simpa using hout,
          fun _ h => absurd h GET_H_ADDRESS_ne_READ_WRITE⟩
  by_cases hs1 : s.state = GET_H_ADDRESS
  · exact ⟨_, 1, [], ProcessBuffer_high dev s x rest hs1 hin hq, by simp, by simp [hin],
      by simp [hin], by simp, by simp, by simpa using hout,
      fun _ h => absurd h GET_L_ADDRESS_ne_READ_WRITE⟩
  by_cases hs2 : s.state = GET_L_ADDRESS
  · obtain ⟨t, k, reply, ht, hk, hk', hi, hl, ho, hinv⟩ := execute_total dev
      { s with address := (s.address ||| x) % 65536, USB_Incoming_Buffer := rest,
               state := READ_WRITE } rfl hq
    refine ⟨t, k + 1, reply, (ProcessBuffer_low dev s x rest hs2 hin hq).trans ht, by omega,
      ?_, ?_, hl, ho, ho ▸ hcap reply hl,
      fun _ h => ⟨(hinv h).1, fun hw => Or.inl ((hinv h).2 hw)⟩⟩
    · simp only [hin, List.length_cons]
      exact Nat.succ_le_succ hk'
    · rw [hi, hin]
      rfl
  exact ⟨s, 0, [], ProcessBuffer_other_state dev s hs0 hs1 hs2 h3, by simp, by simp, rfl,
    by simp, by simp, hout, fun _ h => absurd h h3⟩
/-! ## The flush of the outgoing buffer -/

theorem leadingSuccesses_le (sendOk : Nat → Bool) :
    ∀ n i, leadingSuccesses sendOk n i ≤ n := by
  intro n
  induction n with
  | zero => intro i; simp [leadingSuccesses]
  | succ n ih =>
    intro i
    simp only [leadingSuccesses]
    split
    · exact Nat.succ_le_succ (ih (i + 1))
    · omega

theorem leadingSuccesses_ok (sendOk : Nat → Bool) :
    ∀ n i j, j < leadingSuccesses sendOk n i → sendOk (i + j) = true := by
  intro n
  induction n with
  | zero => intro i j h; simp [leadingSuccesses] at h
  | succ n ih =>
    intro i j h
    simp only [leadingSuccesses] at h
    split at h
    · rename_i hi
      cases j with
      | zero => simpa using hi
      | succ j =>
        have := ih (i + 1) j (by omega)
        rwa [Nat.add_assoc, Nat.add_comm 1 j] at this
    · omega

theorem leadingSuccesses_fail (sendOk : Nat → Bool) :
    ∀ n i, leadingSuccesses sendOk n i < n →
      sendOk (i + leadingSuccesses sendOk n i) = false := by
  intro n
  induction n with
  | zero => intro i h; omega
  | succ n ih =>
    intro i h
    simp only [leadingSuccesses] at h ⊢
    split
    · rename_i hi
      rw [if_pos hi] at h
      have := ih (i + 1) (by omega)
      rwa [Nat.add_assoc, Nat.add_comm 1] at this
    · rename_i hi
      simpa using hi

theorem flushLoop_spec (sendOk : Nat → Bool) :
    ∀ (n i : Nat) (q : RingBuffer) (handed : List Nat), n ≤ q.length →
      flushLoop sendOk n i q handed
        = some (q.drop (leadingSuccesses sendOk n i),
                handed ++ q.take (min (leadingSuccesses sendOk n i + 1) n)) := by
  intro n
  induction n with
  | zero => intro i q handed _; simp [flushLoop, leadingSuccesses]
  | succ n ih =>
    intro i q handed hn
    cases q with
    | nil => simp at hn
    | cons b q =>
      have hn' : n ≤ q.length := by simpa using hn
      by_cases hi : sendOk i = true
      · simp only [flushLoop, leadingSuccesses, RingBuffer_Peek, RingBuffer_Remove, hi,
          List.head?_cons, Option.bind_eq_bind, Option.some_bind, if_true, ih (i + 1) q _ hn',
          List.drop_succ_cons, Nat.add_min_add_right, List.take_succ_cons, List.append_assoc,
          List.singleton_append]
      · simp [flushLoop, leadingSuccesses, RingBuffer_Peek, hi]

theorem take_succ_of_drop (q : List Nat) (k b : Nat) (rest : List Nat)
    (h : q.drop k = b :: rest) : q.take (k + 1) = q.take k ++ [b] := by
  rw [List.take_add, h]
  rfl

theorem flushOutgoing_spec (bankLimit : Nat) (inp : PassInput) (q : RingBuffer)
    (hq : RingBuffer_GetCount q ≤ BUFFER_SIZE) :
    flushOutgoing bankLimit inp q
      = some (q.drop (leadingSuccesses inp.sendOk
                        (if inp.inReady then min (RingBuffer_GetCount q) bankLimit else 0) 0),
              q.take (min (leadingSuccesses inp.sendOk
                        (if inp.inReady then min (RingBuffer_GetCount q) bankLimit else 0) 0 + 1)
                      (if inp.inReady then min (RingBuffer_GetCount q) bankLimit else 0))) := by
  have h10 : q.length ≤ 10 := hq
  have e1 : q.length % 65536 = q.length := Nat.mod_eq_of_lt (by omega)
  have e2 : min q.length bankLimit % 256 = min q.length bankLimit :=
    Nat.mod_eq_of_lt (by have := Nat.min_le_left q.length bankLimit; omega)
  by_cases hr : inp.inReady = true
  · by_cases h0 : q.length = 0
    · have : q = [] := List.length_eq_zero.mp h0
      subst this
      simp [flushOutgoing, RingBuffer_GetCount, leadingSuccesses]
    · simp only [flushOutgoing, RingBuffer_GetCount, e1, e2, hr, if_true, ne_eq, h0,
        not_false_eq_true]
      rw [flushLoop_spec inp.sendOk _ 0 q [] (Nat.min_le_left _ _)]
      rfl
  · simp [flushOutgoing, hr, leadingSuccesses]

/-- C15: for every content `q` of the outgoing buffer (at most `BUFFER_SIZE`
bytes) and every pattern `sendOk` of send successes and failures, the flush of
one pass makes `m` attempts at most (`m` is the smaller of the byte count and
`CDC_TXRX_EPSIZE - 1` when the endpoint is ready, otherwise 0), removes
exactly the first `k` bytes of the buffer, where `k` is the number of sends
that succeed before the first failure, and hands the transport a contiguous
part of the head of the buffer in FIFO order: the `k` removed bytes when every
send succeeded, and otherwise these followed by the byte whose send failed,
which is still at the head of the buffer afterwards. -/
theorem C15_flush_loses_no_byte (bankLimit : Nat) (inp : PassInput) (q : RingBuffer)
    (hq : RingBuffer_GetCount q ≤ BUFFER_SIZE) :
    ∃ m k handed,
      m = (if inp.inReady then min (RingBuffer_GetCount q) bankLimit else 0)
      ∧ k = leadingSuccesses inp.sendOk m 0
      ∧ flushOutgoing bankLimit inp q = some (q.drop k, handed)
      ∧ k ≤ m ∧ m ≤ RingBuffer_GetCount q
      ∧ q = q.take k ++ q.drop k
      ∧ (∀ j, j < k → inp.sendOk j = true)
      ∧ (∃ tail, q = handed ++ tail)
      ∧ (k = m → handed = q.take k)
      ∧ (k < m → inp.sendOk k = false
            ∧ ∃ b rest, q.drop k = b :: rest ∧ RingBuffer_Peek (q.drop k) = some b
                ∧ handed = q.take k ++ [b]) := by
  have hm : (if inp.inReady then min (RingBuffer_GetCount q) bankLimit else 0)
      ≤ RingBuffer_GetCount q := by
    split
    · exact Nat.min_le_left _ _
    · exact Nat.zero_le _
  refine ⟨_, _, _, rfl, rfl, flushOutgoing_spec bankLimit inp q hq,
    leadingSuccesses_le _ _ _, hm, (List.take_append_drop _ _).symm, ?_,
    ⟨_, (List.take_append_drop _ _).symm⟩, ?_, ?_⟩
  · intro j hj
    simpa using leadingSuccesses_ok inp.sendOk _ 0 j hj
  · intro h
    exact congrArg (fun n => List.take n q) (by omega)
  · intro h
    have hlen : leadingSuccesses inp.sendOk
        (if inp.inReady then min (RingBuffer_GetCount q) bankLimit else 0) 0 < q.length :=
      Nat.lt_of_lt_of_le h hm
    refine ⟨by simpa using leadingSuccesses_fail inp.sendOk _ 0 h, ?_⟩
    obtain hnil | ⟨b, rest, hd⟩ := nil_or_cons (q.drop (leadingSuccesses inp.sendOk
        (if inp.inReady then min (RingBuffer_GetCount q) bankLimit else 0) 0))
    · have := congrArg List.length hnil
      simp only [List.length_drop, List.length_nil] at this
      omega
    · refine ⟨b, rest, hd, by rw [hd]; rfl, ?_⟩
      exact (congrArg (fun n => List.take n q) (by omega)).trans
        (take_succ_of_drop q _ b rest hd)

theorem C15_flush_loses_no_byte_witness :
    RingBuffer_GetCount [0x41, 0x42, 0x43] ≤ BUFFER_SIZE
    ∧ flushOutgoing 15 { received := none, inReady := true, sendOk := fun i => decide (i < 1) }
          [0x41, 0x42, 0x43] = some ([0x42, 0x43], [0x41, 0x42])
    ∧ ∃ m k handed,
      m = (if (PassInput.mk none true (fun i => decide (i < 1))).inReady
            then min (RingBuffer_GetCount [0x41, 0x42, 0x43]) 15 else 0)
      ∧ k = leadingSuccesses (PassInput.mk none true (fun i => decide (i < 1))).sendOk m 0
      ∧ flushOutgoing 15 (PassInput.mk none true (fun i => decide (i < 1))) [0x41, 0x42, 0x43]
          = some ([0x41, 0x42, 0x43].drop k, handed)
      ∧ k ≤ m ∧ m ≤ RingBuffer_GetCount [0x41, 0x42, 0x43]
      ∧ [0x41, 0x42, 0x43] = [0x41, 0x42, 0x43].take k ++ [0x41, 0x42, 0x43].drop k
      ∧ (∀ j, j < k → (PassInput.mk none true (fun i => decide (i < 1))).sendOk j = true)
      ∧ (∃ tail, [0x41, 0x42, 0x43] = handed ++ tail)
      ∧ (k = m → handed = [0x41, 0x42, 0x43].take k)
      ∧ (k < m → (PassInput.mk none true (fun i => decide (i < 1))).sendOk k = false
            ∧ ∃ b rest, [0x41, 0x42, 0x43].drop k = b :: rest
                ∧ RingBuffer_Peek ([0x41, 0x42, 0x43].drop k) = some b
                ∧ handed = [0x41, 0x42, 0x43].take k ++ [b]) :=
  ⟨by decide, by decide,
    C15_flush_loses_no_byte 15 (PassInput.mk none true (fun i => decide (i < 1)))
      [0x41, 0x42, 0x43] (by decide)⟩
/-! ## The main loop never performs an illegal queue operation -/

theorem receiveByte_total (rx : Option Nat) (s : Sys)
    (hin : RingBuffer_GetCount s.USB_Incoming_Buffer ≤ BUFFER_SIZE) :
    ∃ t, receiveByte rx s = some t
      ∧ RingBuffer_GetCount t.USB_Incoming_Buffer ≤ BUFFER_SIZE
      ∧ t.USB_Outgoing_Buffer = s.USB_Outgoing_Buffer
      ∧ t.state = s.state ∧ t.opcode = s.opcode := by
  by_cases hfull : RingBuffer_IsFull s.USB_Incoming_Buffer = true
  · exact ⟨s, by simp [receiveByte, hfull], hin, rfl, rfl, rfl⟩
  · have hq : RingBuffer_GetCount s.USB_Incoming_Buffer < BUFFER_SIZE := by
      simp only [RingBuffer_IsFull, beq_iff_eq] at hfull
      omega
    cases rx with
    | none => exact ⟨s, by simp [receiveByte], hin, rfl, rfl, rfl⟩
    | some b =>
      refine ⟨{ s with USB_Incoming_Buffer := s.USB_Incoming_Buffer ++ [b % 256] },
        by simp [receiveByte, isFull_eq_false hq, insert_of_room hq], ?_, rfl, rfl, rfl⟩
      simp only [RingBuffer_GetCount, List.length_append, List.length_singleton] at hq ⊢
      omega

theorem mainPass_total (bankLimit : Nat) (dev : Device) (inp : PassInput) (s : Sys)
    (hs : withinCapacity s) :
    ∃ t handed, mainPass bankLimit dev inp s = some (t, handed) ∧ withinCapacity t := by
  obtain ⟨s1, h1, hin1, hout1, _, _⟩ := receiveByte_total inp.received s hs.1
  have hcap1 : RingBuffer_GetCount s1.USB_Outgoing_Buffer ≤ BUFFER_SIZE := hout1 ▸ hs.2
  have h2 := flushOutgoing_spec bankLimit inp s1.USB_Outgoing_Buffer hcap1
  obtain ⟨t, k, reply, h3, _, _, hi, _, _, hcap, _⟩ := ProcessBuffer_total dev
    { s1 with USB_Outgoing_Buffer := s1.USB_Outgoing_Buffer.drop (leadingSuccesses inp.sendOk
        (if inp.inReady then min (RingBuffer_GetCount s1.USB_Outgoing_Buffer) bankLimit else 0) 0) }
    (by
      simp only [RingBuffer_GetCount, List.length_drop] at hcap1 ⊢
      omega)
  refine ⟨t, _, by simp only [mainPass, h1, h2, h3, Option.bind_eq_bind, Option.some_bind]; rfl,
    ?_, hcap⟩
  rw [hi]
  simp only [RingBuffer_GetCount, List.length_drop] at hin1 ⊢
  omega

theorem mainLoop_total (bankLimit : Nat) (dev : Device) :
    ∀ (inputs : List PassInput) (s : Sys), withinCapacity s →
      ∃ t handed, mainLoop bankLimit dev inputs s = some (t, handed) ∧ withinCapacity t := by
  intro inputs
  induction inputs with
  | nil => intro s hs; exact ⟨s, [], rfl, hs⟩
  | cons inp rest ih =>
    intro s hs
    obtain ⟨s1, h1, e1, hs1⟩ := mainPass_total bankLimit dev inp s hs
    obtain ⟨t, h2, e2, ht⟩ := ih s1 hs1
    exact ⟨t, h1 ++ h2, by simp [mainLoop, e1, e2], ht⟩

/-- C14: from any state whose two ring buffers hold at most `BUFFER_SIZE` = 10
bytes (in particular two empty buffers), every execution of the main loop, for
every behaviour of the transport and of the device, performs only legal queue
operations (no insertion into a full buffer, no removal from or peek at an
empty one: the model yields `none` for these) and leaves both buffers within
capacity; and a single invocation of `ProcessBuffer` removes at most two bytes
from the head of the incoming buffer and appends at most one byte to the
outgoing buffer. -/
theorem C14_queue_safety (bankLimit : Nat) (dev : Device) (inputs : List PassInput) (s : Sys)
    (hs : withinCapacity s) :
    (∃ t handed, mainLoop bankLimit dev inputs s = some (t, handed) ∧ withinCapacity t)
    ∧ ∃ t k reply, ProcessBuffer dev s = some t ∧ withinCapacity t
        ∧ k ≤ 2 ∧ k ≤ RingBuffer_GetCount s.USB_Incoming_Buffer
        ∧ t.USB_Incoming_Buffer = s.USB_Incoming_Buffer.drop k
        ∧ RingBuffer_GetCount reply ≤ 1
        ∧ t.USB_Outgoing_Buffer = s.USB_Outgoing_Buffer ++ reply := by
  refine ⟨mainLoop_total bankLimit dev inputs s hs, ?_⟩
  obtain ⟨t, k, reply, h, hk, hk', hi, hl, ho, hcap, _⟩ := ProcessBuffer_total dev s hs.2
  refine ⟨t, k, reply, h, ⟨?_, hcap⟩, hk, hk', hi, hl, ho⟩
  rw [hi]
  have := hs.1
  simp only [RingBuffer_GetCount, List.length_drop] at this ⊢
  omega

theorem C14_queue_safety_witness :
    withinCapacity Sys.init
    ∧ (∃ t handed,
        mainLoop 15 (constDevice 0x5A)
          [PassInput.mk (some 0x72) true (fun _ => true), PassInput.mk (some 0x12) true (fun _ => true),
           PassInput.mk (some 0x34) false (fun _ => true), PassInput.mk none true (fun _ => false),
           PassInput.mk none true (fun _ => true)] Sys.init = some (t, handed)
        ∧ withinCapacity t)
    ∧ ∃ t k reply, ProcessBuffer (constDevice 0x5A) Sys.init = some t ∧ withinCapacity t
        ∧ k ≤ 2 ∧ k ≤ RingBuffer_GetCount Sys.init.USB_Incoming_Buffer
        ∧ t.USB_Incoming_Buffer = Sys.init.USB_Incoming_Buffer.drop k
        ∧ RingBuffer_GetCount reply ≤ 1
        ∧ t.USB_Outgoing_Buffer = Sys.init.USB_Outgoing_Buffer ++ reply :=
  ⟨by decide, C14_queue_safety 15 (constDevice 0x5A) _ Sys.init (by decide)⟩

/-! ## A ready read never waits -/

theorem Event_apply_total (dev : Device) (e : Event) (s : Sys) (hs : withinCapacity s)
    (hinv : s.state = READ_WRITE → s.opcode ≠ READ) :
    ∃ t, Event.apply dev e s = some t ∧ withinCapacity t
      ∧ (t.state = READ_WRITE → t.opcode ≠ READ) := by
  cases e with
  | invoke =>
    obtain ⟨t, k, reply, h, _, _, hi, _, _, hcap, hr⟩ := ProcessBuffer_total dev s hs.2
    refine ⟨t, h, ⟨?_, hcap⟩, fun ht => (hr hinv ht).1⟩
    rw [hi]
    have := hs.1
    simp only [RingBuffer_GetCount, List.length_drop] at this ⊢
    omega
  | fill b =>
    obtain ⟨t, h, hin, hout, hst, hop⟩ := receiveByte_total (some b) s hs.1
    exact ⟨t, h, ⟨hin, hout ▸ hs.2⟩, fun ht => hop ▸ hinv (hst ▸ ht)⟩
  | drain =>
    obtain hnil | ⟨x, rest, hq⟩ := nil_or_cons s.USB_Outgoing_Buffer
    · exact ⟨s, by simp [Event.apply, RingBuffer_IsEmpty, RingBuffer_GetCount, hnil], hs, hinv⟩
    · refine ⟨{ s with USB_Outgoing_Buffer := rest },
        by simp [Event.apply, RingBuffer_IsEmpty, RingBuffer_GetCount, hq, RingBuffer_Remove],
        ⟨hs.1, ?_⟩, hinv⟩
      have := hs.2
      simp only [RingBuffer_GetCount, hq, List.length_cons] at this ⊢
      omega

theorem runEvents_total (dev : Device) :
    ∀ (events : List Event) (s : Sys), withinCapacity s →
      (s.state = READ_WRITE → s.opcode ≠ READ) →
      ∃ t, runEvents dev events s = some t ∧ withinCapacity t
        ∧ (t.state = READ_WRITE → t.opcode ≠ READ) := by
  intro events
  induction events with
  | nil => intro s hs hinv; exact ⟨s, rfl, hs, hinv⟩
  | cons e rest ih =>
    intro s hs hinv
    obtain ⟨s1, h1, hs1, hinv1⟩ := Event_apply_total dev e s hs hinv
    obtain ⟨t, h2, ht⟩ := ih s1 hs1 hinv1
    exact ⟨t, by simp [runEvents, h1, h2], ht⟩

theorem ProcessBuffer_low_read (dev : Device) (s : Sys) (lo : Nat) (rest : List Nat)
    (hs : s.state = GET_L_ADDRESS) (ho : s.opcode = READ)
    (hin : s.USB_Incoming_Buffer = lo :: rest)
    (hout : RingBuffer_GetCount s.USB_Outgoing_Buffer < BUFFER_SIZE) :
    ProcessBuffer dev s
      = some { s with
          address := (s.address ||| lo) % 65536,
          USB_Incoming_Buffer := rest,
          hw := (ReadByteFromAddress dev ((s.address ||| lo) % 65536) s.hw).2,
          USB_Outgoing_Buffer := s.USB_Outgoing_Buffer
            ++ [(ReadByteFromAddress dev ((s.address ||| lo) % 65536) s.hw).1],
          state := GET_OPCODE } :=
  (ProcessBuffer_low dev s lo rest hs hin hout).trans
    (execute_read dev _ rfl ho hout)

/-- C20: from an initial state (state `GET_OPCODE`, both buffers empty), every
sequence of `ProcessBuffer` invocations, transport fills of the incoming buffer
and transport drains of the outgoing buffer runs without an illegal queue
operation and ends in a state `t` in which `state == READ_WRITE` implies
`opcode != READ`.  The next invocation from `t` returns a state `u` with
the same property, in which moreover a `WRITE` resting in `READ_WRITE` has an
empty incoming buffer or a full outgoing buffer; and when `t` is in
`GET_L_ADDRESS` with opcode `READ`, a low address byte in the incoming buffer
and room in the outgoing buffer, that invocation consumes the low byte,
performs the read, queues the byte read and returns to `GET_OPCODE`. -/
theorem C20_ready_read_never_waits (dev : Device) (events : List Event) (s0 : Sys)
    (h0 : s0.state = GET_OPCODE) (hin : s0.USB_Incoming_Buffer = [])
    (hout : s0.USB_Outgoing_Buffer = []) :
    ∃ t u, runEvents dev events s0 = some t
      ∧ (t.state = READ_WRITE → t.opcode ≠ READ)
      ∧ ProcessBuffer dev t = some u
      ∧ (u.state = READ_WRITE →
          u.opcode ≠ READ
          ∧ (u.opcode = WRITE →
              u.USB_Incoming_Buffer = [] ∨ RingBuffer_IsFull u.USB_Outgoing_Buffer = true))
      ∧ (∀ lo rest, t.state = GET_L_ADDRESS → t.opcode = READ →
          t.USB_Incoming_Buffer = lo :: rest →
          RingBuffer_IsFull t.USB_Outgoing_Buffer = false →
            u = { t with
                  address := (t.address ||| lo) % 65536,
                  USB_Incoming_Buffer := rest,
                  hw := (ReadByteFromAddress dev ((t.address ||| lo) % 65536) t.hw).2,
                  USB_Outgoing_Buffer := t.USB_Outgoing_Buffer
                    ++ [(ReadByteFromAddress dev ((t.address ||| lo) % 65536) t.hw).1],
                  state := GET_OPCODE }) := by
  have hs0 : withinCapacity s0 := by
    simp [withinCapacity, hin, hout, RingBuffer_GetCount]
  obtain ⟨t, ht, hcap, hinv⟩ := runEvents_total dev events s0 hs0
    (fun h => absurd (h0.symm.trans h) GET_OPCODE_ne_READ_WRITE)
  obtain ⟨u, _, _, hu, _, _, _, _, _, _, hr⟩ := ProcessBuffer_total dev t hcap.2
  refine ⟨t, u, ht, hinv, hu, hr hinv, ?_⟩
  intro lo rest hs ho hi hfull
  have hq : RingBuffer_GetCount t.USB_Outgoing_Buffer < BUFFER_SIZE := by
    have := hcap.2
    simp only [RingBuffer_IsFull, beq_eq_false_iff_ne] at hfull
    omega
  exact Option.some.inj (hu.symm.trans (ProcessBuffer_low_read dev t lo rest hs ho hi hq))

theorem C20_ready_read_never_waits_witness :
    Sys.init.state = GET_OPCODE ∧ Sys.init.USB_Incoming_Buffer = []
    ∧ Sys.init.USB_Outgoing_Buffer = []
    ∧ Option.map Sys.state
        (runEvents (constDevice 0x5A)
          [Event.fill 0x72, Event.invoke, Event.fill 0x12, Event.invoke, Event.fill 0x34]
          Sys.init) = some GET_L_ADDRESS
    ∧ ∃ t u,
      runEvents (constDevice 0x5A)
          [Event.fill 0x72, Event.invoke, Event.fill 0x12, Event.invoke, Event.fill 0x34]
          Sys.init = some t
      ∧ (t.state = READ_WRITE → t.opcode ≠ READ)
      ∧ ProcessBuffer (constDevice 0x5A) t = some u
      ∧ (u.state = READ_WRITE →
          u.opcode ≠ READ
          ∧ (u.opcode = WRITE →
              u.USB_Incoming_Buffer = [] ∨ RingBuffer_IsFull u.USB_Outgoing_Buffer = true))
      ∧ (∀ lo rest, t.state = GET_L_ADDRESS → t.opcode = READ →
          t.USB_Incoming_Buffer = lo :: rest →
          RingBuffer_IsFull t.USB_Outgoing_Buffer = false →
            u = { t with
                  address := (t.address ||| lo) % 65536,
                  USB_Incoming_Buffer := rest,
                  hw := (ReadByteFromAddress (constDevice 0x5A)
                          ((t.address ||| lo) % 65536) t.hw).2,
                  USB_Outgoing_Buffer := t.USB_Outgoing_Buffer
                    ++ [(ReadByteFromAddress (constDevice 0x5A)
                          ((t.address ||| lo) % 65536) t.hw).1],
                  state := GET_OPCODE }) :=
  ⟨rfl, rfl, rfl, by decide,
    C20_ready_read_never_waits (constDevice 0x5A)
      [Event.fill 0x72, Event.invoke, Event.fill 0x12, Event.invoke, Event.fill 0x34]
      Sys.init rfl rfl rfl⟩

end AT28C256
